import Mathlib

/-!
# Region counting, class filtering and event capture

A shallow embedding of the counting core of the camera application:

* `StdMap` and `StdSet` model `std::map<K, V>` and `std::set<T>`: entries kept in strictly
  increasing key order, so that two containers are equal exactly when they hold the same
  entries.
* `RegionCountManager` (RegionCountManager.cpp) is the process-wide store of unique track ids
  per region, with its JSON snapshot read and written through the Qt JSON classes.
* `ClassFilterManager` (ClassFilterManager.cpp) is the set of classes of interest.
* `CameraWidget` (CameraWidget.cpp) holds the per-track occupancy state machine of
  `processFrame` and `captureEvent`, which logs events through `EventManager`, and the class
  matching of `processFrame` with `calcIoU` (yolo_to_bytetrack.h).
* `TelegramBot` (TelegramBot.cpp) posts photos and retries failed deliveries.
* `DetectionEvent` (DetectionEvent.cpp) is written to and read from the JSON of the event
  manifest; `EventManager` (EventManager.cpp) keeps the log and saves the event images.

A `size_t` is a natural number below `2 ^ 64` and an `int` an integer in the 32-bit range;
every cast between integer types is written out, and so is the reduction into the 32-bit
range of the sums and differences of `int` that a box and a frame size enter.
-/

/-! ## Machine integers -/

/-- The value of `static_cast<int>(n)`: reduction into the signed 32-bit range. -/
def toInt32 (n : Int) : Int := (n + 2 ^ 31) % 2 ^ 32 - 2 ^ 31

/-- The value of `static_cast<qint64>(n)`: reduction into the signed 64-bit range. -/
def toInt64 (n : Int) : Int := (n + 2 ^ 63) % 2 ^ 64 - 2 ^ 63

/-- The value of `static_cast<size_t>(n)` for a 64-bit `size_t`. -/
def toSizeT (n : Int) : Nat := (n % 2 ^ 64).toNat

/-! ## std::map -/

namespace StdMap

variable {κ ν : Type} [LinearOrder κ]

/-- Lookup in a list of entries (`std::map::find`): the value stored under `k`, if any. -/
def findEntries (k : κ) : List (κ × ν) → Option ν
  | [] => none
  | (k', v) :: rest => if k = k' then some v else findEntries k rest

/-- Insert-or-assign into an ordered list of entries (`m[k] = v`). -/
def insertEntries (k : κ) (v : ν) : List (κ × ν) → List (κ × ν)
  | [] => [(k, v)]
  | (k', v') :: rest =>
    if k < k' then (k, v) :: (k', v') :: rest
    else if k = k' then (k, v) :: rest
    else (k', v') :: insertEntries k v rest

/-- Removal of the entry stored under `k` (`std::map::erase`). -/
def eraseEntries (k : κ) : List (κ × ν) → List (κ × ν)
  | [] => []
  | (k', v') :: rest => if k = k' then rest else (k', v') :: eraseEntries k rest

/-- Keys strictly increase along the list. -/
def Ordered (l : List (κ × ν)) : Prop := l.Pairwise (fun a b => a.1 < b.1)

instance (l : List (κ × ν)) : Decidable (Ordered l) := by
  unfold Ordered; infer_instance

theorem mem_insertEntries {k : κ} {v : ν} {l : List (κ × ν)} {e : κ × ν}
    (h : e ∈ insertEntries k v l) : e = (k, v) ∨ e ∈ l := by
  induction l with
  | nil => simp [insertEntries] at h; exact Or.inl h
  | cons hd tl ih =>
    obtain ⟨k', v'⟩ := hd
    unfold insertEntries at h
    split_ifs at h with h1 h2
    · simpa using h
    · rcases List.mem_cons.1 h with h | h
      · exact Or.inl h
      · exact Or.inr (List.mem_cons_of_mem _ h)
    · rcases List.mem_cons.1 h with h | h
      · exact Or.inr (h ▸ List.mem_cons_self _ _)
      · rcases ih h with h | h
        · exact Or.inl h
        · exact Or.inr (List.mem_cons_of_mem _ h)

theorem ordered_insertEntries (k : κ) (v : ν) {l : List (κ × ν)} (h : Ordered l) :
    Ordered (insertEntries k v l) := by
  induction l with
  | nil => simp [insertEntries, Ordered]
  | cons hd tl ih =>
    obtain ⟨k', v'⟩ := hd
    have hhd := (List.pairwise_cons.1 h).1
    have htl : Ordered tl := (List.pairwise_cons.1 h).2
    unfold insertEntries
    split_ifs with h1 h2
    · refine List.pairwise_cons.2 ⟨?_, h⟩
      intro e he
      rcases List.mem_cons.1 he with he | he
      · subst he; exact h1
      · exact lt_trans h1 (hhd e he)
    · subst h2
      exact List.pairwise_cons.2 ⟨hhd, htl⟩
    · refine List.pairwise_cons.2 ⟨?_, ih htl⟩
      intro e he
      rcases mem_insertEntries he with he | he
      · subst he
        exact lt_of_le_of_ne (not_lt.1 h1) (Ne.symm h2)
      · exact hhd e he

theorem mem_eraseEntries {k : κ} {l : List (κ × ν)} {e : κ × ν}
    (h : e ∈ eraseEntries k l) : e ∈ l := by
  induction l with
  | nil => simp [eraseEntries] at h
  | cons hd tl ih =>
    obtain ⟨k', v'⟩ := hd
    unfold eraseEntries at h
    split_ifs at h with h1
    · exact List.mem_cons_of_mem _ h
    · rcases List.mem_cons.1 h with h | h
      · exact h ▸ List.mem_cons_self _ _
      · exact List.mem_cons_of_mem _ (ih h)

theorem ordered_eraseEntries (k : κ) {l : List (κ × ν)} (h : Ordered l) :
    Ordered (eraseEntries k l) := by
  induction l with
  | nil => simp [eraseEntries, Ordered]
  | cons hd tl ih =>
    obtain ⟨k', v'⟩ := hd
    have hhd := (List.pairwise_cons.1 h).1
    have htl : Ordered tl := (List.pairwise_cons.1 h).2
    unfold eraseEntries
    split_ifs with h1
    · exact htl
    · exact List.pairwise_cons.2 ⟨fun e he => hhd e (mem_eraseEntries he), ih htl⟩

theorem findEntries_eq_none {k : κ} {l : List (κ × ν)} (h : ∀ e ∈ l, e.1 ≠ k) :
    findEntries k l = none := by
  induction l with
  | nil => rfl
  | cons hd tl ih =>
    obtain ⟨k', v'⟩ := hd
    have h1 : k ≠ k' := fun hk => h (k', v') (List.mem_cons_self _ _) hk.symm
    simp only [findEntries, if_neg h1]
    exact ih fun e he => h e (List.mem_cons_of_mem _ he)

theorem mem_of_findEntries {k : κ} {v : ν} {l : List (κ × ν)} (h : findEntries k l = some v) :
    (k, v) ∈ l := by
  induction l with
  | nil => simp [findEntries] at h
  | cons hd tl ih =>
    obtain ⟨k', v'⟩ := hd
    unfold findEntries at h
    split_ifs at h with h1
    · cases h; subst h1; exact List.mem_cons_self _ _
    · exact List.mem_cons_of_mem _ (ih h)

theorem findEntries_isSome_of_mem {k : κ} {v : ν} {l : List (κ × ν)} (h : (k, v) ∈ l) :
    (findEntries k l).isSome = true := by
  induction l with
  | nil => simp at h
  | cons hd tl ih =>
    obtain ⟨k', v'⟩ := hd
    by_cases h1 : k = k'
    · simp [findEntries, h1]
    · simp only [findEntries, if_neg h1]
      rcases List.mem_cons.1 h with h | h
      · exact absurd (congrArg Prod.fst h) h1
      · exact ih h

theorem length_insertEntries_of_none {k : κ} (v : ν) {l : List (κ × ν)}
    (h : findEntries k l = none) : (insertEntries k v l).length = l.length + 1 := by
  induction l with
  | nil => rfl
  | cons hd tl ih =>
    obtain ⟨k', v'⟩ := hd
    unfold findEntries at h
    split_ifs at h with h1
    unfold insertEntries
    split_ifs with h2
    · rfl
    · simp [ih h]

theorem findEntries_insertEntries_self (k : κ) (v : ν) (l : List (κ × ν)) :
    findEntries k (insertEntries k v l) = some v := by
  induction l with
  | nil => simp [insertEntries, findEntries]
  | cons hd tl ih =>
    obtain ⟨k', v'⟩ := hd
    unfold insertEntries
    split_ifs with h1 h2
    · simp [findEntries]
    · simp [findEntries]
    · simp only [findEntries, if_neg h2]
      exact ih

theorem findEntries_insertEntries_of_ne {k j : κ} (h : j ≠ k) (v : ν) (l : List (κ × ν)) :
    findEntries j (insertEntries k v l) = findEntries j l := by
  induction l with
  | nil => simp [insertEntries, findEntries, h]
  | cons hd tl ih =>
    obtain ⟨k', v'⟩ := hd
    unfold insertEntries
    split_ifs with h1 h2
    · simp [findEntries, h]
    · subst h2; simp [findEntries, h]
    · by_cases hj : j = k'
      · simp [findEntries, hj]
      · simp only [findEntries, if_neg hj]
        exact ih

theorem findEntries_eraseEntries_self (k : κ) {l : List (κ × ν)} (h : Ordered l) :
    findEntries k (eraseEntries k l) = none := by
  induction l with
  | nil => rfl
  | cons hd tl ih =>
    obtain ⟨k', v'⟩ := hd
    have hhd := (List.pairwise_cons.1 h).1
    have htl : Ordered tl := (List.pairwise_cons.1 h).2
    unfold eraseEntries
    split_ifs with h1
    · subst h1
      exact findEntries_eq_none fun e he => ne_of_gt (hhd e he)
    · simp only [findEntries, if_neg h1]
      exact ih htl

theorem findEntries_eraseEntries_of_ne {k j : κ} (h : j ≠ k) (l : List (κ × ν)) :
    findEntries j (eraseEntries k l) = findEntries j l := by
  induction l with
  | nil => rfl
  | cons hd tl ih =>
    obtain ⟨k', v'⟩ := hd
    unfold eraseEntries
    split_ifs with h1
    · subst h1; simp [findEntries, h]
    · by_cases hj : j = k'
      · simp [findEntries, hj]
      · simp only [findEntries, if_neg hj]
        exact ih

theorem eraseEntries_of_findEntries_eq_none {k : κ} {l : List (κ × ν)}
    (h : findEntries k l = none) : eraseEntries k l = l := by
  induction l with
  | nil => rfl
  | cons hd tl ih =>
    obtain ⟨k', v'⟩ := hd
    unfold findEntries at h
    split_ifs at h with h1
    simp only [eraseEntries, if_neg h1, ih h]

theorem entries_ext {l₁ l₂ : List (κ × ν)} (h₁ : Ordered l₁) (h₂ : Ordered l₂)
    (h : ∀ k, findEntries k l₁ = findEntries k l₂) : l₁ = l₂ := by
  induction l₁ generalizing l₂ with
  | nil =>
    cases l₂ with
    | nil => rfl
    | cons hd tl =>
      have := h hd.1
      simp [findEntries] at this
  | cons hd tl ih =>
    obtain ⟨k₁, v₁⟩ := hd
    cases l₂ with
    | nil =>
      have := h k₁
      simp [findEntries] at this
    | cons hd₂ tl₂ =>
      obtain ⟨k₂, v₂⟩ := hd₂
      have a₁ := (List.pairwise_cons.1 h₁).1
      have a₂ := (List.pairwise_cons.1 h₂).1
      have t₁ : Ordered tl := (List.pairwise_cons.1 h₁).2
      have t₂ : Ordered tl₂ := (List.pairwise_cons.1 h₂).2
      have hk : k₁ = k₂ := by
        by_contra hne
        have e₁ := h k₁
        have e₂ := h k₂
        simp only [findEntries, if_true, if_neg hne, if_neg (Ne.symm hne)] at e₁ e₂
        have m₁ := a₂ _ (mem_of_findEntries e₁.symm)
        have m₂ := a₁ _ (mem_of_findEntries e₂)
        exact lt_asymm m₁ m₂
      subst hk
      have hv : v₁ = v₂ := by
        have e₁ := h k₁
        simpa [findEntries] using e₁
      subst hv
      congr 1
      apply ih t₁ t₂
      intro k
      by_cases hkk : k = k₁
      · subst hkk
        rw [findEntries_eq_none fun e he => ne_of_gt (a₁ e he),
          findEntries_eq_none fun e he => ne_of_gt (a₂ e he)]
      · have e := h k
        simpa only [findEntries, if_neg hkk] using e

end StdMap

/-- A `std::map<K, V>`: its entries in iteration order, which is strictly increasing key order. -/
structure StdMap (κ ν : Type) [LinearOrder κ] where
  /-- The key/value pairs in iteration order. -/
  entries : List (κ × ν)
  /-- Keys are unique and increasing. -/
  ordered : StdMap.Ordered entries

namespace StdMap

variable {κ ν : Type} [LinearOrder κ]

/-- The empty map (also the result of `clear()`). -/
def empty : StdMap κ ν := ⟨[], List.Pairwise.nil⟩

/-- The value stored under `k`, or `none` when `find(k) == end()`. -/
def find (m : StdMap κ ν) (k : κ) : Option ν := findEntries k m.entries

/-- The map after `m[k] = v`. -/
def insert (m : StdMap κ ν) (k : κ) (v : ν) : StdMap κ ν :=
  ⟨insertEntries k v m.entries, ordered_insertEntries k v m.ordered⟩

/-- The map after `m.erase(k)`. -/
def erase (m : StdMap κ ν) (k : κ) : StdMap κ ν :=
  ⟨eraseEntries k m.entries, ordered_eraseEntries k m.ordered⟩

/-- The keys in iteration order. -/
def keys (m : StdMap κ ν) : List κ := m.entries.map Prod.fst

theorem ext_entries {m₁ m₂ : StdMap κ ν} (h : m₁.entries = m₂.entries) : m₁ = m₂ := by
  cases m₁; cases m₂; cases h; rfl

instance [DecidableEq ν] : DecidableEq (StdMap κ ν) := fun a b =>
  decidable_of_iff (a.entries = b.entries) ⟨ext_entries, fun h => h ▸ rfl⟩

theorem ext_find {m₁ m₂ : StdMap κ ν} (h : ∀ k, m₁.find k = m₂.find k) : m₁ = m₂ :=
  ext_entries (entries_ext m₁.ordered m₂.ordered h)

@[simp] theorem find_insert_self (m : StdMap κ ν) (k : κ) (v : ν) :
    (m.insert k v).find k = some v := findEntries_insertEntries_self k v m.entries

theorem find_insert_of_ne (m : StdMap κ ν) {k j : κ} (h : j ≠ k) (v : ν) :
    (m.insert k v).find j = m.find j := findEntries_insertEntries_of_ne h v m.entries

@[simp] theorem find_erase_self (m : StdMap κ ν) (k : κ) : (m.erase k).find k = none :=
  findEntries_eraseEntries_self k m.ordered

theorem find_erase_of_ne (m : StdMap κ ν) {k j : κ} (h : j ≠ k) :
    (m.erase k).find j = m.find j := findEntries_eraseEntries_of_ne h m.entries

theorem erase_of_find_eq_none {m : StdMap κ ν} {k : κ} (h : m.find k = none) :
    m.erase k = m := ext_entries (eraseEntries_of_findEntries_eq_none h)

theorem mem_keys_iff (m : StdMap κ ν) (k : κ) : k ∈ m.keys ↔ (m.find k).isSome = true := by
  constructor
  · intro h
    obtain ⟨e, he, hk⟩ := List.mem_map.1 h
    obtain ⟨k', v⟩ := e
    cases hk
    exact findEntries_isSome_of_mem he
  · intro h
    obtain ⟨v, hv⟩ := Option.isSome_iff_exists.1 h
    exact List.mem_map.2 ⟨(k, v), mem_of_findEntries hv, rfl⟩

end StdMap

/-! ## std::set -/

/-- A `std::set<T>`: its elements in increasing order, kept as the keys of a map. -/
abbrev StdSet (κ : Type) [LinearOrder κ] := StdMap κ Unit

namespace StdSet

variable {κ : Type} [LinearOrder κ]

/-- The empty set. -/
def empty : StdSet κ := StdMap.empty

/-- Membership test (`find(x) != end()`). -/
def contains (s : StdSet κ) (x : κ) : Bool := (StdMap.find s x).isSome

/-- The pair returned by `std::set::insert`: the set afterwards, and whether `x` was new. -/
def insert (s : StdSet κ) (x : κ) : StdSet κ × Bool :=
  if contains s x then (s, false) else (StdMap.insert s x (), true)

/-- The number of elements (`size()`). -/
def size (s : StdSet κ) : Nat := s.entries.length

/-- The elements in iteration order. -/
def toList (s : StdSet κ) : List κ := StdMap.keys s

/-- Emptiness test (`empty()`). -/
def isEmpty (s : StdSet κ) : Bool := s.entries.isEmpty

/-- The set holding the elements of a list. -/
def ofList (l : List κ) : StdSet κ := l.foldl (fun s x => (insert s x).1) empty

theorem ext_contains {s t : StdSet κ} (h : ∀ x, contains s x = contains t x) : s = t := by
  apply StdMap.ext_find
  intro k
  have hk := h k
  unfold contains at hk
  cases hs : StdMap.find s k <;> cases ht : StdMap.find t k <;> simp_all

@[simp] theorem contains_empty (x : κ) : contains (empty : StdSet κ) x = false := rfl

@[simp] theorem size_empty : size (empty : StdSet κ) = 0 := rfl

theorem insert_snd (s : StdSet κ) (x : κ) : (insert s x).2 = !contains s x := by
  unfold insert
  split_ifs with h <;> simp [h]

theorem contains_insert (s : StdSet κ) (x y : κ) :
    contains (insert s x).1 y = (decide (y = x) || contains s y) := by
  unfold insert
  split_ifs with h
  · by_cases hy : y = x
    · subst hy; simp [h]
    · simp [hy]
  · by_cases hy : y = x
    · subst hy; simp [contains]
    · simp [contains, StdMap.find_insert_of_ne _ hy, hy]

theorem size_insert (s : StdSet κ) (x : κ) :
    size (insert s x).1 = if contains s x then size s else size s + 1 := by
  unfold insert
  split_ifs with h
  · rfl
  · have hn : StdMap.findEntries x s.entries = none := by
      simpa [contains, StdMap.find] using h
    exact StdMap.length_insertEntries_of_none () hn

theorem mem_toList (s : StdSet κ) (x : κ) : x ∈ toList s ↔ contains s x = true :=
  StdMap.mem_keys_iff s x

theorem contains_foldl_insert (l : List κ) (s : StdSet κ) (x : κ) :
    contains (l.foldl (fun s x => (insert s x).1) s) x = (decide (x ∈ l) || contains s x) := by
  induction l generalizing s with
  | nil => simp
  | cons hd tl ih =>
    rw [List.foldl_cons, ih, contains_insert]
    by_cases h1 : x = hd <;> by_cases h2 : x ∈ tl <;> simp [h1, h2]

theorem contains_ofList (l : List κ) (x : κ) : contains (ofList l) x = decide (x ∈ l) := by
  simp [ofList, contains_foldl_insert]

end StdSet

/-- A `std::string`, as the sequence of characters of its text (taken to be valid UTF-8, which
`QString::fromStdString` and `toStdString` carry over unchanged); `<` is the lexicographic
order. -/
abbrev StdString := List Char

/-! ## The Qt JSON values read and written by the snapshot -/

/-- A `QJsonValue`. A number is `integer` when it is held as a 64-bit integer and `double`
otherwise (given by its exact rational value). -/
inductive QJsonValue where
  | null
  | bool (b : Bool)
  | integer (n : Int)
  | double (q : ℚ)
  | string (s : StdString)
  | array (items : List QJsonValue)
  | object (members : List (StdString × QJsonValue))
  | undefined

/-- A `QJsonObject`: its members in iteration order. -/
abbrev QJsonObject := List (StdString × QJsonValue)

/-- A `QJsonArray`. -/
abbrev QJsonArray := List QJsonValue

namespace QJsonValue

/-- The accessor `toInt()`: the number when it is integral and fits `int`, else the default 0. -/
def toInt : QJsonValue → Int
  | integer n => if -2 ^ 31 ≤ n ∧ n < 2 ^ 31 then n else 0
  | double q => if q.den = 1 ∧ -2 ^ 31 ≤ q.num ∧ q.num < 2 ^ 31 then q.num else 0
  | _ => 0

/-- The accessor `toInteger()`: the number when it is integral and fits `qint64`, else 0. -/
def toInteger : QJsonValue → Int
  | integer n => n
  | double q => if q.den = 1 ∧ -2 ^ 63 ≤ q.num ∧ q.num < 2 ^ 63 then q.num else 0
  | _ => 0

/-- The accessor `toObject()`: the members of an object, the empty object for anything else. -/
def toObject : QJsonValue → QJsonObject
  | object members => members
  | _ => []

/-- The accessor `toArray()`: the items of an array, the empty array for anything else. -/
def toArray : QJsonValue → QJsonArray
  | array items => items
  | _ => []

end QJsonValue

namespace QJsonObject

/-- The value of `obj[key]` on a const object: the member, or `undefined` when absent. -/
def value (obj : QJsonObject) (key : StdString) : QJsonValue :=
  (StdMap.findEntries key obj).getD QJsonValue.undefined

/-- The object after `obj[key] = v`; the members stay in key order. -/
def insert (obj : QJsonObject) (key : StdString) (v : QJsonValue) : QJsonObject :=
  StdMap.insertEntries key v obj

/-- The member names in iteration order. -/
def keys (obj : QJsonObject) : List StdString := obj.map Prod.fst

end QJsonObject

/-- What `QJsonDocument::fromJson` makes of a file's bytes: a null document when they do not
parse, else an array or an object document. -/
inductive QJsonDocument where
  | null
  | array (items : QJsonArray)
  | object (root : QJsonObject)

/-- The method `isObject()`. -/
def QJsonDocument.isObject : QJsonDocument → Bool
  | .object _ => true
  | _ => false

/-- The file named by `filePath` as `loadFromJson` meets it. The text written by
`QJsonDocument::toJson` is identified with the document `fromJson` reads back from it. -/
inductive JsonFile where
  | missing
  | unreadable
  | readable (doc : QJsonDocument)

/-! ## RegionCountManager (RegionCountManager.h, RegionCountManager.cpp) -/

/-- The private struct `RegionData`: the unique track ids of a region and their count. -/
structure RegionData where
  /-- Field `uniqueIds`, a `std::set<size_t>`. -/
  uniqueIds : StdSet Nat
  /-- Field `count`, an `int`. -/
  count : Int
  deriving DecidableEq

/-- A default-constructed `RegionData`, as `regionData_[name]` creates it. -/
def RegionData.default : RegionData := { uniqueIds := StdSet.empty, count := 0 }

/-- The store: `regionData_`, a `std::map<std::string, RegionData>`. The auto-save settings only
decide whether a mutator also writes the snapshot file; they never touch `regionData_`. -/
structure RegionCountManager where
  /-- Field `regionData_`. -/
  regionData_ : StdMap StdString RegionData
  deriving DecidableEq

namespace RegionCountManager

/-- The store as constructed: no region. -/
def fresh : RegionCountManager := { regionData_ := StdMap.empty }

/-- The method `recordObjectEntry`: the returned flag and the store afterwards. -/
def recordObjectEntry (m : RegionCountManager) (regionName : StdString) (trackId : Nat)
    (_cameraName : StdString) : Bool × RegionCountManager :=
  let regionData := (m.regionData_.find regionName).getD RegionData.default
  let result := StdSet.insert regionData.uniqueIds trackId
  if result.2 then
    let counted : RegionData := { uniqueIds := result.1, count := toInt32 (StdSet.size result.1) }
    (true, { regionData_ := m.regionData_.insert regionName counted })
  else
    let kept : RegionData := { uniqueIds := result.1, count := regionData.count }
    (false, { regionData_ := m.regionData_.insert regionName kept })

/-- The method `getRegionCount`. -/
def getRegionCount (m : RegionCountManager) (regionName : StdString) : Int :=
  match m.regionData_.find regionName with
  | some data => data.count
  | none => 0

/-- The method `getRegionIds`. -/
def getRegionIds (m : RegionCountManager) (regionName : StdString) : StdSet Nat :=
  match m.regionData_.find regionName with
  | some data => data.uniqueIds
  | none => StdSet.empty

/-- The method `getAllRegionData`: a `std::map` from region name to `(count, ids)`. -/
def getAllRegionData (m : RegionCountManager) : StdMap StdString (Int × StdSet Nat) :=
  m.regionData_.entries.foldl
    (fun result pair => result.insert pair.1 (pair.2.count, pair.2.uniqueIds)) StdMap.empty

/-- The method `clearAll`. -/
def clearAll (_m : RegionCountManager) : RegionCountManager := { regionData_ := StdMap.empty }

/-- The method `clearRegion`. -/
def clearRegion (m : RegionCountManager) (regionName : StdString) : RegionCountManager :=
  match m.regionData_.find regionName with
  | some _ => { regionData_ := m.regionData_.erase regionName }
  | none => m

/-- The `QJsonArray` that `saveToJson` builds from a set of ids. -/
def idsToJson (uniqueIds : StdSet Nat) : QJsonArray :=
  (StdSet.toList uniqueIds).foldl
    (fun (idsArray : QJsonArray) (id : Nat) => idsArray ++ [QJsonValue.integer (toInt64 id)]) []

/-- The `QJsonObject` that `saveToJson` builds for one region. -/
def regionToJson (data : RegionData) : QJsonObject :=
  let regionObj : QJsonObject := []
  let regionObj := regionObj.insert "count".toList (QJsonValue.integer data.count)
  regionObj.insert "ids".toList (QJsonValue.array (idsToJson data.uniqueIds))

/-- The root object that `saveToJson` builds. -/
def rootToJson (m : RegionCountManager) : QJsonObject :=
  m.regionData_.entries.foldl
    (fun root pair => root.insert pair.1 (QJsonValue.object (regionToJson pair.2))) []

/-- The method `saveToJson`, given whether the file opens for writing: the returned flag and
the document written to the file, if any. -/
def saveToJson (m : RegionCountManager) (opens : Bool) : Bool × Option QJsonDocument :=
  if opens then (true, some (QJsonDocument.object (rootToJson m))) else (false, none)

/-- The `RegionData` that `loadFromJson` reads from the value stored under a region name. -/
def regionFromJson (v : QJsonValue) : RegionData :=
  let regionObj := v.toObject
  let count := (regionObj.value "count".toList).toInt
  let idsArray := (regionObj.value "ids".toList).toArray
  let uniqueIds := idsArray.foldl
    (fun ids idValue => (StdSet.insert ids (toSizeT idValue.toInteger)).1) StdSet.empty
  { uniqueIds := uniqueIds, count := count }

/-- The method `loadFromJson`: the returned flag and the store afterwards. -/
def loadFromJson (m : RegionCountManager) (file : JsonFile) : Bool × RegionCountManager :=
  match file with
  | .missing => (false, m)
  | .unreadable => (false, m)
  | .readable doc =>
    match doc with
    | .object root =>
      let loaded := root.foldl
        (fun regionData pair => regionData.insert pair.1 (regionFromJson pair.2)) StdMap.empty
      (true, { regionData_ := loaded })
    | _ => (false, m)

/-- The stores reachable from the fresh one by `recordObjectEntry`, `clearRegion` and
`clearAll`; a track id is a `size_t`. -/
inductive Reachable : RegionCountManager → Prop where
  | fresh : Reachable fresh
  | record {m : RegionCountManager} (regionName : StdString) (trackId : Nat)
      (cameraName : StdString) (hm : Reachable m) (hid : trackId < 2 ^ 64) :
      Reachable (recordObjectEntry m regionName trackId cameraName).2
  | clearRegion {m : RegionCountManager} (regionName : StdString) (hm : Reachable m) :
      Reachable (clearRegion m regionName)
  | clearAll {m : RegionCountManager} (hm : Reachable m) : Reachable (clearAll m)

/-- The const member functions of the store. -/
inductive Query where
  | getRegionCount (regionName : StdString)
  | getRegionIds (regionName : StdString)
  | getAllRegionData

/-- The store after a const member function has returned: each of them reads `regionData_`
through `find` or by iteration, never through `operator[]`, so no entry is created. -/
def afterQuery (m : RegionCountManager) (_q : Query) : RegionCountManager := m

/-- Every stored count is an `int` and every stored id a `size_t`. -/
def WellTyped (m : RegionCountManager) : Prop :=
  ∀ R, (-2 ^ 31 ≤ getRegionCount m R ∧ getRegionCount m R < 2 ^ 31) ∧
    ∀ id, StdSet.contains (getRegionIds m R) id = true → id < 2 ^ 64

end RegionCountManager


/-! ## ClassFilterManager (ClassFilterManager.h, ClassFilterManager.cpp) -/

/-- The filter: `selectedClasses_`, a `std::set<int>`; empty means that every class counts. -/
structure ClassFilterManager where
  /-- Field `selectedClasses_`. -/
  selectedClasses_ : StdSet Int
  deriving DecidableEq

namespace ClassFilterManager

/-- The filter as constructed: nothing selected. -/
def fresh : ClassFilterManager := { selectedClasses_ := StdSet.empty }

/-- The method `setSelectedClasses`. -/
def setSelectedClasses (_m : ClassFilterManager) (classIds : StdSet Int) : ClassFilterManager :=
  { selectedClasses_ := classIds }

/-- The method `shouldCountClass`. -/
def shouldCountClass (m : ClassFilterManager) (classId : Int) : Bool :=
  if StdSet.isEmpty m.selectedClasses_ then true
  else StdSet.contains m.selectedClasses_ classId

end ClassFilterManager

/-! ## Geometry (Region.h, Region.cpp) -/

/-- A `cv::Point`. -/
structure Point where
  x : Int
  y : Int
  deriving DecidableEq

/-- A `cv::Rect`. -/
structure Rect where
  x : Int
  y : Int
  width : Int
  height : Int
  deriving DecidableEq

/-- The library call `cv::pointPolygonTest(points, p, false)` as a function of the polygon and
the point: positive inside, negative outside, zero on an edge. -/
abbrev PointPolygonTest := List Point → Point → Int

/-- The class `Region`: `name_` and `points_` (the colour is only drawn). -/
structure Region where
  name_ : StdString
  points_ : List Point
  deriving DecidableEq

namespace Region

/-- The method `containsPoint`. -/
def containsPoint (ppt : PointPolygonTest) (r : Region) (point : Point) : Bool :=
  if r.points_.length < 3 then false
  else decide (ppt r.points_ point ≥ 0)

/-- The method `containsRect`: the test of the centre of the rectangle, computed in `int`. -/
def containsRect (ppt : PointPolygonTest) (r : Region) (rect : Rect) : Bool :=
  containsPoint ppt r
    { x := toInt32 (rect.x + Int.tdiv rect.width 2)
      y := toInt32 (rect.y + Int.tdiv rect.height 2) }

end Region

/-! ## Events (DetectionEvent.h, EventManager.h, EventManager.cpp) -/

/-- The enum `EventType`. -/
inductive EventType where
  | FIRST_ENTRY
  | PERIODIC
  | EXIT
  deriving DecidableEq

/-- The class `DetectionEvent` (without its thumbnail); the confidence is a `float`, given by
its exact value, and the timestamp is in milliseconds. -/
structure DetectionEvent where
  trackId : Nat
  cameraId : Int
  cameraName : StdString
  regionName : StdString
  objectClass : StdString
  confidence : ℚ
  eventType : EventType
  timestamp : Int
  bbox : Rect
  imagePath : StdString
  frameNumber : Int
  deriving DecidableEq

/-- What the surroundings answer while one track of one frame is processed: whether the body
of `saveEventImage` throws, the date and time texts it formats, the time stamped on a new
event and the clock read for the Telegram throttle. -/
structure CaptureEnv where
  saveThrows : Bool
  dateStr : StdString
  timeStr : StdString
  currentDateTime : Int
  currentMSecsSinceEpoch : Int
  deriving DecidableEq

/-- The singleton `EventManager`. -/
structure EventManager where
  events_ : List DetectionEvent
  baseDirectory_ : StdString
  periodicCaptureInterval_ : Int
  deriving DecidableEq

namespace EventManager

/-- The manager as constructed. -/
def fresh : EventManager :=
  { events_ := [], baseDirectory_ := "events".toList, periodicCaptureInterval_ := 30 }

/-- The method `addEvent`. -/
def addEvent (m : EventManager) (event : DetectionEvent) : EventManager :=
  { m with events_ := m.events_ ++ [event] }

/-- The method `getPeriodicCaptureInterval`. -/
def getPeriodicCaptureInterval (m : EventManager) : Int := m.periodicCaptureInterval_

/-- The method `setPeriodicCaptureInterval`. -/
def setPeriodicCaptureInterval (m : EventManager) (frames : Int) : EventManager :=
  { m with periodicCaptureInterval_ := frames }

/-- The replacement of every space by an underscore. -/
def replaceSpaces (s : StdString) : StdString := s.map fun c => if c = ' ' then '_' else c

/-- The method `ensureDirectoryExists`: the path it returns. -/
def ensureDirectoryExists (m : EventManager) (cameraName regionName dateStr : StdString) :
    StdString :=
  m.baseDirectory_ ++ "/".toList ++ replaceSpaces cameraName ++ "/".toList ++
    replaceSpaces regionName ++ "/".toList ++ dateStr

/-- The method `generateFilename`. -/
def generateFilename (trackId : Nat) (eventType : EventType) (timeStr : StdString) :
    StdString :=
  (Nat.repr trackId).toList ++ "_".toList ++ timeStr ++ "_".toList ++
    (match eventType with
      | .FIRST_ENTRY => "ENTRY".toList
      | .PERIODIC => "PERIODIC".toList
      | .EXIT => "EXIT".toList) ++ ".jpg".toList

/-- The method `saveEventImage`: the path it returns, empty when the image is empty or the
body throws; the result of `cv::imwrite` is not looked at. -/
def saveEventImage (m : EventManager) (croppedEmpty : Bool) (cameraName regionName : StdString)
    (trackId : Nat) (eventType : EventType) (env : CaptureEnv) : StdString :=
  if croppedEmpty then []
  else if env.saveThrows then []
  else
    let directory := ensureDirectoryExists m cameraName regionName env.dateStr
    let filename := generateFilename trackId eventType env.timeStr
    directory ++ "/".toList ++ filename

end EventManager

/-! ## CameraWidget (CameraWidget.h, CameraWidget.cpp) -/

/-- The struct `CameraWidget::TrackRegionState`. -/
structure TrackRegionState where
  inRegion : Bool
  regionName : StdString
  lastCaptureFrame : Int
  entryFrame : Int
  deriving DecidableEq

/-- A default-constructed `TrackRegionState`, as `trackRegionStates_[id]` creates it. -/
def TrackRegionState.default : TrackRegionState :=
  { inRegion := false, regionName := [], lastCaptureFrame := 0, entryFrame := 0 }

/-- One call of `TelegramBot::sendPhoto` made by `captureEvent`: the parts of its caption and
the box drawn on the photo. -/
structure TelegramPhoto where
  eventTypeStr : StdString
  cameraName : StdString
  regionName : StdString
  regionCount : Int
  bbox : Rect
  deriving DecidableEq

/-- The members of `CameraWidget` that frame processing reads and writes. The camera gives
`cameraId` and `cameraName`; `inference_` is the class-name table of the detector;
`currentFrameCols` and `currentFrameRows` are the size of `currentFrame_`. The frame counter
is an `int` that is taken not to overflow. -/
structure CameraWidget where
  cameraId : Int
  cameraName : StdString
  inference_ : Int → StdString
  trackClassMap_ : StdMap Nat Int
  regions_ : List Region
  regionUniqueObjectIds_ : StdMap StdString (StdSet Nat)
  trackRegionStates_ : StdMap Nat TrackRegionState
  currentFrameNumber_ : Int
  currentFrameCols : Int
  currentFrameRows : Int
  lastTelegramSendTime_ : StdMap StdString Int

/-- One camera widget together with the singletons it calls: the event log, the region counts,
and the Telegram bot seen through `isEnabled` and the `sendPhoto` calls made so far. -/
structure World where
  widget : CameraWidget
  eventManager : EventManager
  regionCounts : RegionCountManager
  telegramEnabled : Bool
  telegramPhotos : List TelegramPhoto

namespace CameraWidget

/-- The constant `TELEGRAM_THROTTLE_MS`. -/
def TELEGRAM_THROTTLE_MS : Int := 5000

/-- The widget as constructed for a camera, before any region is drawn. -/
def fresh (cameraId : Int) (cameraName : StdString) (inference : Int → StdString) :
    CameraWidget :=
  { cameraId := cameraId, cameraName := cameraName, inference_ := inference
    trackClassMap_ := StdMap.empty, regions_ := [], regionUniqueObjectIds_ := StdMap.empty
    trackRegionStates_ := StdMap.empty, currentFrameNumber_ := 0
    currentFrameCols := 0, currentFrameRows := 0, lastTelegramSendTime_ := StdMap.empty }

/-- The region lookup of `processFrame`: the name of the first region of the list that
contains the box, empty when there is none. -/
def findRegionName (ppt : PointPolygonTest) : List Region → Rect → StdString
  | [], _ => []
  | region :: rest, box =>
    if region.containsRect ppt box then region.name_ else findRegionName ppt rest box

/-- The guard of `captureEvent` before it crops: the frame is not empty and holds the box;
the sums are sums of `int`. -/
def cropGuard (cols rows : Int) (bbox : Rect) : Bool :=
  decide (¬ (cols = 0 ∨ rows = 0) ∧ bbox.x ≥ 0 ∧ bbox.y ≥ 0 ∧
    toInt32 (bbox.x + bbox.width) ≤ cols ∧ toInt32 (bbox.y + bbox.height) ≤ rows)

/-- The rectangle `paddedBox` of `captureEvent`; every step is a step of `int` arithmetic. -/
def paddedBox (cols rows : Int) (bbox : Rect) : Rect :=
  let padding : Int := 15
  let x := max 0 (toInt32 (bbox.x - padding))
  let y := max 0 (toInt32 (bbox.y - padding))
  let w := min (toInt32 (cols - x)) (toInt32 (bbox.width + 2 * padding))
  let h := min (toInt32 (rows - y)) (toInt32 (bbox.height + 2 * padding))
  { x := x, y := y, width := w, height := h }

/-- The check that `cv::Mat::operator()(roi)` asserts, with its sums of `int`; the call throws
when it fails. -/
def roiValid (cols rows : Int) (roi : Rect) : Bool :=
  decide (0 ≤ roi.x ∧ 0 ≤ roi.width ∧ toInt32 (roi.x + roi.width) ≤ cols ∧
    0 ≤ roi.y ∧ 0 ≤ roi.height ∧ toInt32 (roi.y + roi.height) ≤ rows)

/-- The outcome of the crop block of `captureEvent`: `cv::Mat::operator()` throws, the
cropped image is empty (the guard failed or the region has no pixel), or it is the image of a
region of the frame. -/
inductive CropResult where
  | throws
  | empty
  | image (roi : Rect)
  deriving DecidableEq

/-- The crop block of `captureEvent`. -/
def crop (cols rows : Int) (bbox : Rect) : CropResult :=
  if cropGuard cols rows bbox then
    let padded := paddedBox cols rows bbox
    if roiValid cols rows padded then
      if padded.width = 0 ∨ padded.height = 0 then .empty else .image padded
    else .throws
  else .empty

/-- The Telegram block at the end of `captureEvent`. -/
def notifyTelegram (w : World) (regionName : StdString) (bbox : Rect) (eventType : EventType)
    (env : CaptureEnv) : World :=
  if w.telegramEnabled ∧ (eventType = .FIRST_ENTRY ∨ eventType = .EXIT) then
    let currentTime := env.currentMSecsSinceEpoch
    let canSend : Bool :=
      match w.widget.lastTelegramSendTime_.find regionName with
      | none => true
      | some last => decide (currentTime - last ≥ TELEGRAM_THROTTLE_MS)
    if canSend then
      let photo : TelegramPhoto :=
        { eventTypeStr := if eventType = .FIRST_ENTRY then "ENTRY".toList else "EXIT".toList
          cameraName := w.widget.cameraName, regionName := regionName
          regionCount := w.regionCounts.getRegionCount regionName, bbox := bbox }
      { w with
        telegramPhotos := w.telegramPhotos ++ [photo]
        widget := { w.widget with
          lastTelegramSendTime_ := w.widget.lastTelegramSendTime_.insert regionName
            currentTime } }
    else w
  else w

/-- The `float` constant `0.85f`: the value of `float` nearest to 0.85, which is
`14260634 / 2 ^ 24`. -/
def float_0_85 : ℚ := 7130317 / 8388608

/-- The method `captureEvent`; `none` when the crop throws. -/
def captureEvent (w : World) (trackId : Nat) (regionName : StdString) (bbox : Rect)
    (eventType : EventType) (env : CaptureEnv) : Option World :=
  let cw := w.widget
  let objectClass : StdString :=
    match cw.trackClassMap_.find trackId with
    | some class_id => cw.inference_ class_id
    | none => "unknown".toList
  let confidence : ℚ :=
    match cw.trackClassMap_.find trackId with
    | some _ => float_0_85
    | none => 0
  match crop cw.currentFrameCols cw.currentFrameRows bbox with
  | .throws => none
  | .empty => some w
  | .image _ =>
    let imagePath := w.eventManager.saveEventImage false cw.cameraName regionName trackId
      eventType env
    if imagePath = [] then some w
    else
      let event : DetectionEvent :=
        { trackId := trackId, cameraId := cw.cameraId, cameraName := cw.cameraName
          regionName := regionName, objectClass := objectClass, confidence := confidence
          eventType := eventType, timestamp := env.currentDateTime, bbox := bbox
          imagePath := imagePath, frameNumber := cw.currentFrameNumber_ }
      some (notifyTelegram { w with eventManager := w.eventManager.addEvent event }
        regionName bbox eventType env)

/-- One track reported by the tracker in one frame: its id, its box as a `cv::Rect`, and the
answers of the surroundings while it is processed. -/
structure TrackInput where
  trackId : Nat
  box : Rect
  env : CaptureEnv
  deriving DecidableEq

/-- The event capture logic of `processFrame` for one track (the body of the loop over the
tracks, without the drawing); `none` when `captureEvent` throws. -/
def processTrack (ppt : PointPolygonTest) (w : World) (t : TrackInput) : Option World :=
  let regionName := findRegionName ppt w.widget.regions_ t.box
  if regionName ≠ [] then
    let ids := (w.widget.regionUniqueObjectIds_.find regionName).getD StdSet.empty
    let state := (w.widget.trackRegionStates_.find t.trackId).getD TrackRegionState.default
    let w0 : World := { w with widget := { w.widget with
      regionUniqueObjectIds_ := w.widget.regionUniqueObjectIds_.insert regionName
        (StdSet.insert ids t.trackId).1
      trackRegionStates_ := w.widget.trackRegionStates_.insert t.trackId state } }
    if state.inRegion = false then
      (captureEvent w0 t.trackId regionName t.box .FIRST_ENTRY t.env).map fun w1 =>
        let entered : TrackRegionState :=
          { inRegion := true, regionName := regionName
            lastCaptureFrame := w1.widget.currentFrameNumber_
            entryFrame := w1.widget.currentFrameNumber_ }
        { w1 with
          widget := { w1.widget with
            trackRegionStates_ := w1.widget.trackRegionStates_.insert t.trackId entered }
          regionCounts := (w1.regionCounts.recordObjectEntry regionName t.trackId
            w1.widget.cameraName).2 }
    else
      let framesSinceLastCapture := w0.widget.currentFrameNumber_ - state.lastCaptureFrame
      let captureInterval := w0.eventManager.getPeriodicCaptureInterval
      if framesSinceLastCapture ≥ captureInterval then
        (captureEvent w0 t.trackId regionName t.box .PERIODIC t.env).map fun w1 =>
          { w1 with widget := { w1.widget with
            trackRegionStates_ := w1.widget.trackRegionStates_.insert t.trackId
              { state with lastCaptureFrame := w1.widget.currentFrameNumber_ } } }
      else some w0
  else
    match w.widget.trackRegionStates_.find t.trackId with
    | some state =>
      if state.inRegion then
        (captureEvent w t.trackId state.regionName t.box .EXIT t.env).map fun w1 =>
          { w1 with widget := { w1.widget with
            trackRegionStates_ := w1.widget.trackRegionStates_.erase t.trackId } }
      else some w
    | none => some w

/-- One call of `updateFrame` as the event capture sees it: whether a frame was read, its
size, the class map left by the class matching of `processFrame`, and the tracks the tracker
reports, in order. -/
structure FrameInput where
  readOk : Bool
  cols : Int
  rows : Int
  trackClassMap : StdMap Nat Int
  tracks : List TrackInput

/-- The method `updateFrame`: a frame that is read and not empty gets the next frame number
and is processed; the stages of `processFrame` before the event capture enter through their
results in the `FrameInput`. -/
def updateFrame (ppt : PointPolygonTest) (w : World) (f : FrameInput) : Option World :=
  if f.readOk = false ∨ f.cols = 0 ∨ f.rows = 0 then some w
  else
    let cw : CameraWidget := { w.widget with
      currentFrameCols := f.cols, currentFrameRows := f.rows
      currentFrameNumber_ := w.widget.currentFrameNumber_ + 1
      trackClassMap_ := f.trackClassMap }
    f.tracks.foldlM (processTrack ppt) { w with widget := cw }

/-- Whether the crop block produced an image. -/
def CropResult.isImage : CropResult → Bool
  | .image _ => true
  | _ => false

/-- The kinds and frame numbers of the events of one track in a list of events, in order. -/
def eventsOfTrack (trackId : Nat) (events : List DetectionEvent) : List (EventType × Int) :=
  (events.filter fun e => e.trackId = trackId).map fun e => (e.eventType, e.frameNumber)

/-- A frame in which the track `trackId` stays inside the region named `R`: the frame is read
and not empty, no crop of the frame throws, the tracker reports the track, and wherever it does
the region lookup gives `R`, the crop gives an image and the image is saved. -/
def StaysInside (ppt : PointPolygonTest) (regions : List Region) (trackId : Nat)
    (R : StdString) (f : FrameInput) : Prop :=
  (f.readOk = true ∧ f.cols ≠ 0 ∧ f.rows ≠ 0) ∧
  (∀ ti ∈ f.tracks, crop f.cols f.rows ti.box ≠ .throws) ∧
  (∃ ti ∈ f.tracks, ti.trackId = trackId) ∧
  (∀ ti ∈ f.tracks, ti.trackId = trackId →
    findRegionName ppt regions ti.box = R ∧ (crop f.cols f.rows ti.box).isImage = true ∧
    ti.env.saveThrows = false)

instance (ppt : PointPolygonTest) (regions : List Region) (trackId : Nat) (R : StdString)
    (f : FrameInput) : Decidable (StaysInside ppt regions trackId R f) := by
  unfold StaysInside; infer_instance

/-- A run of `updateFrame` over successive frames. -/
def runFrames (ppt : PointPolygonTest) (w : World) (frames : List FrameInput) : Option World :=
  frames.foldlM (updateFrame ppt) w

/-! ### A concrete scene

A 640 x 480 camera with one triangular region "Door"; the polygon test of the scene takes
every point left of x = 100 as inside. Track 5 stands in the region, track 9 outside it. -/

/-- The polygon test of the scene. -/
def sceneTest : PointPolygonTest := fun _ point => if point.x < 100 then 1 else -1

/-- The region of the scene. -/
def sceneRegion : Region :=
  { name_ := "Door".toList, points_ := [⟨0, 0⟩, ⟨100, 0⟩, ⟨100, 400⟩] }

/-- The scene before its first frame: a widget that just started, the periodic interval 30,
Telegram enabled. -/
def sceneWorld : World :=
  { widget := { fresh 1 "cam".toList (fun _ => "person".toList) with regions_ := [sceneRegion] }
    eventManager := EventManager.fresh
    regionCounts := RegionCountManager.fresh
    telegramEnabled := true
    telegramPhotos := [] }

/-- The answers of the surroundings in the scene: every image is saved. -/
def sceneEnv : CaptureEnv :=
  { saveThrows := false, dateStr := "2024-05-01".toList, timeStr := "120000".toList
    currentDateTime := 0, currentMSecsSinceEpoch := 0 }

end CameraWidget

/-! ## The crop rectangle as the specification words it -/

namespace CameraWidget

/-- The specification's crop rectangle: the box expanded by 15 px on each of its four sides and
then intersected with the frame rectangle `[0, cols) x [0, rows)`. -/
def expandedInFrame (cols rows : Int) (bbox : Rect) : Rect :=
  let left := max 0 (bbox.x - 15)
  let top := max 0 (bbox.y - 15)
  let right := min cols (bbox.x + bbox.width + 15)
  let bottom := min rows (bbox.y + bbox.height + 15)
  { x := left, y := top, width := right - left, height := bottom - top }

/-- A rectangle without a pixel (`cv::Rect::empty`). -/
def rectEmpty (r : Rect) : Bool := decide (r.width ≤ 0 ∨ r.height ≤ 0)

/-! ### A scene with two regions

Two regions side by side, "A" left of x = 100 and "B" right of it, both axis-parallel
rectangles, for which the polygon test is the test against the bounds of the points. -/

/-- The polygon test of an axis-parallel rectangle: the sign of the position of the point
relative to the bounds of the polygon points. -/
def boundsTest : PointPolygonTest := fun points p =>
  match points with
  | [] => -1
  | q :: qs =>
    let minX := qs.foldl (fun (m : Int) r => min m r.x) q.x
    let maxX := qs.foldl (fun (m : Int) r => max m r.x) q.x
    let minY := qs.foldl (fun (m : Int) r => min m r.y) q.y
    let maxY := qs.foldl (fun (m : Int) r => max m r.y) q.y
    if minX < p.x ∧ p.x < maxX ∧ minY < p.y ∧ p.y < maxY then 1
    else if minX ≤ p.x ∧ p.x ≤ maxX ∧ minY ≤ p.y ∧ p.y ≤ maxY then 0
    else -1

/-- Region "A", the rectangle from (0, 0) to (100, 400). -/
def regionA : Region :=
  { name_ := "A".toList, points_ := [⟨0, 0⟩, ⟨100, 0⟩, ⟨100, 400⟩, ⟨0, 400⟩] }

/-- Region "B", the rectangle from (100, 0) to (300, 400). -/
def regionB : Region :=
  { name_ := "B".toList, points_ := [⟨100, 0⟩, ⟨300, 0⟩, ⟨300, 400⟩, ⟨100, 400⟩] }

/-- The two-region scene before its first frame. -/
def twoRegionWorld : World :=
  { sceneWorld with widget := { sceneWorld.widget with regions_ := [regionA, regionB] } }

/-- A 640 x 480 frame that reports one track with the given id and box. -/
def frameWith (trackId : Nat) (box : Rect) : FrameInput :=
  { readOk := true, cols := 640, rows := 480, trackClassMap := StdMap.empty
    tracks := [⟨trackId, box, sceneEnv⟩] }

/-! ### Vocabulary for the event order of one track -/

/-- A frame in which the track `trackId` is inside no region: the frame is read and not
empty, no crop of the frame throws, the tracker reports the track, and wherever it does the
region lookup gives no name, the crop gives an image and the image is saved. -/
def LeavesRegions (ppt : PointPolygonTest) (regions : List Region) (trackId : Nat)
    (f : FrameInput) : Prop :=
  (f.readOk = true ∧ f.cols ≠ 0 ∧ f.rows ≠ 0) ∧
  (∀ ti ∈ f.tracks, crop f.cols f.rows ti.box ≠ .throws) ∧
  (∃ ti ∈ f.tracks, ti.trackId = trackId) ∧
  (∀ ti ∈ f.tracks, ti.trackId = trackId →
    findRegionName ppt regions ti.box = [] ∧ (crop f.cols f.rows ti.box).isImage = true ∧
    ti.env.saveThrows = false)

instance (ppt : PointPolygonTest) (regions : List Region) (trackId : Nat) (f : FrameInput) :
    Decidable (LeavesRegions ppt regions trackId f) := by
  unfold LeavesRegions; infer_instance

/-- The kinds of the events of one track in a list of events, in order. -/
def kindsOfTrack (trackId : Nat) (events : List DetectionEvent) : List EventType :=
  (events.filter fun e => e.trackId = trackId).map fun e => e.eventType

/-- The order of event kinds that the specification words: from outside a region only
FIRST_ENTRY may come, which leads inside; inside, PERIODIC may come any number of times and
EXIT leads outside again. `advance inside kinds` is where the track ends after the kinds,
`none` when they are out of this order. -/
def advance : Bool → List EventType → Option Bool
  | inside, [] => some inside
  | false, .FIRST_ENTRY :: rest => advance true rest
  | true, .PERIODIC :: rest => advance true rest
  | true, .EXIT :: rest => advance false rest
  | _, _ => none

/-- The kinds are strictly ordered FIRST_ENTRY, PERIODIC any number of times, EXIT, stay after
stay, starting outside (`inside = false`) or in the middle of a stay. -/
def StrictlyOrdered (inside : Bool) (kinds : List EventType) : Prop :=
  (advance inside kinds).isSome = true

instance (inside : Bool) (kinds : List EventType) : Decidable (StrictlyOrdered inside kinds) := by
  unfold StrictlyOrdered; infer_instance

/-- Whether a track state marks the track as inside a region. -/
def markedInside : Option TrackRegionState → Bool
  | some s => s.inRegion
  | none => false

/-- The capture that the event capture logic of `processFrame` attempts for a track, by the
branch it takes: FIRST_ENTRY for a track found in a region and not marked inside, PERIODIC for
one marked inside whose last capture is an interval or more back, EXIT for one found in no
region and marked inside, and none otherwise. -/
def attemptOf (ppt : PointPolygonTest) (w : World) (t : TrackInput) : Option EventType :=
  let regionName := findRegionName ppt w.widget.regions_ t.box
  if regionName ≠ [] then
    let state := (w.widget.trackRegionStates_.find t.trackId).getD TrackRegionState.default
    if state.inRegion = false then some .FIRST_ENTRY
    else
      let framesSinceLastCapture := w.widget.currentFrameNumber_ - state.lastCaptureFrame
      let captureInterval := w.eventManager.getPeriodicCaptureInterval
      if framesSinceLastCapture ≥ captureInterval then some .PERIODIC else none
  else
    match w.widget.trackRegionStates_.find t.trackId with
    | some state => if state.inRegion then some .EXIT else none
    | none => none

/-- Whether a capture for the track gets its image and saves it, so that `captureEvent` logs
the event instead of skipping it. -/
def captureSucceeds (w : World) (t : TrackInput) : Bool :=
  (crop w.widget.currentFrameCols w.widget.currentFrameRows t.box).isImage &&
    !t.env.saveThrows

/-- The captures attempted for the track `trackId` while the tracks of one frame are
processed in order, each with its kind and whether it succeeds. -/
def attemptsOfTracks (ppt : PointPolygonTest) (trackId : Nat) :
    World → List TrackInput → List (EventType × Bool)
  | _, [] => []
  | w, t :: rest =>
    (if t.trackId = trackId then
      match attemptOf ppt w t with
      | some kind => [(kind, captureSucceeds w t)]
      | none => []
    else []) ++
    (match processTrack ppt w t with
      | some w1 => attemptsOfTracks ppt trackId w1 rest
      | none => [])

/-- The captures attempted for the track in one call of `updateFrame`. -/
def attemptsOfFrame (ppt : PointPolygonTest) (trackId : Nat) (w : World) (f : FrameInput) :
    List (EventType × Bool) :=
  if f.readOk = false ∨ f.cols = 0 ∨ f.rows = 0 then []
  else
    let cw : CameraWidget := { w.widget with
      currentFrameCols := f.cols, currentFrameRows := f.rows
      currentFrameNumber_ := w.widget.currentFrameNumber_ + 1
      trackClassMap_ := f.trackClassMap }
    attemptsOfTracks ppt trackId { w with widget := cw } f.tracks

/-- The captures attempted for the track over a run of frames, in order. -/
def attemptsOfRun (ppt : PointPolygonTest) (trackId : Nat) :
    World → List FrameInput → List (EventType × Bool)
  | _, [] => []
  | w, f :: fs =>
    attemptsOfFrame ppt trackId w f ++
    (match updateFrame ppt w f with
      | some w1 => attemptsOfRun ppt trackId w1 fs
      | none => [])

end CameraWidget

/-! ## The class matching of `processFrame` (yolo_to_bytetrack.h, CameraWidget.cpp)

The matching compares `float` values. Every value it compares is finite: `calcIoU` returns
`0.0f` or the quotient of two converted `int`s with a positive divisor, and the constants are
`0.0f` and `0.3f`. On finite values the comparison `>` of `float` is a linear order (with the
two zeros taken as one value), so the float operations enter as a structure over a linearly
ordered type. -/

/-- The `float` operations that `calcIoU` and the class matching use. -/
structure FloatOps (F : Type) [LinearOrder F] where
  /-- The constant `0.0f`. -/
  zero : F
  /-- The constant `0.3f`. -/
  threshold : F
  /-- The conversion `static_cast<float>` of an `int`. -/
  ofInt : Int → F
  /-- The division of `float`. -/
  div : F → F → F
  /-- What holds of the constants: `0.0f ≤ 0.3f`. -/
  zero_le_threshold : zero ≤ threshold

/-- The function `calcIoU`; the `int` arithmetic is reduced into the 32-bit range. -/
def calcIoU {F : Type} [LinearOrder F] (ops : FloatOps F) (rect1 rect2 : Rect) : F :=
  let x1 := max rect1.x rect2.x
  let y1 := max rect1.y rect2.y
  let x2 := min (toInt32 (rect1.x + rect1.width)) (toInt32 (rect2.x + rect2.width))
  let y2 := min (toInt32 (rect1.y + rect1.height)) (toInt32 (rect2.y + rect2.height))
  let intersection_width := max 0 (toInt32 (x2 - x1))
  let intersection_height := max 0 (toInt32 (y2 - y1))
  let intersection_area := toInt32 (intersection_width * intersection_height)
  let area1 := toInt32 (rect1.width * rect1.height)
  let area2 := toInt32 (rect2.width * rect2.height)
  let union_area := toInt32 (toInt32 (area1 + area2) - intersection_area)
  if union_area ≤ 0 then ops.zero
  else ops.div (ops.ofInt intersection_area) (ops.ofInt union_area)

/-- Modelled from the spec: the struct `Detection` of inference.h, which is not among the
sources: bounding box, class id and confidence, of which the class matching reads the class
id and the box. -/
structure Detection where
  class_id : Int
  confidence : ℚ
  box : Rect
  deriving DecidableEq

namespace CameraWidget

/-- The inner loop of the class matching: the best IoU and the class id of the detection that
has it, `(0.0f, -1)` when no detection exceeds the threshold. -/
def bestMatch {F : Type} [LinearOrder F] (ops : FloatOps F) (track_box : Rect)
    (filteredDetections : List Detection) : F × Int :=
  filteredDetections.foldl (fun (best : F × Int) det =>
    let iou := calcIoU ops track_box det.box
    if iou > best.1 ∧ iou > ops.threshold then (iou, det.class_id) else best) (ops.zero, -1)

/-- The body of the loop over the tracks in the class matching. -/
def matchTrack {F : Type} [LinearOrder F] (ops : FloatOps F)
    (filteredDetections : List Detection) (trackClassMap : StdMap Nat Int)
    (track : TrackInput) : StdMap Nat Int :=
  let best_class_id := (bestMatch ops track.box filteredDetections).2
  if best_class_id ≥ 0 then trackClassMap.insert track.trackId best_class_id
  else trackClassMap

/-- The class matching of `processFrame`: the class map after the loop over the tracks that
the tracker reports. Its result is the `trackClassMap` of a `FrameInput`. -/
def matchClasses {F : Type} [LinearOrder F] (ops : FloatOps F) (tracks : List TrackInput)
    (filteredDetections : List Detection) (trackClassMap : StdMap Nat Int) : StdMap Nat Int :=
  tracks.foldl (matchTrack ops filteredDetections) trackClassMap

/-- Float operations of three decimal digits held in integers: `0.3f` is 300 and the quotient
is rounded down. -/
def milliOps : FloatOps Int :=
  { zero := 0, threshold := 300, ofInt := fun n => n, div := fun a b => a * 1000 / b
    zero_le_threshold := by decide }

end CameraWidget

/-! ## The Telegram bot (TelegramBot.cpp)

A `QNetworkReply*` is a number, the position of its request among the requests posted; the
requests posted and the signals emitted are kept as lists, in order. -/

/-- The struct `TelegramBot::PendingRequest`. -/
structure PendingRequest where
  imageData : List Nat
  caption : StdString
  attemptCount : Int
  deriving DecidableEq

/-- A request posted to the network: the photo part and the caption part. -/
structure PostedPhoto where
  imageData : List Nat
  caption : StdString
  deriving DecidableEq

/-- The signals of the class `TelegramBot`. -/
inductive TelegramSignal where
  | photoSent (caption : StdString)
  | sendFailed (caption : StdString) (error : StdString)
  deriving DecidableEq

/-- The class `TelegramBot`, with the requests it posted and the signals it emitted. -/
structure TelegramBot where
  enabled_ : Bool
  retryCount_ : Int
  pendingRequests_ : StdMap Nat PendingRequest
  posted : List PostedPhoto
  signals : List TelegramSignal

namespace TelegramBot

/-- The bot after its constructor, with the configuration that `loadConfig` found. -/
def configured (enabled : Bool) (retryCount : Int) : TelegramBot :=
  { enabled_ := enabled, retryCount_ := retryCount, pendingRequests_ := StdMap.empty
    posted := [], signals := [] }

/-- The call `networkManager_->post`: the request is posted and its reply handle returned. -/
def post (b : TelegramBot) (imageData : List Nat) (caption : StdString) : Nat × TelegramBot :=
  (b.posted.length, { b with posted := b.posted ++ [⟨imageData, caption⟩] })

/-- The method `sendPhoto`; `pixmapNull` is `pixmap.isNull()` and `imageData` the JPEG bytes
of the pixmap. -/
def sendPhoto (b : TelegramBot) (pixmapNull : Bool) (imageData : List Nat)
    (caption : StdString) : TelegramBot :=
  if b.enabled_ = false then b
  else if pixmapNull then b
  else
    let (reply, b1) := b.post imageData caption
    let pending : PendingRequest :=
      { imageData := imageData, caption := caption, attemptCount := 1 }
    { b1 with pendingRequests_ := b1.pendingRequests_.insert reply pending }

/-- The slot `onReplyFinished`; `error` is `none` for `QNetworkReply::NoError` and the error
string otherwise. -/
def onReplyFinished (b : TelegramBot) (reply : Nat) (error : Option StdString) :
    TelegramBot :=
  match b.pendingRequests_.find reply with
  | none => b
  | some pending =>
    let b0 := { b with pendingRequests_ := b.pendingRequests_.erase reply }
    match error with
    | none => { b0 with signals := b0.signals ++ [.photoSent pending.caption] }
    | some errorString =>
      if pending.attemptCount < b0.retryCount_ then
        let (retryReply, b1) := b0.post pending.imageData pending.caption
        let retried : PendingRequest :=
          { pending with attemptCount := toInt32 (pending.attemptCount + 1) }
        { b1 with pendingRequests_ := b1.pendingRequests_.insert retryReply retried }
      else
        { b0 with signals := b0.signals ++ [.sendFailed pending.caption errorString] }

/-- A photo is sent and every delivery attempt fails: each reply still pending is finished
with the error, at most `rounds` times, oldest reply first. -/
def failEveryAttempt (errorString : StdString) : Nat → TelegramBot → TelegramBot
  | 0, b => b
  | rounds + 1, b =>
    match b.pendingRequests_.keys with
    | [] => b
    | reply :: _ => failEveryAttempt errorString rounds (b.onReplyFinished reply errorString)

end TelegramBot

/-! ## Queries of the event log (EventManager.cpp) -/

namespace EventManager

/-- The method `getAllEvents`. -/
def getAllEvents (m : EventManager) : List DetectionEvent := m.events_

/-- The method `getEventsByTimeRange`: the loop over `events_` that pushes the events with
`eventTime >= start && eventTime <= end` onto the vector it returns. -/
def getEventsByTimeRange (m : EventManager) (start end_ : Int) : List DetectionEvent :=
  m.events_.foldl (fun filtered event =>
    let eventTime := event.timestamp
    if eventTime ≥ start ∧ eventTime ≤ end_ then filtered ++ [event] else filtered) []

/-- The const member functions of the event log. -/
inductive Query where
  | getAllEvents
  | getEventsByTimeRange (start end_ : Int)

/-- The log after a const member function has returned: each of them only reads `events_`. -/
def afterQuery (m : EventManager) (_q : Query) : EventManager := m

end EventManager

/-! ## The range of `int` -/

/-- The number is a value of `int`, so that a step of `int` arithmetic with this exact result
does not overflow. -/
def InInt32 (n : Int) : Prop := -2 ^ 31 ≤ n ∧ n < 2 ^ 31

instance (n : Int) : Decidable (InInt32 n) := by
  unfold InInt32; infer_instance

/-- The `int` arithmetic of the guard and the padding of `captureEvent` on the box is without
overflow: the frame size is a size in `int`, and the sums `x + width`, `y + height`,
`width + 2 * 15` and `height + 2 * 15` are values of `int`. -/
def CameraWidget.NoCropOverflow (cols rows : Int) (bbox : Rect) : Prop :=
  InInt32 cols ∧ InInt32 rows ∧
  InInt32 (bbox.x + bbox.width) ∧ InInt32 (bbox.y + bbox.height) ∧
  InInt32 (bbox.width + 2 * 15) ∧ InInt32 (bbox.height + 2 * 15)

instance (cols rows : Int) (bbox : Rect) :
    Decidable (CameraWidget.NoCropOverflow cols rows bbox) := by
  unfold CameraWidget.NoCropOverflow; infer_instance

/-! ## Whether the event image is written -/

namespace EventManager

/-- Whether `saveEventImage` leaves the image file written: the image is not empty, nothing
in the body throws, and `cv::imwrite`, whose result `imwriteResult` the method does not look
at, returned true. -/
def imageWritten (croppedEmpty : Bool) (env : CaptureEnv) (imwriteResult : Bool) : Bool :=
  if croppedEmpty then false
  else if env.saveThrows then false
  else imwriteResult

end EventManager

/-! ## The position of a point relative to a polygon

The words of the specification for `containsPoint`: a point lies on the boundary of the
polygon, strictly inside it or strictly outside it. The polygon is the closed chain of its
points; inside is counted by the crossings of the ray from the point in the direction of
growing `x` with the edges. -/

namespace Region

/-- The cross product of `b - a` and `p - a`: positive when `p` lies to the left of the line
from `a` to `b`, zero when on it. -/
def cross (a b p : Point) : Int :=
  (b.x - a.x) * (p.y - a.y) - (b.y - a.y) * (p.x - a.x)

/-- The point `p` lies on the segment from `a` to `b`, ends included. -/
def onSegment (a b p : Point) : Bool :=
  decide (cross a b p = 0 ∧ min a.x b.x ≤ p.x ∧ p.x ≤ max a.x b.x ∧
    min a.y b.y ≤ p.y ∧ p.y ≤ max a.y b.y)

/-- The edges of the polygon: each point with its successor, the last with the first. -/
def polygonEdges (points : List Point) : List (Point × Point) :=
  points.zip (points.tail ++ points.take 1)

/-- The ray from `p` in the direction of growing `x` crosses the edge from `a` to `b`, the
lower end of the edge counted and the upper not. -/
def rayCrosses (a b p : Point) : Bool :=
  decide ((a.y ≤ p.y ∧ p.y < b.y ∧ cross a b p > 0) ∨
    (b.y ≤ p.y ∧ p.y < a.y ∧ cross a b p < 0))

/-- The point lies on an edge or a vertex of the polygon. -/
def OnBoundary (points : List Point) (p : Point) : Prop :=
  ∃ e ∈ polygonEdges points, onSegment e.1 e.2 p = true

instance (points : List Point) (p : Point) : Decidable (OnBoundary points p) := by
  unfold OnBoundary; infer_instance

/-- The number of edges that the ray from `p` crosses. -/
def crossings (points : List Point) (p : Point) : Nat :=
  ((polygonEdges points).filter fun e => rayCrosses e.1 e.2 p).length

/-- The point lies strictly inside the polygon: not on its boundary, and the ray crosses an
odd number of edges. -/
def StrictlyInside (points : List Point) (p : Point) : Prop :=
  ¬ OnBoundary points p ∧ crossings points p % 2 = 1

/-- The point lies strictly outside the polygon: not on its boundary, and the ray crosses an
even number of edges. -/
def StrictlyOutside (points : List Point) (p : Point) : Prop :=
  ¬ OnBoundary points p ∧ crossings points p % 2 = 0

instance (points : List Point) (p : Point) : Decidable (StrictlyInside points p) := by
  unfold StrictlyInside; infer_instance

instance (points : List Point) (p : Point) : Decidable (StrictlyOutside points p) := by
  unfold StrictlyOutside; infer_instance

/-- The library call answers for this polygon and point as its documentation and the comment
in `containsPoint` say: positive strictly inside, zero on the boundary, negative strictly
outside. The call takes the point as a `cv::Point2f`, which holds every coordinate up to
`2 ^ 24` in absolute value exactly. -/
def AnswersAsDocumented (ppt : PointPolygonTest) (points : List Point) (p : Point) : Prop :=
  (0 < ppt points p ↔ StrictlyInside points p) ∧
  (ppt points p = 0 ↔ OnBoundary points p) ∧
  (ppt points p < 0 ↔ StrictlyOutside points p)

/-- A polygon test that answers as documented for every polygon and point. -/
def documentedTest : PointPolygonTest := fun points p =>
  if OnBoundary points p then 0
  else if crossings points p % 2 = 1 then 1
  else -1

end Region

/-! ## Float arithmetic as rounding, and the areas of `calcIoU`

A finite `float` is a rational number, and an operation of `float` arithmetic gives the
exact result rounded to a `float`; all that enters of the rounding is that it is monotone,
keeps 0 and 1, and keeps what it has rounded. -/

/-- A rounding of the rational numbers onto the values of `float`. -/
structure Rounding where
  /-- The value of `float` that a number is rounded to. -/
  rnd : ℚ → ℚ
  mono : ∀ a b : ℚ, a ≤ b → rnd a ≤ rnd b
  rnd_zero : rnd 0 = 0
  rnd_one : rnd 1 = 1
  idem : ∀ q : ℚ, rnd (rnd q) = rnd q

namespace Rounding

/-- The `float` operations under a rounding. -/
def ops (R : Rounding) : FloatOps ℚ :=
  { zero := 0, threshold := R.rnd (3 / 10), ofInt := fun n => R.rnd n
    div := fun a b => R.rnd (a / b)
    zero_le_threshold := by
      have h := R.mono 0 (3 / 10) (by norm_num)
      rw [R.rnd_zero] at h
      exact h }

/-- Arithmetic without rounding error. -/
def exact : Rounding :=
  { rnd := fun q => q, mono := fun _ _ h => h, rnd_zero := rfl, rnd_one := rfl
    idem := fun _ => rfl }

end Rounding

/-- The area of the intersection of two rectangles. -/
def intersectionArea (a b : Rect) : Int :=
  max 0 (min (a.x + a.width) (b.x + b.width) - max a.x b.x) *
    max 0 (min (a.y + a.height) (b.y + b.height) - max a.y b.y)

/-- The area of the union of two rectangles. -/
def unionArea (a b : Rect) : Int :=
  a.width * a.height + b.width * b.height - intersectionArea a b

/-- The `int` arithmetic of `calcIoU` on the two rectangles is without overflow: the exact
result of every step is a value of `int`. -/
def NoOverflow (a b : Rect) : Prop :=
  InInt32 (a.x + a.width) ∧ InInt32 (b.x + b.width) ∧
  InInt32 (a.y + a.height) ∧ InInt32 (b.y + b.height) ∧
  InInt32 (min (a.x + a.width) (b.x + b.width) - max a.x b.x) ∧
  InInt32 (min (a.y + a.height) (b.y + b.height) - max a.y b.y) ∧
  InInt32 (intersectionArea a b) ∧
  InInt32 (a.width * a.height) ∧ InInt32 (b.width * b.height) ∧
  InInt32 (a.width * a.height + b.width * b.height) ∧
  InInt32 (unionArea a b)

instance (a b : Rect) : Decidable (NoOverflow a b) := by
  unfold NoOverflow; infer_instance

/-! ## JSON values of the event manifest (DetectionEvent.cpp)

The class `nlohmann::json` is a library class; its values and the accessors that
`DetectionEvent::toJson` and `fromJson` call are given as the library documents them. -/

/-- A value of `nlohmann::json`; the members of an object are kept in key order. -/
inductive json where
  | null
  | boolean (b : Bool)
  | number_integer (n : Int)
  | number_unsigned (n : Nat)
  | number_float (q : ℚ)
  | string (s : StdString)
  | array (items : List json)
  | object (members : List (StdString × json))

namespace json

/-- The method `contains(key)`. -/
def contains (j : json) (key : StdString) : Bool :=
  match j with
  | object members => (StdMap.findEntries key members).isSome
  | _ => false

/-- The value of `j[key]` on a const value; `none` where the library asserts or throws (no
object, or no such member). -/
def item (j : json) (key : StdString) : Option json :=
  match j with
  | object members => StdMap.findEntries key members
  | _ => none

/-- The value after `j[key] = v`: a null value becomes an object; `none` where the library
throws (neither null nor an object). -/
def set (j : json) (key : StdString) (v : json) : Option json :=
  match j with
  | null => some (object [(key, v)])
  | object members => some (object (StdMap.insertEntries key v members))
  | _ => none

/-- The truncation of a rational number toward zero, as a conversion of a floating-point
number to an integer type truncates. -/
def truncate (q : ℚ) : Int := Int.tdiv q.num q.den

/-- The conversion `get<size_t>()`; `none` where the library throws. -/
def get_size_t : json → Option Nat
  | number_unsigned n => some (n % 2 ^ 64)
  | number_integer n => some (toSizeT n)
  | number_float q => some (toSizeT (truncate q))
  | boolean b => some (if b then 1 else 0)
  | _ => none

/-- The conversion `get<int>()`; `none` where the library throws. -/
def get_int : json → Option Int
  | number_unsigned n => some (toInt32 n)
  | number_integer n => some (toInt32 n)
  | number_float q => some (toInt32 (truncate q))
  | boolean b => some (if b then 1 else 0)
  | _ => none

/-- The conversion `get<float>()` under a rounding; `none` where the library throws. -/
def get_float (R : Rounding) : json → Option ℚ
  | number_unsigned n => some (R.rnd n)
  | number_integer n => some (R.rnd n)
  | number_float q => some (R.rnd q)
  | boolean b => some (if b then 1 else 0)
  | _ => none

/-- The conversion `get<std::string>()`; `none` where the library throws. -/
def get_string : json → Option StdString
  | string s => some s
  | _ => none

end json

/-- The two calls of `QDateTime` with the format "yyyy-MM-dd HH:mm:ss", as functions of the
time in milliseconds and of the text: `toString` and `QDateTime::fromString`. -/
structure DateTimeFormat where
  toString : Int → StdString
  fromString : StdString → Int

namespace DetectionEvent

/-- The method `getEventTypeString`. -/
def getEventTypeString (e : DetectionEvent) : StdString :=
  match e.eventType with
  | .FIRST_ENTRY => "ENTRY".toList
  | .PERIODIC => "PERIODIC".toList
  | .EXIT => "EXIT".toList

/-- The function `stringToEventType`. -/
def stringToEventType (typeStr : StdString) : EventType :=
  if typeStr = "ENTRY".toList ∨ typeStr = "FIRST_ENTRY".toList then .FIRST_ENTRY
  else if typeStr = "PERIODIC".toList then .PERIODIC
  else if typeStr = "EXIT".toList then .EXIT
  else .FIRST_ENTRY

/-- The event of the default constructor, at the time `now`. -/
def default (now : Int) : DetectionEvent :=
  { trackId := 0, cameraId := 0, cameraName := [], regionName := [], objectClass := []
    confidence := 0, eventType := .FIRST_ENTRY, timestamp := now, bbox := ⟨0, 0, 0, 0⟩
    imagePath := [], frameNumber := 0 }

/-- The method `toJson`; `none` where an assignment throws, which none does. -/
def toJson (fmt : DateTimeFormat) (e : DetectionEvent) : Option json := do
  let j := json.null
  let j ← j.set "track_id".toList (.number_unsigned e.trackId)
  let j ← j.set "camera_id".toList (.number_integer e.cameraId)
  let j ← j.set "camera_name".toList (.string e.cameraName)
  let j ← j.set "region_name".toList (.string e.regionName)
  let j ← j.set "object_class".toList (.string e.objectClass)
  let j ← j.set "confidence".toList (.number_float e.confidence)
  let j ← j.set "event_type".toList (.string e.getEventTypeString)
  let j ← j.set "timestamp".toList (.string (fmt.toString e.timestamp))
  let j ← j.set "frame_number".toList (.number_integer e.frameNumber)
  let j ← j.set "image_path".toList (.string e.imagePath)
  let bbox ← json.null.set "x".toList (.number_integer e.bbox.x)
  let bbox ← bbox.set "y".toList (.number_integer e.bbox.y)
  let bbox ← bbox.set "width".toList (.number_integer e.bbox.width)
  let bbox ← bbox.set "height".toList (.number_integer e.bbox.height)
  j.set "bbox".toList bbox

/-- The function `fromJson`, called at the time `now`; `none` where an accessor throws. -/
def fromJson (R : Rounding) (fmt : DateTimeFormat) (now : Int) (j : json) :
    Option DetectionEvent := do
  let event := DetectionEvent.default now
  let event ← if j.contains "track_id".toList then do
      let v ← (← j.item "track_id".toList).get_size_t
      pure { event with trackId := v }
    else pure event
  let event ← if j.contains "camera_id".toList then do
      let v ← (← j.item "camera_id".toList).get_int
      pure { event with cameraId := v }
    else pure event
  let event ← if j.contains "camera_name".toList then do
      let v ← (← j.item "camera_name".toList).get_string
      pure { event with cameraName := v }
    else pure event
  let event ← if j.contains "region_name".toList then do
      let v ← (← j.item "region_name".toList).get_string
      pure { event with regionName := v }
    else pure event
  let event ← if j.contains "object_class".toList then do
      let v ← (← j.item "object_class".toList).get_string
      pure { event with objectClass := v }
    else pure event
  let event ← if j.contains "confidence".toList then do
      let v ← (← j.item "confidence".toList).get_float R
      pure { event with confidence := v }
    else pure event
  let event ← if j.contains "event_type".toList then do
      let v ← (← j.item "event_type".toList).get_string
      pure { event with eventType := stringToEventType v }
    else pure event
  let event ← if j.contains "timestamp".toList then do
      let v ← (← j.item "timestamp".toList).get_string
      pure { event with timestamp := fmt.fromString v }
    else pure event
  let event ← if j.contains "frame_number".toList then do
      let v ← (← j.item "frame_number".toList).get_int
      pure { event with frameNumber := v }
    else pure event
  let event ← if j.contains "image_path".toList then do
      let v ← (← j.item "image_path".toList).get_string
      pure { event with imagePath := v }
    else pure event
  let event ← if j.contains "bbox".toList then do
      let b ← j.item "bbox".toList
      let x ← (← b.item "x".toList).get_int
      let y ← (← b.item "y".toList).get_int
      let width ← (← b.item "width".toList).get_int
      let height ← (← b.item "height".toList).get_int
      pure { event with bbox := ⟨x, y, width, height⟩ }
    else pure event
  pure event

/-- The members of the event have the values of their C++ types: `size_t`, `int`, and for
the confidence `float`. -/
def WellTyped (R : Rounding) (e : DetectionEvent) : Prop :=
  e.trackId < 2 ^ 64 ∧ InInt32 e.cameraId ∧ InInt32 e.frameNumber ∧
  InInt32 e.bbox.x ∧ InInt32 e.bbox.y ∧ InInt32 e.bbox.width ∧ InInt32 e.bbox.height ∧
  R.rnd e.confidence = e.confidence

end DetectionEvent

/-! ## Lemmas on casts, folds and the store -/

theorem toInt32_of_lt {n : Nat} (h : n < 2 ^ 31) : toInt32 n = n := by
  unfold toInt32; omega

theorem toInt32_range (n : Int) : -2 ^ 31 ≤ toInt32 n ∧ toInt32 n < 2 ^ 31 := by
  unfold toInt32; omega

theorem toInt32_of_inInt32 {n : Int} (h : InInt32 n) : toInt32 n = n := by
  unfold InInt32 at h
  unfold toInt32
  omega

theorem toSizeT_toInt64 {n : Nat} (h : n < 2 ^ 64) : toSizeT (toInt64 n) = n := by
  unfold toSizeT toInt64; omega

namespace StdMap

variable {κ ν α : Type} [LinearOrder κ]

theorem pairwise_ne_of_ordered {l : List (κ × α)} (h : Ordered l) :
    l.Pairwise (fun a b => a.1 ≠ b.1) :=
  List.Pairwise.imp (fun hab => ne_of_lt hab) h

theorem findEntries_foldl_insertEntries (f : α → ν) (l : List (κ × α))
    (hl : l.Pairwise (fun a b => a.1 ≠ b.1)) (acc : List (κ × ν)) (k : κ) :
    findEntries k (l.foldl (fun acc e => insertEntries e.1 (f e.2) acc) acc)
      = (findEntries k l).elim (findEntries k acc) (fun a => some (f a)) := by
  induction l generalizing acc with
  | nil => rfl
  | cons hd tl ih =>
    obtain ⟨k', a⟩ := hd
    have hhd := (List.pairwise_cons.1 hl).1
    rw [List.foldl_cons, ih (List.pairwise_cons.1 hl).2]
    by_cases hk : k = k'
    · subst hk
      have hn : findEntries k tl = none :=
        findEntries_eq_none fun e he => Ne.symm (hhd e he)
      simp [hn, findEntries, findEntries_insertEntries_self]
    · simp [findEntries, hk, findEntries_insertEntries_of_ne hk]

theorem ordered_foldl_insertEntries (f : α → ν) (l : List (κ × α)) (acc : List (κ × ν))
    (h : Ordered acc) : Ordered (l.foldl (fun acc e => insertEntries e.1 (f e.2) acc) acc) := by
  induction l generalizing acc with
  | nil => exact h
  | cons hd tl ih => exact ih _ (ordered_insertEntries _ _ h)

theorem find_foldl_insert (f : α → ν) (l : List (κ × α))
    (hl : l.Pairwise (fun a b => a.1 ≠ b.1)) (acc : StdMap κ ν) (k : κ) :
    (l.foldl (fun acc e => acc.insert e.1 (f e.2)) acc).find k
      = (findEntries k l).elim (acc.find k) (fun a => some (f a)) := by
  induction l generalizing acc with
  | nil => rfl
  | cons hd tl ih =>
    obtain ⟨k', a⟩ := hd
    have hhd := (List.pairwise_cons.1 hl).1
    rw [List.foldl_cons, ih (List.pairwise_cons.1 hl).2]
    by_cases hk : k = k'
    · subst hk
      have hn : findEntries k tl = none :=
        findEntries_eq_none fun e he => Ne.symm (hhd e he)
      simp [hn, findEntries]
    · simp [findEntries, hk, find_insert_of_ne _ hk]

end StdMap

namespace RegionCountManager

theorem find_getAllRegionData (m : RegionCountManager) (R : StdString) :
    (getAllRegionData m).find R
      = (m.regionData_.find R).map (fun d => (d.count, d.uniqueIds)) := by
  unfold getAllRegionData
  rw [StdMap.find_foldl_insert (fun d : RegionData => (d.count, d.uniqueIds)) _
    (StdMap.pairwise_ne_of_ordered m.regionData_.ordered)]
  unfold StdMap.find
  cases StdMap.findEntries R m.regionData_.entries <;> rfl

theorem mem_keys_getAllRegionData (m : RegionCountManager) (R : StdString) :
    R ∈ (getAllRegionData m).keys ↔ (m.regionData_.find R).isSome = true := by
  rw [StdMap.mem_keys_iff, find_getAllRegionData]
  cases m.regionData_.find R <;> simp

theorem find_eq_none_of_not_mem_keys {m : RegionCountManager} {R : StdString}
    (h : R ∉ (getAllRegionData m).keys) : m.regionData_.find R = none := by
  rw [mem_keys_getAllRegionData] at h
  cases hf : m.regionData_.find R with
  | none => rfl
  | some d => simp [hf] at h

theorem recordObjectEntry_fst (m : RegionCountManager) (R : StdString) (id : Nat)
    (cam : StdString) :
    (recordObjectEntry m R id cam).1 = !StdSet.contains (getRegionIds m R) id := by
  unfold recordObjectEntry getRegionIds
  cases hf : m.regionData_.find R with
  | none => simp [RegionData.default, StdSet.insert_snd]
  | some d => by_cases hc : StdSet.contains d.uniqueIds id <;> simp [StdSet.insert_snd, hc]

theorem getRegionIds_recordObjectEntry (m : RegionCountManager) (R : StdString) (id : Nat)
    (cam : StdString) :
    getRegionIds (recordObjectEntry m R id cam).2 R = (StdSet.insert (getRegionIds m R) id).1 := by
  unfold recordObjectEntry getRegionIds
  cases hf : m.regionData_.find R with
  | none => simp [RegionData.default, StdSet.insert_snd]
  | some d => by_cases hc : StdSet.contains d.uniqueIds id <;> simp [StdSet.insert_snd, hc]

theorem getRegionCount_recordObjectEntry (m : RegionCountManager) (R : StdString) (id : Nat)
    (cam : StdString) :
    getRegionCount (recordObjectEntry m R id cam).2 R =
      if StdSet.contains (getRegionIds m R) id then getRegionCount m R
      else toInt32 (StdSet.size (getRegionIds m R) + 1 : Nat) := by
  unfold recordObjectEntry getRegionIds getRegionCount
  cases hf : m.regionData_.find R with
  | none => simp [RegionData.default, StdSet.insert_snd, StdSet.size_insert]
  | some d =>
    by_cases hc : StdSet.contains d.uniqueIds id <;>
      simp [StdSet.insert_snd, hc, StdSet.size_insert]

theorem find_recordObjectEntry_of_ne (m : RegionCountManager) {R R' : StdString} (h : R' ≠ R)
    (id : Nat) (cam : StdString) :
    (recordObjectEntry m R id cam).2.regionData_.find R' = m.regionData_.find R' := by
  unfold recordObjectEntry
  dsimp only
  split_ifs <;> simp [StdMap.find_insert_of_ne _ h]

theorem find_clearRegion_self (m : RegionCountManager) (R : StdString) :
    (clearRegion m R).regionData_.find R = none := by
  unfold clearRegion
  cases hf : m.regionData_.find R with
  | none => simpa using hf
  | some d => simp

theorem find_clearRegion_of_ne (m : RegionCountManager) {R R' : StdString} (h : R' ≠ R) :
    (clearRegion m R).regionData_.find R' = m.regionData_.find R' := by
  unfold clearRegion
  cases hf : m.regionData_.find R with
  | none => rfl
  | some d => simp [StdMap.find_erase_of_ne _ h]

end RegionCountManager

/-! ## RegionCountManager: counting -/

namespace RegionCountManager

theorem getRegionCount_eq_of_find_eq {m₁ m₂ : RegionCountManager} {R : StdString}
    (h : m₁.regionData_.find R = m₂.regionData_.find R) :
    getRegionCount m₁ R = getRegionCount m₂ R := by
  unfold getRegionCount; rw [h]

theorem getRegionIds_eq_of_find_eq {m₁ m₂ : RegionCountManager} {R : StdString}
    (h : m₁.regionData_.find R = m₂.regionData_.find R) :
    getRegionIds m₁ R = getRegionIds m₂ R := by
  unfold getRegionIds; rw [h]

theorem getRegionCount_of_find_eq_none {m : RegionCountManager} {R : StdString}
    (h : m.regionData_.find R = none) : getRegionCount m R = 0 := by
  unfold getRegionCount; rw [h]

theorem getRegionIds_of_find_eq_none {m : RegionCountManager} {R : StdString}
    (h : m.regionData_.find R = none) : getRegionIds m R = StdSet.empty := by
  unfold getRegionIds; rw [h]

/-- In a reachable store the stored count is the `int` cast of the size of the id set. -/
theorem count_invariant {m : RegionCountManager} (h : Reachable m) (R : StdString) :
    getRegionCount m R = toInt32 (StdSet.size (getRegionIds m R)) := by
  have h0 : ∀ m' : RegionCountManager, m'.regionData_.find R = none →
      getRegionCount m' R = toInt32 (StdSet.size (getRegionIds m' R)) := by
    intro m' hn
    rw [getRegionCount_of_find_eq_none hn, getRegionIds_of_find_eq_none hn]
    exact (toInt32_of_lt (n := 0) (by norm_num)).symm
  induction h with
  | fresh => exact h0 _ rfl
  | @record m R' id cam _ _ ih =>
    by_cases hR : R = R'
    · subst hR
      rw [getRegionCount_recordObjectEntry, getRegionIds_recordObjectEntry, StdSet.size_insert]
      split_ifs
      · exact ih
      · rfl
    · rw [getRegionCount_eq_of_find_eq (find_recordObjectEntry_of_ne m hR id cam),
        getRegionIds_eq_of_find_eq (find_recordObjectEntry_of_ne m hR id cam)]
      exact ih
  | @clearRegion m R' _ ih =>
    by_cases hR : R = R'
    · subst hR
      exact h0 _ (find_clearRegion_self m R)
    · rw [getRegionCount_eq_of_find_eq (find_clearRegion_of_ne m hR),
        getRegionIds_eq_of_find_eq (find_clearRegion_of_ne m hR)]
      exact ih
  | clearAll _ _ => exact h0 _ rfl

/-- C1: in every store reachable from the fresh one by `recordObjectEntry`, `clearRegion` and
`clearAll`, `getRegionCount R` is the `int` cast of the number of elements of `getRegionIds R`
for every region name `R`, hence equal to that number whenever it fits an `int`. -/
theorem count_eq_size_of_reachable (m : RegionCountManager) (h : Reachable m) (R : StdString) :
    getRegionCount m R = toInt32 (StdSet.size (getRegionIds m R)) ∧
    (StdSet.size (getRegionIds m R) < 2 ^ 31 →
      getRegionCount m R = StdSet.size (getRegionIds m R)) := by
  refine ⟨count_invariant h R, fun hlt => ?_⟩
  rw [count_invariant h R, toInt32_of_lt hlt]

/-- Witness of C1: after recording ids 7 and 3 in region "A", clearing "B" and recording 7 in
"A" once more, the count of "A" is 2, the size of its id set. -/
theorem count_eq_size_of_reachable_witness :
    getRegionCount
        (recordObjectEntry (clearRegion (recordObjectEntry (recordObjectEntry fresh
          "A".toList 7 "cam0".toList).2 "A".toList 3 "cam1".toList).2 "B".toList)
          "A".toList 7 "cam0".toList).2 "A".toList = 2 ∧
    StdSet.size (getRegionIds
        (recordObjectEntry (clearRegion (recordObjectEntry (recordObjectEntry fresh
          "A".toList 7 "cam0".toList).2 "A".toList 3 "cam1".toList).2 "B".toList)
          "A".toList 7 "cam0".toList).2 "A".toList) = 2 :=
  have h := (count_eq_size_of_reachable _
    (Reachable.record "A".toList 7 "cam0".toList
      (Reachable.clearRegion "B".toList
        (Reachable.record "A".toList 3 "cam1".toList
          (Reachable.record "A".toList 7 "cam0".toList Reachable.fresh (by decide))
          (by decide)))
      (by decide)) "A".toList).2 (by decide)
  ⟨by rw [h]; decide, by decide⟩

/-- Claim C2, as worded for every store state, fails in the store loaded from the file
`{"A": {"count": 5, "ids": [1]}}`: id 2 is not among the ids of "A", the first
`recordObjectEntry "A" 2` returns true, and the count of "A" goes from 5 to 2, the number of
ids after the call, not to 6. -/
theorem recordObjectEntry_count_after_load :
    StdSet.contains (getRegionIds (loadFromJson fresh (JsonFile.readable (QJsonDocument.object
      [("A".toList, QJsonValue.object [("count".toList, QJsonValue.integer 5),
        ("ids".toList, QJsonValue.array [QJsonValue.integer 1])])]))).2 "A".toList) 2
      = false ∧
    getRegionCount (loadFromJson fresh (JsonFile.readable (QJsonDocument.object
      [("A".toList, QJsonValue.object [("count".toList, QJsonValue.integer 5),
        ("ids".toList, QJsonValue.array [QJsonValue.integer 1])])]))).2 "A".toList = 5 ∧
    (recordObjectEntry (loadFromJson fresh (JsonFile.readable (QJsonDocument.object
      [("A".toList, QJsonValue.object [("count".toList, QJsonValue.integer 5),
        ("ids".toList, QJsonValue.array [QJsonValue.integer 1])])]))).2
      "A".toList 2 []).1 = true ∧
    getRegionCount (recordObjectEntry (loadFromJson fresh (JsonFile.readable
      (QJsonDocument.object
        [("A".toList, QJsonValue.object [("count".toList, QJsonValue.integer 5),
          ("ids".toList, QJsonValue.array [QJsonValue.integer 1])])]))).2
      "A".toList 2 []).2 "A".toList = 2 := by
  decide

/-- C2, amended: in a store state where `getRegionCount R` is the number of ids of
`getRegionIds R`, as it is in every store reached from the empty one by `recordObjectEntry`,
`clearRegion` and `clearAll`, and one more id fits an `int`: when `id` is not yet in
`getRegionIds R`, the first `recordObjectEntry R id` returns true and increases
`getRegionCount R` by exactly 1; a second call with the same `R` and `id` returns false and
leaves `getRegionCount R` as it is. In every store state the first call sets the count to the
`int` cast of the number of ids after the call. -/
theorem recordObjectEntry_twice (m : RegionCountManager) (R : StdString) (id : Nat)
    (cam cam' : StdString)
    (hnew : StdSet.contains (getRegionIds m R) id = false)
    (hcount : getRegionCount m R = StdSet.size (getRegionIds m R))
    (hfit : StdSet.size (getRegionIds m R) + 1 < 2 ^ 31) :
    (recordObjectEntry m R id cam).1 = true ∧
    getRegionCount (recordObjectEntry m R id cam).2 R = getRegionCount m R + 1 ∧
    (recordObjectEntry (recordObjectEntry m R id cam).2 R id cam').1 = false ∧
    getRegionCount (recordObjectEntry (recordObjectEntry m R id cam).2 R id cam').2 R
      = getRegionCount (recordObjectEntry m R id cam).2 R ∧
    (∀ m0 : RegionCountManager, StdSet.contains (getRegionIds m0 R) id = false →
      getRegionCount (recordObjectEntry m0 R id cam).2 R
        = toInt32 (StdSet.size (getRegionIds (recordObjectEntry m0 R id cam).2 R))) ∧
    (∀ m0 : RegionCountManager, Reachable m0 → StdSet.size (getRegionIds m0 R) < 2 ^ 31 →
      getRegionCount m0 R = StdSet.size (getRegionIds m0 R)) := by
  have hin : StdSet.contains (getRegionIds (recordObjectEntry m R id cam).2 R) id = true := by
    rw [getRegionIds_recordObjectEntry, StdSet.contains_insert]; simp
  have hcnt : ∀ m0 : RegionCountManager, StdSet.contains (getRegionIds m0 R) id = false →
      getRegionCount (recordObjectEntry m0 R id cam).2 R
        = toInt32 (StdSet.size (getRegionIds m0 R) + 1 : Nat) := by
    intro m0 h0
    rw [getRegionCount_recordObjectEntry, h0, if_neg (by simp)]
  refine ⟨?_, ?_, ?_, ?_, ?_, ?_⟩
  · rw [recordObjectEntry_fst, hnew]; rfl
  · rw [hcnt m hnew, hcount, toInt32_of_lt hfit]
    push_cast; rfl
  · rw [recordObjectEntry_fst, hin]; rfl
  · rw [getRegionCount_recordObjectEntry (recordObjectEntry m R id cam).2, if_pos hin]
  · intro m0 h0
    rw [hcnt m0 h0, getRegionIds_recordObjectEntry, StdSet.size_insert, h0]
    simp
  · intro m0 hr hlt
    rw [count_invariant hr R, toInt32_of_lt hlt]

/-- Witness of C2 amended: id 9 recorded twice in region "A" of a store that already counts
id 4 there; the count goes from 1 to 2 and stays at 2. -/
theorem recordObjectEntry_twice_witness :
    (recordObjectEntry (recordObjectEntry fresh "A".toList 4 []).2 "A".toList 9 []).1 = true ∧
    getRegionCount
        (recordObjectEntry (recordObjectEntry fresh "A".toList 4 []).2 "A".toList 9 []).2
        "A".toList
      = getRegionCount (recordObjectEntry fresh "A".toList 4 []).2 "A".toList + 1 ∧
    (recordObjectEntry
        (recordObjectEntry (recordObjectEntry fresh "A".toList 4 []).2 "A".toList 9 []).2
        "A".toList 9 "other".toList).1 = false ∧
    getRegionCount
        (recordObjectEntry
          (recordObjectEntry (recordObjectEntry fresh "A".toList 4 []).2 "A".toList 9 []).2
          "A".toList 9 "other".toList).2 "A".toList
      = getRegionCount
          (recordObjectEntry (recordObjectEntry fresh "A".toList 4 []).2 "A".toList 9 []).2
          "A".toList :=
  have h := recordObjectEntry_twice (recordObjectEntry fresh "A".toList 4 []).2 "A".toList 9 []
    "other".toList (by decide) (by decide) (by decide)
  ⟨h.1, h.2.1, h.2.2.1, h.2.2.2.1⟩

/-- C3: `recordObjectEntry R id cameraName` returns true exactly when `id` was not in
`getRegionIds R` before the call; afterwards `getRegionIds R` is the previous set with `id`
inserted, so it holds `id` and the previous ids and nothing else; the camera name changes
neither the flag nor the store. -/
theorem recordObjectEntry_spec (m : RegionCountManager) (R : StdString) (id : Nat)
    (cameraName : StdString) :
    ((recordObjectEntry m R id cameraName).1 = true ↔
      StdSet.contains (getRegionIds m R) id = false) ∧
    getRegionIds (recordObjectEntry m R id cameraName).2 R
      = (StdSet.insert (getRegionIds m R) id).1 ∧
    (∀ x, StdSet.contains (getRegionIds (recordObjectEntry m R id cameraName).2 R) x = true ↔
      (x = id ∨ StdSet.contains (getRegionIds m R) x = true)) ∧
    (∀ other, recordObjectEntry m R id other = recordObjectEntry m R id cameraName) := by
  refine ⟨?_, getRegionIds_recordObjectEntry m R id cameraName, ?_, fun _ => rfl⟩
  · rw [recordObjectEntry_fst]
    cases StdSet.contains (getRegionIds m R) id <;> simp
  · intro x
    rw [getRegionIds_recordObjectEntry, StdSet.contains_insert]
    simp

end RegionCountManager

/-! ## RegionCountManager: the JSON snapshot -/

namespace RegionCountManager

theorem foldl_append_singleton {α β : Type} (g : α → β) (l : List α) (init : List β) :
    l.foldl (fun acc x => acc ++ [g x]) init = init ++ l.map g := by
  induction l generalizing init with
  | nil => simp
  | cons hd tl ih => simp [ih]

theorem idsToJson_eq (s : StdSet Nat) :
    idsToJson s = (StdSet.toList s).map (fun (id : Nat) => QJsonValue.integer (toInt64 id)) := by
  unfold idsToJson
  rw [foldl_append_singleton (fun id : Nat => QJsonValue.integer (toInt64 id))]
  rfl

theorem regionToJson_eq (d : RegionData) :
    regionToJson d = [("count".toList, QJsonValue.integer d.count),
      ("ids".toList, QJsonValue.array (idsToJson d.uniqueIds))] := by
  have h1 : ¬ ("ids".toList < "count".toList) := by decide
  have h2 : "ids".toList ≠ "count".toList := by decide
  simp only [regionToJson, QJsonObject.insert, StdMap.insertEntries, if_neg h1, if_neg h2]

theorem regionFromJson_regionToJson (d : RegionData)
    (hc : -2 ^ 31 ≤ d.count ∧ d.count < 2 ^ 31)
    (hids : ∀ id, StdSet.contains d.uniqueIds id = true → id < 2 ^ 64) :
    regionFromJson (QJsonValue.object (regionToJson d)) = d := by
  have h1 : "ids".toList ≠ "count".toList := by decide
  have hcount : ((regionToJson d).value "count".toList).toInt = d.count := by
    rw [regionToJson_eq]
    simp only [QJsonObject.value, StdMap.findEntries, if_true, Option.getD_some,
      QJsonValue.toInt, if_pos hc]
  have harr : ((regionToJson d).value "ids".toList).toArray = idsToJson d.uniqueIds := by
    rw [regionToJson_eq]
    simp only [QJsonObject.value, StdMap.findEntries, if_neg h1, if_true, Option.getD_some,
      QJsonValue.toArray]
  have hset : (idsToJson d.uniqueIds).foldl
      (fun ids idValue => (StdSet.insert ids (toSizeT idValue.toInteger)).1) StdSet.empty
        = d.uniqueIds := by
    apply StdSet.ext_contains
    intro x
    rw [idsToJson_eq, List.foldl_map]
    have hfold : ∀ (l : List Nat) (acc : StdSet Nat), (∀ id ∈ l, id < 2 ^ 64) →
        l.foldl (fun (ids : StdSet Nat) (id : Nat) =>
          (StdSet.insert ids (toSizeT (QJsonValue.integer (toInt64 id)).toInteger)).1) acc
          = l.foldl (fun ids id => (StdSet.insert ids id).1) acc := by
      intro l
      induction l with
      | nil => intro _ _; simp only [List.foldl_nil]
      | cons hd tl ih =>
        intro acc hl
        have hhd : toSizeT (toInt64 hd) = hd :=
          toSizeT_toInt64 (hl hd (List.mem_cons_self _ _))
        simp only [List.foldl_cons, QJsonValue.toInteger, hhd]
        exact ih _ fun id hid => hl id (List.mem_cons_of_mem _ hid)
    rw [hfold _ _ fun id hid => hids id ((StdSet.mem_toList _ _).1 hid),
      StdSet.contains_foldl_insert]
    by_cases hx : StdSet.contains d.uniqueIds x = true
    · simp [hx, (StdSet.mem_toList _ _).2 hx]
    · have hx' : x ∉ StdSet.toList d.uniqueIds := fun hm => hx ((StdSet.mem_toList _ _).1 hm)
      simp [hx, hx']
  cases d with
  | mk ids count =>
    simp only [regionFromJson, QJsonValue.toObject] at *
    rw [hcount, harr, hset]

theorem find_loadFromJson (m : RegionCountManager) (root : QJsonObject)
    (hroot : root.Pairwise (fun a b => a.1 ≠ b.1)) (R : StdString) :
    (loadFromJson m (JsonFile.readable (QJsonDocument.object root))).2.regionData_.find R
      = (StdMap.findEntries R root).map regionFromJson := by
  simp only [loadFromJson]
  rw [StdMap.find_foldl_insert regionFromJson root hroot]
  cases StdMap.findEntries R root <;> rfl

theorem findEntries_rootToJson (m : RegionCountManager) (R : StdString) :
    StdMap.findEntries R (rootToJson m)
      = (m.regionData_.find R).map (fun d => QJsonValue.object (regionToJson d)) := by
  unfold rootToJson QJsonObject.insert
  rw [StdMap.findEntries_foldl_insertEntries
    (fun d : RegionData => QJsonValue.object (regionToJson d)) _
    (StdMap.pairwise_ne_of_ordered m.regionData_.ordered)]
  unfold StdMap.find
  cases StdMap.findEntries R m.regionData_.entries <;> rfl

theorem ordered_rootToJson (m : RegionCountManager) : StdMap.Ordered (rootToJson m) :=
  StdMap.ordered_foldl_insertEntries
    (fun d : RegionData => QJsonValue.object (regionToJson d)) _ [] List.Pairwise.nil

theorem wellTyped_of_reachable {m : RegionCountManager} (h : Reachable m) : WellTyped m := by
  have h0 : ∀ (m' : RegionCountManager) (R : StdString), m'.regionData_.find R = none →
      (-2 ^ 31 ≤ getRegionCount m' R ∧ getRegionCount m' R < 2 ^ 31) ∧
        ∀ id, StdSet.contains (getRegionIds m' R) id = true → id < 2 ^ 64 := by
    intro m' R hn
    rw [getRegionCount_of_find_eq_none hn, getRegionIds_of_find_eq_none hn]
    exact ⟨by norm_num, fun id hid => by simp at hid⟩
  induction h with
  | fresh => exact fun R => h0 _ R rfl
  | @record m R' id cam _ hid ih =>
    intro R
    by_cases hR : R = R'
    · subst hR
      rw [getRegionCount_recordObjectEntry, getRegionIds_recordObjectEntry]
      refine ⟨?_, ?_⟩
      · split_ifs
        · exact (ih R).1
        · exact toInt32_range _
      · intro x hx
        rw [StdSet.contains_insert] at hx
        by_cases hxi : x = id
        · subst hxi; exact hid
        · exact (ih R).2 x (by simpa [hxi] using hx)
    · rw [getRegionCount_eq_of_find_eq (find_recordObjectEntry_of_ne m hR id cam),
        getRegionIds_eq_of_find_eq (find_recordObjectEntry_of_ne m hR id cam)]
      exact ih R
  | @clearRegion m R' _ ih =>
    intro R
    by_cases hR : R = R'
    · subst hR
      exact h0 _ R (find_clearRegion_self m R)
    · rw [getRegionCount_eq_of_find_eq (find_clearRegion_of_ne m hR),
        getRegionIds_eq_of_find_eq (find_clearRegion_of_ne m hR)]
      exact ih R
  | clearAll _ _ => exact fun R => h0 _ R rfl

/-- Loading the document saved from a well-typed store gives that store back. -/
theorem loadFromJson_rootToJson (m₀ : RegionCountManager) {m : RegionCountManager}
    (h : WellTyped m) :
    (loadFromJson m₀ (JsonFile.readable (QJsonDocument.object (rootToJson m)))).2 = m := by
  cases hm : m with
  | mk r =>
  subst hm
  have key : ∀ R, (loadFromJson m₀ (JsonFile.readable (QJsonDocument.object
      (rootToJson ⟨r⟩)))).2.regionData_.find R = r.find R := by
    intro R
    rw [find_loadFromJson _ _ (StdMap.pairwise_ne_of_ordered (ordered_rootToJson _)),
      findEntries_rootToJson]
    cases hf : r.find R with
    | none => rfl
    | some d =>
      have hR := h R
      simp only [getRegionCount, getRegionIds, hf] at hR
      simp only [Option.map_some', regionFromJson_regionToJson d hR.1 hR.2]
  generalize (loadFromJson m₀ (JsonFile.readable (QJsonDocument.object
      (rootToJson ⟨r⟩)))).2 = m' at key
  cases m' with
  | mk r' => exact congrArg _ (StdMap.ext_find key)

end RegionCountManager

namespace RegionCountManager

theorem findEntries_of_mem_of_pairwise {κ ν : Type} [LinearOrder κ] {l : List (κ × ν)}
    (hl : l.Pairwise (fun a b => a.1 ≠ b.1)) {k : κ} {v : ν} (h : (k, v) ∈ l) :
    StdMap.findEntries k l = some v := by
  induction l with
  | nil => simp at h
  | cons hd tl ih =>
    obtain ⟨k', v'⟩ := hd
    have hhd := (List.pairwise_cons.1 hl).1
    rcases List.mem_cons.1 h with h | h
    · cases h; simp [StdMap.findEntries]
    · have hne : k ≠ k' := fun hk => hhd (k, v) h hk.symm
      simp only [StdMap.findEntries, if_neg hne]
      exact ih (List.pairwise_cons.1 hl).2 h

theorem pairwise_ne_of_nodup_keys {root : QJsonObject} (h : root.keys.Nodup) :
    root.Pairwise (fun a b => a.1 ≠ b.1) := by
  unfold QJsonObject.keys List.Nodup at h
  exact List.pairwise_map.1 h

theorem findEntries_isSome_iff_mem_keys (root : QJsonObject) (R : StdString) :
    (StdMap.findEntries R root).isSome = true ↔ R ∈ root.keys := by
  constructor
  · intro h
    obtain ⟨v, hv⟩ := Option.isSome_iff_exists.1 h
    exact List.mem_map.2 ⟨(R, v), StdMap.mem_of_findEntries hv, rfl⟩
  · intro h
    obtain ⟨e, he, hk⟩ := List.mem_map.1 h
    obtain ⟨k, v⟩ := e
    cases hk
    exact StdMap.findEntries_isSome_of_mem he

theorem contains_uniqueIds_regionFromJson (v : QJsonValue) (id : Nat) :
    StdSet.contains (regionFromJson v).uniqueIds id = true ↔
      ∃ item ∈ (v.toObject.value "ids".toList).toArray, toSizeT item.toInteger = id := by
  simp only [regionFromJson]
  rw [← List.foldl_map (fun item : QJsonValue => toSizeT item.toInteger)
    (fun (ids : StdSet Nat) (x : Nat) => (StdSet.insert ids x).1),
    StdSet.contains_foldl_insert]
  simp only [StdSet.contains_empty, Bool.or_false, decide_eq_true_eq, List.mem_map]

theorem toSizeT_natCast {n : Nat} (h : n < 2 ^ 63) : toSizeT (n : Int) = n := by
  unfold toSizeT; omega

theorem contains_uniqueIds_of_plain_ids (v : QJsonValue)
    (hplain : ∀ item ∈ (v.toObject.value "ids".toList).toArray,
      ∃ n : Nat, n < 2 ^ 63 ∧ item = QJsonValue.integer n) (id : Nat) :
    StdSet.contains (regionFromJson v).uniqueIds id = true ↔
      QJsonValue.integer id ∈ (v.toObject.value "ids".toList).toArray := by
  rw [contains_uniqueIds_regionFromJson]
  constructor
  · rintro ⟨item, hitem, hid⟩
    obtain ⟨n, hn, rfl⟩ := hplain item hitem
    simp only [QJsonValue.toInteger, toSizeT_natCast hn] at hid
    rw [← hid]
    exact hitem
  · intro hmem
    obtain ⟨n, hn, hnn⟩ := hplain _ hmem
    have hid : id = n := by
      have := QJsonValue.integer.inj hnn
      exact_mod_cast this
    refine ⟨_, hmem, ?_⟩
    simp only [QJsonValue.toInteger, hid, toSizeT_natCast hn]

/-- C4: for every store reachable by `recordObjectEntry`, `clearRegion` and `clearAll`,
`saveToJson` writes a document that `loadFromJson` loads into a fresh store with success, and
the loaded store has the same `getAllRegionData` (names, counts and id sets) as the original. -/
theorem saveToJson_loadFromJson_roundtrip (m : RegionCountManager) (h : Reachable m) :
    ∃ doc, saveToJson m true = (true, some doc) ∧
      (loadFromJson fresh (JsonFile.readable doc)).1 = true ∧
      getAllRegionData (loadFromJson fresh (JsonFile.readable doc)).2 = getAllRegionData m :=
  ⟨QJsonDocument.object (rootToJson m), rfl, rfl,
    congrArg getAllRegionData (loadFromJson_rootToJson fresh (wellTyped_of_reachable h))⟩

/-- Witness of C4: the store with ids 2 and 7 in region "B" and id 3 in region "A". -/
theorem saveToJson_loadFromJson_roundtrip_witness :
    ∃ doc, saveToJson (recordObjectEntry (recordObjectEntry (recordObjectEntry fresh
        "B".toList 7 []).2 "A".toList 3 []).2 "B".toList 2 []).2 true = (true, some doc) ∧
      (loadFromJson fresh (JsonFile.readable doc)).1 = true ∧
      getAllRegionData (loadFromJson fresh (JsonFile.readable doc)).2
        = getAllRegionData (recordObjectEntry (recordObjectEntry (recordObjectEntry fresh
            "B".toList 7 []).2 "A".toList 3 []).2 "B".toList 2 []).2 :=
  saveToJson_loadFromJson_roundtrip _
    (Reachable.record "B".toList 2 []
      (Reachable.record "A".toList 3 []
        (Reachable.record "B".toList 7 [] Reachable.fresh (by decide)) (by decide))
      (by decide))

/-- C5, on the file `{"A": {"count": 5, "ids": [1]}}`: `loadFromJson` returns true and leaves
`getRegionCount "A"` at 5 while `getRegionIds "A"` has one element. -/
theorem loadFromJson_count_differs_from_ids :
    (loadFromJson fresh (JsonFile.readable (QJsonDocument.object
      [("A".toList, QJsonValue.object [("count".toList, QJsonValue.integer 5),
        ("ids".toList, QJsonValue.array [QJsonValue.integer 1])])]))).1 = true ∧
    getRegionCount (loadFromJson fresh (JsonFile.readable (QJsonDocument.object
      [("A".toList, QJsonValue.object [("count".toList, QJsonValue.integer 5),
        ("ids".toList, QJsonValue.array [QJsonValue.integer 1])])]))).2 "A".toList = 5 ∧
    StdSet.size (getRegionIds (loadFromJson fresh (JsonFile.readable (QJsonDocument.object
      [("A".toList, QJsonValue.object [("count".toList, QJsonValue.integer 5),
        ("ids".toList, QJsonValue.array [QJsonValue.integer 1])])]))).2 "A".toList) = 1 := by
  decide

/-- C6: `loadFromJson` returns true only on a file holding a JSON object; on such a file (its
keys distinct, as in every `QJsonObject`) the store afterwards has exactly the keys of that
object as region names, whatever it held before; the id set of a region holds exactly the
entries of its "ids" array, each read with `toInteger` and cast to `size_t`, which for an
array of integers from 0 to `2 ^ 63 - 1` are the listed numbers themselves; and a name that is
not a key has no data. -/
theorem loadFromJson_replaces (m : RegionCountManager) (root : QJsonObject)
    (hroot : root.keys.Nodup) :
    (∀ file, (loadFromJson m file).1 = true → ∃ r, file = JsonFile.readable (QJsonDocument.object r)) ∧
    (loadFromJson m (JsonFile.readable (QJsonDocument.object root))).1 = true ∧
    (∀ R, R ∈ (getAllRegionData
        (loadFromJson m (JsonFile.readable (QJsonDocument.object root))).2).keys ↔
      R ∈ root.keys) ∧
    (∀ R v, (R, v) ∈ root → ∀ id,
      StdSet.contains (getRegionIds
          (loadFromJson m (JsonFile.readable (QJsonDocument.object root))).2 R) id = true ↔
        ∃ item ∈ (v.toObject.value "ids".toList).toArray, toSizeT item.toInteger = id) ∧
    (∀ R v, (R, v) ∈ root →
      (∀ item ∈ (v.toObject.value "ids".toList).toArray,
        ∃ n : Nat, n < 2 ^ 63 ∧ item = QJsonValue.integer n) →
      ∀ id : Nat,
        StdSet.contains (getRegionIds
            (loadFromJson m (JsonFile.readable (QJsonDocument.object root))).2 R) id = true ↔
          QJsonValue.integer id ∈ (v.toObject.value "ids".toList).toArray) ∧
    (∀ R, R ∉ root.keys →
      getRegionCount (loadFromJson m (JsonFile.readable (QJsonDocument.object root))).2 R = 0 ∧
      getRegionIds (loadFromJson m (JsonFile.readable (QJsonDocument.object root))).2 R
        = StdSet.empty) := by
  have hp := pairwise_ne_of_nodup_keys hroot
  refine ⟨?_, rfl, ?_, ?_, ?_, ?_⟩
  · intro file hfile
    cases file with
    | missing => simp [loadFromJson] at hfile
    | unreadable => simp [loadFromJson] at hfile
    | readable doc =>
      cases doc with
      | null => simp [loadFromJson] at hfile
      | array items => simp [loadFromJson] at hfile
      | object r => exact ⟨r, rfl⟩
  · intro R
    rw [mem_keys_getAllRegionData, find_loadFromJson m root hp, ← findEntries_isSome_iff_mem_keys]
    cases StdMap.findEntries R root <;> simp
  · intro R v hv id
    have hf := find_loadFromJson m root hp R
    rw [findEntries_of_mem_of_pairwise hp hv] at hf
    simp only [getRegionIds, hf, Option.map_some']
    exact contains_uniqueIds_regionFromJson v id
  · intro R v hv hplain id
    have hf := find_loadFromJson m root hp R
    rw [findEntries_of_mem_of_pairwise hp hv] at hf
    simp only [getRegionIds, hf, Option.map_some']
    exact contains_uniqueIds_of_plain_ids v hplain id
  · intro R hR
    have hf := find_loadFromJson m root hp R
    have hn : StdMap.findEntries R root = none := by
      cases hfe : StdMap.findEntries R root with
      | none => rfl
      | some v =>
        exact absurd ((findEntries_isSome_iff_mem_keys root R).1 (by simp [hfe])) hR
    rw [hn] at hf
    exact ⟨getRegionCount_of_find_eq_none hf, getRegionIds_of_find_eq_none hf⟩

/-- Witness of C6: a store holding region "Old" loads the file `{"A": {"ids": [4, 4, 6]}}`;
afterwards 6 is an id of "A" and "Old" has no data. -/
theorem loadFromJson_replaces_witness :
    (StdSet.contains (getRegionIds
        (loadFromJson (recordObjectEntry fresh "Old".toList 1 []).2
          (JsonFile.readable (QJsonDocument.object [("A".toList, QJsonValue.object
            [("ids".toList, QJsonValue.array
              [QJsonValue.integer 4, QJsonValue.integer 4, QJsonValue.integer 6])])]))).2
        "A".toList) 6 = true ↔
      ∃ item ∈ ((QJsonValue.object [("ids".toList, QJsonValue.array
          [QJsonValue.integer 4, QJsonValue.integer 4, QJsonValue.integer 6])]).toObject.value
            "ids".toList).toArray, toSizeT item.toInteger = 6) ∧
    getRegionIds
        (loadFromJson (recordObjectEntry fresh "Old".toList 1 []).2
          (JsonFile.readable (QJsonDocument.object [("A".toList, QJsonValue.object
            [("ids".toList, QJsonValue.array
              [QJsonValue.integer 4, QJsonValue.integer 4, QJsonValue.integer 6])])]))).2
        "Old".toList = StdSet.empty :=
  have h := loadFromJson_replaces (recordObjectEntry fresh "Old".toList 1 []).2
    [("A".toList, QJsonValue.object [("ids".toList, QJsonValue.array
      [QJsonValue.integer 4, QJsonValue.integer 4, QJsonValue.integer 6])])] (by decide)
  ⟨h.2.2.2.1 "A".toList _ (List.mem_cons_self _ _) 6,
    (h.2.2.2.2.2 "Old".toList (by decide)).2⟩

/-- C7: for a region name with no entry in the store (never recorded, or cleared) the queries
`getRegionCount` and `getRegionIds` return 0 and the empty set, and `getAllRegionData` is the
same after either query as before it; a name has no entry in the fresh store, after
`clearRegion` of that name and after `clearAll`. -/
theorem query_of_unknown_region (m : RegionCountManager) (R : StdString)
    (h : R ∉ (getAllRegionData m).keys) :
    getRegionCount m R = 0 ∧ getRegionIds m R = StdSet.empty ∧
    getAllRegionData (afterQuery m (Query.getRegionCount R)) = getAllRegionData m ∧
    getAllRegionData (afterQuery m (Query.getRegionIds R)) = getAllRegionData m ∧
    R ∉ (getAllRegionData fresh).keys ∧
    R ∉ (getAllRegionData (clearRegion m R)).keys ∧
    R ∉ (getAllRegionData (clearAll m)).keys := by
  have hn := find_eq_none_of_not_mem_keys h
  refine ⟨getRegionCount_of_find_eq_none hn, getRegionIds_of_find_eq_none hn, rfl, rfl,
    ?_, ?_, ?_⟩
  · simp [getAllRegionData, fresh, StdMap.keys, StdMap.empty]
  · rw [mem_keys_getAllRegionData, find_clearRegion_self]; simp
  · simp [getAllRegionData, clearAll, StdMap.keys, StdMap.empty]

/-- Witness of C7: region "B" was never recorded in a store that counts id 5 in region "A". -/
theorem query_of_unknown_region_witness :
    getRegionCount (recordObjectEntry fresh "A".toList 5 []).2 "B".toList = 0 ∧
    getRegionIds (recordObjectEntry fresh "A".toList 5 []).2 "B".toList = StdSet.empty :=
  have h := query_of_unknown_region (recordObjectEntry fresh "A".toList 5 []).2 "B".toList
    (by decide)
  ⟨h.1, h.2.1⟩

/-- C8: after `clearRegion R` the count of `R` is 0 and its id set is empty, while the count
and id set of every other region are as before; `clearRegion` of a name with no entry leaves
the store as it is; after `clearAll`, `getAllRegionData` is the empty map. -/
theorem clearRegion_clearAll_frame (m : RegionCountManager) (R : StdString) :
    getRegionCount (clearRegion m R) R = 0 ∧
    getRegionIds (clearRegion m R) R = StdSet.empty ∧
    (∀ R', R' ≠ R →
      getRegionCount (clearRegion m R) R' = getRegionCount m R' ∧
      getRegionIds (clearRegion m R) R' = getRegionIds m R') ∧
    (R ∉ (getAllRegionData m).keys → clearRegion m R = m) ∧
    getAllRegionData (clearAll m) = StdMap.empty := by
  refine ⟨getRegionCount_of_find_eq_none (find_clearRegion_self m R),
    getRegionIds_of_find_eq_none (find_clearRegion_self m R), ?_, ?_, rfl⟩
  · intro R' hR
    exact ⟨getRegionCount_eq_of_find_eq (find_clearRegion_of_ne m hR),
      getRegionIds_eq_of_find_eq (find_clearRegion_of_ne m hR)⟩
  · intro h
    have hn := find_eq_none_of_not_mem_keys h
    simp only [clearRegion, hn]

/-- Witness of C8: clearing "A" in a store that counts id 5 in "A" and id 6 in "B" keeps the
data of "B", and clearing the unknown name "C" changes nothing. -/
theorem clearRegion_clearAll_frame_witness :
    getRegionCount (clearRegion (recordObjectEntry (recordObjectEntry fresh
        "A".toList 5 []).2 "B".toList 6 []).2 "A".toList) "B".toList
      = getRegionCount (recordObjectEntry (recordObjectEntry fresh
        "A".toList 5 []).2 "B".toList 6 []).2 "B".toList ∧
    clearRegion (recordObjectEntry (recordObjectEntry fresh
        "A".toList 5 []).2 "B".toList 6 []).2 "C".toList
      = (recordObjectEntry (recordObjectEntry fresh "A".toList 5 []).2 "B".toList 6 []).2 :=
  ⟨((clearRegion_clearAll_frame (recordObjectEntry (recordObjectEntry fresh
      "A".toList 5 []).2 "B".toList 6 []).2 "A".toList).2.2.1 "B".toList (by decide)).1,
    (clearRegion_clearAll_frame (recordObjectEntry (recordObjectEntry fresh
      "A".toList 5 []).2 "B".toList 6 []).2 "C".toList).2.2.2.1 (by decide)⟩

end RegionCountManager

/-! ## ClassFilterManager: the filter -/

namespace ClassFilterManager

theorem isEmpty_iff_eq_empty (S : StdSet Int) : StdSet.isEmpty S = true ↔ S = StdSet.empty := by
  constructor
  · intro h
    apply StdMap.ext_entries
    simpa [StdSet.isEmpty, List.isEmpty_iff] using h
  · intro h
    subst h
    rfl

/-- C9: after `setSelectedClasses S`, `shouldCountClass classId` is true exactly when `S` is
empty or `classId` is an element of `S`; with an empty selection it is true for every class
id. -/
theorem shouldCountClass_setSelectedClasses (m : ClassFilterManager) (S : StdSet Int)
    (classId : Int) :
    (shouldCountClass (setSelectedClasses m S) classId = true ↔
      (S = StdSet.empty ∨ StdSet.contains S classId = true)) ∧
    (∀ x, shouldCountClass (setSelectedClasses m StdSet.empty) x = true) := by
  refine ⟨?_, fun x => rfl⟩
  unfold shouldCountClass setSelectedClasses
  by_cases h : StdSet.isEmpty S = true
  · have he := (isEmpty_iff_eq_empty S).1 h
    subst he
    simp [h]
  · have hne : S ≠ StdSet.empty := fun he => h ((isEmpty_iff_eq_empty S).2 he)
    simp [h, hne]

end ClassFilterManager

/-! ## CameraWidget: the event capture of one track -/

namespace CameraWidget

/-- The members that stay fixed while the tracks of one frame are processed. -/
def frameCtx (w : World) : Int × Int × Int × List Region × Int :=
  (w.widget.currentFrameNumber_, w.widget.currentFrameCols, w.widget.currentFrameRows,
    w.widget.regions_, w.eventManager.periodicCaptureInterval_)

/-- The step from `w` to `w'` keeps the frame context and appends events to the log, of which
those of track `t` have the kinds and frame numbers `out`. -/
def Emits (t : Nat) (w w' : World) (out : List (EventType × Int)) : Prop :=
  frameCtx w' = frameCtx w ∧
  ∃ new, w'.eventManager.events_ = w.eventManager.events_ ++ new ∧ eventsOfTrack t new = out

theorem eventsOfTrack_append (t : Nat) (l₁ l₂ : List DetectionEvent) :
    eventsOfTrack t (l₁ ++ l₂) = eventsOfTrack t l₁ ++ eventsOfTrack t l₂ := by
  simp [eventsOfTrack]

theorem Emits.refl (t : Nat) (w : World) : Emits t w w [] :=
  ⟨rfl, [], by simp, rfl⟩

theorem Emits.trans {t : Nat} {w₁ w₂ w₃ : World} {o₁ o₂ : List (EventType × Int)}
    (h₁ : Emits t w₁ w₂ o₁) (h₂ : Emits t w₂ w₃ o₂) : Emits t w₁ w₃ (o₁ ++ o₂) := by
  obtain ⟨c₁, n₁, e₁, f₁⟩ := h₁
  obtain ⟨c₂, n₂, e₂, f₂⟩ := h₂
  refine ⟨c₂.trans c₁, n₁ ++ n₂, ?_, ?_⟩
  · rw [e₂, e₁, List.append_assoc]
  · rw [eventsOfTrack_append, f₁, f₂]

theorem saveEventImage_eq_nil_iff (m : EventManager) (cam R : StdString) (tid : Nat)
    (ty : EventType) (env : CaptureEnv) :
    m.saveEventImage false cam R tid ty env = [] ↔ env.saveThrows = true := by
  have hs : "/".toList = ['/'] := rfl
  unfold EventManager.saveEventImage
  cases h : env.saveThrows <;> simp [hs]

theorem notifyTelegram_frameCtx (w : World) (R : StdString) (box : Rect) (ty : EventType)
    (env : CaptureEnv) : frameCtx (notifyTelegram w R box ty env) = frameCtx w := by
  unfold notifyTelegram
  dsimp only
  split_ifs <;> rfl

theorem notifyTelegram_events (w : World) (R : StdString) (box : Rect) (ty : EventType)
    (env : CaptureEnv) :
    (notifyTelegram w R box ty env).eventManager = w.eventManager := by
  unfold notifyTelegram
  dsimp only
  split_ifs <;> rfl

theorem notifyTelegram_states (w : World) (R : StdString) (box : Rect) (ty : EventType)
    (env : CaptureEnv) :
    (notifyTelegram w R box ty env).widget.trackRegionStates_ = w.widget.trackRegionStates_ := by
  unfold notifyTelegram
  dsimp only
  split_ifs <;> rfl

/-- What any returning `captureEvent` does to the frame context, the track states and the
log: at most one event is appended, of the given track, kind and current frame. -/
theorem captureEvent_effect {w w' : World} {tid : Nat} {R : StdString} {box : Rect}
    {ty : EventType} {env : CaptureEnv} (h : captureEvent w tid R box ty env = some w') :
    frameCtx w' = frameCtx w ∧
    w'.widget.trackRegionStates_ = w.widget.trackRegionStates_ ∧
    ∃ new, w'.eventManager.events_ = w.eventManager.events_ ++ new ∧
      ∀ e ∈ new, e.trackId = tid ∧ e.eventType = ty ∧
        e.frameNumber = w.widget.currentFrameNumber_ := by
  unfold captureEvent at h
  dsimp only at h
  split at h
  · simp at h
  · cases h
    exact ⟨rfl, rfl, [], by simp, by simp⟩
  · split_ifs at h with hp
    · cases h
      exact ⟨rfl, rfl, [], by simp, by simp⟩
    · cases h
      refine ⟨?_, ?_, ?_⟩
      · rw [notifyTelegram_frameCtx]; rfl
      · rw [notifyTelegram_states]
      · rw [notifyTelegram_events]
        exact ⟨[_], rfl, by simp⟩

/-- When the crop gives an image and the image is saved, `captureEvent` returns and appends
exactly one event, of the given track, kind and current frame. -/
theorem captureEvent_success (w : World) (tid : Nat) (R : StdString) {box : Rect}
    (ty : EventType) {env : CaptureEnv}
    (hc : (crop w.widget.currentFrameCols w.widget.currentFrameRows box).isImage = true)
    (hs : env.saveThrows = false) :
    ∃ w' e, captureEvent w tid R box ty env = some w' ∧
      frameCtx w' = frameCtx w ∧
      w'.widget.trackRegionStates_ = w.widget.trackRegionStates_ ∧
      w'.eventManager.events_ = w.eventManager.events_ ++ [e] ∧
      e.trackId = tid ∧ e.eventType = ty ∧ e.frameNumber = w.widget.currentFrameNumber_ := by
  have hp : ¬ (w.eventManager.saveEventImage false w.widget.cameraName R tid ty env = []) := by
    rw [saveEventImage_eq_nil_iff, hs]; simp
  unfold captureEvent
  dsimp only
  cases hcr : crop w.widget.currentFrameCols w.widget.currentFrameRows box with
  | throws => simp [hcr, CropResult.isImage] at hc
  | empty => simp [hcr, CropResult.isImage] at hc
  | image roi =>
    simp only [if_neg hp]
    refine ⟨_, ?e, rfl, ?_, ?_, ?_, ?_⟩
    case e =>
      exact
        { trackId := tid, cameraId := w.widget.cameraId, cameraName := w.widget.cameraName
          regionName := R
          objectClass :=
            match w.widget.trackClassMap_.find tid with
            | some class_id => w.widget.inference_ class_id
            | none => "unknown".toList
          confidence :=
            match w.widget.trackClassMap_.find tid with
            | some _ => float_0_85
            | none => 0
          eventType := ty, timestamp := env.currentDateTime, bbox := box
          imagePath := w.eventManager.saveEventImage false w.widget.cameraName R tid ty env
          frameNumber := w.widget.currentFrameNumber_ }
    · rw [notifyTelegram_frameCtx]; rfl
    · rw [notifyTelegram_states]
    · rw [notifyTelegram_events]; rfl
    · exact ⟨rfl, rfl, rfl⟩

theorem captureEvent_isSome {w : World} (tid : Nat) (R : StdString) {box : Rect}
    (ty : EventType) (env : CaptureEnv)
    (hc : crop w.widget.currentFrameCols w.widget.currentFrameRows box ≠ .throws) :
    (captureEvent w tid R box ty env).isSome = true := by
  unfold captureEvent
  dsimp only
  cases hcr : crop w.widget.currentFrameCols w.widget.currentFrameRows box with
  | throws => exact absurd hcr hc
  | empty => rfl
  | image roi =>
    dsimp only
    split_ifs <;> rfl

theorem eventsOfTrack_eq_nil {t t' : Nat} {new : List DetectionEvent}
    (h : ∀ e ∈ new, e.trackId = t') (hne : t' ≠ t) : eventsOfTrack t new = [] := by
  simp only [eventsOfTrack, List.map_eq_nil_iff, List.filter_eq_nil_iff, decide_eq_true_eq]
  intro e he
  rw [h e he]
  exact hne

/-- Processing another track leaves the state and the events of track `t` alone. -/
theorem processTrack_other {ppt : PointPolygonTest} {w w' : World} {ti : TrackInput} {t : Nat}
    (hne : ti.trackId ≠ t) (h : processTrack ppt w ti = some w') :
    Emits t w w' [] ∧
    w'.widget.trackRegionStates_.find t = w.widget.trackRegionStates_.find t := by
  unfold processTrack at h
  dsimp only at h
  split_ifs at h with h1 h2 h3
  · obtain ⟨w1, hw1, rfl⟩ := Option.map_eq_some'.1 h
    obtain ⟨hctx, hst, new, hev, hnew⟩ := captureEvent_effect hw1
    refine ⟨⟨hctx, new, hev, eventsOfTrack_eq_nil (fun e he => (hnew e he).1) hne⟩, ?_⟩
    simp only [hst]
    rw [StdMap.find_insert_of_ne _ (Ne.symm hne), StdMap.find_insert_of_ne _ (Ne.symm hne)]
  · obtain ⟨w1, hw1, rfl⟩ := Option.map_eq_some'.1 h
    obtain ⟨hctx, hst, new, hev, hnew⟩ := captureEvent_effect hw1
    refine ⟨⟨hctx, new, hev, eventsOfTrack_eq_nil (fun e he => (hnew e he).1) hne⟩, ?_⟩
    simp only [hst]
    rw [StdMap.find_insert_of_ne _ (Ne.symm hne), StdMap.find_insert_of_ne _ (Ne.symm hne)]
  · cases h
    exact ⟨Emits.refl t _, StdMap.find_insert_of_ne _ (Ne.symm hne) _⟩
  · split at h
    · split_ifs at h with h4
      · obtain ⟨w1, hw1, rfl⟩ := Option.map_eq_some'.1 h
        obtain ⟨hctx, hst, new, hev, hnew⟩ := captureEvent_effect hw1
        refine ⟨⟨hctx, new, hev, eventsOfTrack_eq_nil (fun e he => (hnew e he).1) hne⟩, ?_⟩
        simp only [hst]
        rw [StdMap.find_erase_of_ne _ (Ne.symm hne)]
      · cases h
        exact ⟨Emits.refl t _, rfl⟩
    · cases h
      exact ⟨Emits.refl t _, rfl⟩

/-- Processing a track returns unless its crop throws. -/
theorem processTrack_isSome (ppt : PointPolygonTest) (w : World) {ti : TrackInput}
    (hc : crop w.widget.currentFrameCols w.widget.currentFrameRows ti.box ≠ .throws) :
    (processTrack ppt w ti).isSome = true := by
  unfold processTrack
  dsimp only
  split_ifs with h1 h2 h3
  · rw [Option.isSome_map']
    exact captureEvent_isSome _ _ _ _ hc
  · rw [Option.isSome_map']
    exact captureEvent_isSome _ _ _ _ hc
  · rfl
  · split
    · split_ifs
      · rw [Option.isSome_map']
        exact captureEvent_isSome _ _ _ _ hc
      · rfl
    · rfl

/-- What the event capture does for a track inside a region: the state it leaves and the
events it logs, given the frame number, the periodic interval and the state it finds. -/
def nextState (cur p : Int) (R : StdString) :
    Option TrackRegionState → TrackRegionState × List (EventType × Int)
  | none =>
    ({ inRegion := true, regionName := R, lastCaptureFrame := cur, entryFrame := cur },
      [(.FIRST_ENTRY, cur)])
  | some s =>
    if s.inRegion = false then
      ({ inRegion := true, regionName := R, lastCaptureFrame := cur, entryFrame := cur },
        [(.FIRST_ENTRY, cur)])
    else if cur - s.lastCaptureFrame ≥ p then
      ({ s with lastCaptureFrame := cur }, [(.PERIODIC, cur)])
    else (s, [])

theorem eventsOfTrack_singleton {e : DetectionEvent} {t : Nat} (h : e.trackId = t) :
    eventsOfTrack t [e] = [(e.eventType, e.frameNumber)] := by
  simp [eventsOfTrack, h]

/-- Processing a track whose box is inside the region named `R`, with the crop and the save
succeeding, returns and follows `nextState`. -/
theorem processTrack_inside {ppt : PointPolygonTest} {w : World} {ti : TrackInput}
    {R : StdString} (hR : findRegionName ppt w.widget.regions_ ti.box = R) (hne : R ≠ [])
    (hc : (crop w.widget.currentFrameCols w.widget.currentFrameRows ti.box).isImage = true)
    (hs : ti.env.saveThrows = false) :
    ∃ w', processTrack ppt w ti = some w' ∧
      Emits ti.trackId w w' (nextState w.widget.currentFrameNumber_
        w.eventManager.periodicCaptureInterval_ R
        (w.widget.trackRegionStates_.find ti.trackId)).2 ∧
      w'.widget.trackRegionStates_.find ti.trackId = some (nextState
        w.widget.currentFrameNumber_ w.eventManager.periodicCaptureInterval_ R
        (w.widget.trackRegionStates_.find ti.trackId)).1 := by
  unfold processTrack
  dsimp only
  rw [hR, if_pos hne]
  split_ifs with h2 h3
  · obtain ⟨w1, e, hw1, hctx, hst, hev, he1, he2, he3⟩ :=
      captureEvent_success { w with widget := { w.widget with
        regionUniqueObjectIds_ := w.widget.regionUniqueObjectIds_.insert R
          (StdSet.insert ((w.widget.regionUniqueObjectIds_.find R).getD StdSet.empty)
            ti.trackId).1
        trackRegionStates_ := w.widget.trackRegionStates_.insert ti.trackId
          ((w.widget.trackRegionStates_.find ti.trackId).getD TrackRegionState.default) } }
        ti.trackId R .FIRST_ENTRY hc hs
    have hcur : w1.widget.currentFrameNumber_ = w.widget.currentFrameNumber_ :=
      congrArg Prod.fst hctx
    have hns : nextState w.widget.currentFrameNumber_ w.eventManager.periodicCaptureInterval_ R
        (w.widget.trackRegionStates_.find ti.trackId)
        = ({ inRegion := true, regionName := R
             lastCaptureFrame := w.widget.currentFrameNumber_
             entryFrame := w.widget.currentFrameNumber_ },
            [(.FIRST_ENTRY, w.widget.currentFrameNumber_)]) := by
      cases hf : w.widget.trackRegionStates_.find ti.trackId with
      | none => rfl
      | some s =>
        rw [hf] at h2
        simp only [Option.getD_some] at h2
        simp only [nextState, if_pos h2]
    rw [hw1, hns]
    refine ⟨_, rfl, ⟨hctx, [e], hev, ?_⟩, ?_⟩
    · rw [eventsOfTrack_singleton he1, he2, he3]
    · simp only [StdMap.find_insert_self, hcur]
  · obtain ⟨w1, e, hw1, hctx, hst, hev, he1, he2, he3⟩ :=
      captureEvent_success { w with widget := { w.widget with
        regionUniqueObjectIds_ := w.widget.regionUniqueObjectIds_.insert R
          (StdSet.insert ((w.widget.regionUniqueObjectIds_.find R).getD StdSet.empty)
            ti.trackId).1
        trackRegionStates_ := w.widget.trackRegionStates_.insert ti.trackId
          ((w.widget.trackRegionStates_.find ti.trackId).getD TrackRegionState.default) } }
        ti.trackId R .PERIODIC hc hs
    have hcur : w1.widget.currentFrameNumber_ = w.widget.currentFrameNumber_ :=
      congrArg Prod.fst hctx
    rw [hw1]
    cases hf : w.widget.trackRegionStates_.find ti.trackId with
    | none => simp [hf, TrackRegionState.default] at h2
    | some s =>
      rw [hf] at h2 h3
      simp only [Option.getD_some] at h2 h3
      have h3' : w.widget.currentFrameNumber_ - s.lastCaptureFrame
          ≥ w.eventManager.periodicCaptureInterval_ := h3
      simp only [nextState, if_neg h2, if_pos h3', hf, Option.getD_some]
      refine ⟨_, rfl, ⟨hctx, [e], hev, ?_⟩, ?_⟩
      · rw [eventsOfTrack_singleton he1, he2, he3]
      · simp only [StdMap.find_insert_self, hcur]
  · cases hf : w.widget.trackRegionStates_.find ti.trackId with
    | none => simp [hf, TrackRegionState.default] at h2
    | some s =>
      rw [hf] at h2 h3
      simp only [Option.getD_some] at h2 h3
      have h3' : ¬ (w.widget.currentFrameNumber_ - s.lastCaptureFrame
          ≥ w.eventManager.periodicCaptureInterval_) := h3
      simp only [nextState, if_neg h2, if_neg h3', Option.getD_some]
      exact ⟨_, rfl, ⟨rfl, [], by simp, rfl⟩, StdMap.find_insert_self _ _ _⟩

end CameraWidget

/-! ## CameraWidget: a track that stays inside a region -/

namespace CameraWidget

theorem nextState_quiet (cur p : Int) (hp : 1 ≤ p) (R : StdString)
    (S : Option TrackRegionState) :
    (nextState cur p R S).1.inRegion = true ∧
    cur - (nextState cur p R S).1.lastCaptureFrame < p := by
  cases S with
  | none =>
    refine ⟨rfl, ?_⟩
    show cur - cur < p
    omega
  | some s =>
    unfold nextState
    dsimp only
    split_ifs with h1 h2
    · refine ⟨rfl, ?_⟩
      show cur - cur < p
      omega
    · refine ⟨?_, ?_⟩
      · show s.inRegion = true
        cases hs : s.inRegion
        · exact absurd hs h1
        · rfl
      · show cur - cur < p
        omega
    · refine ⟨?_, ?_⟩
      · show s.inRegion = true
        cases hs : s.inRegion
        · exact absurd hs h1
        · rfl
      · show cur - s.lastCaptureFrame < p
        omega

theorem nextState_of_quiet {cur p : Int} {R : StdString} {s : TrackRegionState}
    (h1 : s.inRegion = true) (h2 : cur - s.lastCaptureFrame < p) :
    nextState cur p R (some s) = (s, []) := by
  have h3 : ¬ (cur - s.lastCaptureFrame ≥ p) := by omega
  simp only [nextState, h1, if_neg h3]
  simp

/-- The conditions under which the tracks of one frame are processed with track `t` inside
the region named `R`, stated on the frame context. -/
def GoodTracks (ppt : PointPolygonTest) (w : World) (t : Nat) (R : StdString)
    (tracks : List TrackInput) : Prop :=
  (∀ ti ∈ tracks, crop w.widget.currentFrameCols w.widget.currentFrameRows ti.box ≠ .throws) ∧
  (∀ ti ∈ tracks, ti.trackId = t →
    findRegionName ppt w.widget.regions_ ti.box = R ∧
    (crop w.widget.currentFrameCols w.widget.currentFrameRows ti.box).isImage = true ∧
    ti.env.saveThrows = false)

theorem GoodTracks.tail {ppt : PointPolygonTest} {w w' : World} {t : Nat} {R : StdString}
    {ti : TrackInput} {tl : List TrackInput} (h : GoodTracks ppt w t R (ti :: tl))
    (hctx : frameCtx w' = frameCtx w) : GoodTracks ppt w' t R tl := by
  simp only [frameCtx, Prod.mk.injEq] at hctx
  obtain ⟨_, h2, h3, h4, _⟩ := hctx
  unfold GoodTracks
  rw [h2, h3, h4]
  exact ⟨fun x hx => h.1 x (List.mem_cons_of_mem _ hx),
    fun x hx => h.2 x (List.mem_cons_of_mem _ hx)⟩

/-- Once track `t` is marked inside and no periodic capture is due, the rest of the frame
logs nothing for it and keeps its state. -/
theorem foldlM_processTrack_quiet {ppt : PointPolygonTest} {t : Nat} {R : StdString}
    (hR : R ≠ []) (tracks : List TrackInput) :
    ∀ (w : World) (s : TrackRegionState), GoodTracks ppt w t R tracks →
      w.widget.trackRegionStates_.find t = some s → s.inRegion = true →
      w.widget.currentFrameNumber_ - s.lastCaptureFrame
        < w.eventManager.periodicCaptureInterval_ →
      ∃ w', tracks.foldlM (processTrack ppt) w = some w' ∧ Emits t w w' [] ∧
        w'.widget.trackRegionStates_.find t = some s := by
  induction tracks with
  | nil => intro w s _ hf _ _; exact ⟨w, rfl, Emits.refl t w, hf⟩
  | cons ti tl ih =>
    intro w s hg hf hin hq
    have step : ∃ w1, processTrack ppt w ti = some w1 ∧ Emits t w w1 [] ∧
        w1.widget.trackRegionStates_.find t = some s := by
      by_cases hti : ti.trackId = t
      · obtain ⟨h1, h2, h3⟩ := hg.2 ti (List.mem_cons_self _ _) hti
        obtain ⟨w1, hw1, hem, hst⟩ := processTrack_inside h1 hR h2 h3
        rw [hti, hf, nextState_of_quiet hin hq] at hem hst
        exact ⟨w1, hw1, hem, hst⟩
      · obtain ⟨w1, hw1⟩ := Option.isSome_iff_exists.1
          (processTrack_isSome ppt w (hg.1 ti (List.mem_cons_self _ _)))
        obtain ⟨hem, hst⟩ := processTrack_other hti hw1
        exact ⟨w1, hw1, hem, hst.trans hf⟩
    obtain ⟨w1, hw1, hem, hst⟩ := step
    have hctx := hem.1
    have hq1 : w1.widget.currentFrameNumber_ - s.lastCaptureFrame
        < w1.eventManager.periodicCaptureInterval_ := by
      simp only [frameCtx, Prod.mk.injEq] at hctx
      rw [hctx.1, hctx.2.2.2.2]; exact hq
    obtain ⟨w', hw', hem', hst'⟩ := ih w1 s (hg.tail hctx) hst hin hq1
    refine ⟨w', ?_, by simpa using hem.trans hem', hst'⟩
    rw [List.foldlM_cons, hw1]
    exact hw'

/-- In a frame that reports track `t` inside the region named `R`, the state and the events of
the track follow `nextState`, once. -/
theorem foldlM_processTrack_inside (ppt : PointPolygonTest) (t : Nat) {R : StdString}
    (hR : R ≠ []) (tracks : List TrackInput) :
    ∀ (w : World), GoodTracks ppt w t R tracks →
      1 ≤ w.eventManager.periodicCaptureInterval_ →
      (∃ ti ∈ tracks, ti.trackId = t) →
      ∃ w', tracks.foldlM (processTrack ppt) w = some w' ∧
        Emits t w w' (nextState w.widget.currentFrameNumber_
          w.eventManager.periodicCaptureInterval_ R
          (w.widget.trackRegionStates_.find t)).2 ∧
        w'.widget.trackRegionStates_.find t = some (nextState w.widget.currentFrameNumber_
          w.eventManager.periodicCaptureInterval_ R
          (w.widget.trackRegionStates_.find t)).1 := by
  induction tracks with
  | nil => intro w _ _ hex; obtain ⟨ti, hti, _⟩ := hex; simp at hti
  | cons ti tl ih =>
    intro w hg hp hex
    by_cases hti : ti.trackId = t
    · obtain ⟨h1, h2, h3⟩ := hg.2 ti (List.mem_cons_self _ _) hti
      obtain ⟨w1, hw1, hem, hst⟩ := processTrack_inside h1 hR h2 h3
      rw [hti] at hem hst
      have hctx := hem.1
      obtain ⟨hq1, hq2⟩ := nextState_quiet w.widget.currentFrameNumber_
        w.eventManager.periodicCaptureInterval_ hp R (w.widget.trackRegionStates_.find t)
      have hq2' : w1.widget.currentFrameNumber_ - (nextState w.widget.currentFrameNumber_
          w.eventManager.periodicCaptureInterval_ R
          (w.widget.trackRegionStates_.find t)).1.lastCaptureFrame
            < w1.eventManager.periodicCaptureInterval_ := by
        simp only [frameCtx, Prod.mk.injEq] at hctx
        rw [hctx.1, hctx.2.2.2.2]; exact hq2
      obtain ⟨w', hw', hem', hst'⟩ :=
        foldlM_processTrack_quiet hR tl w1 _ (hg.tail hctx) hst hq1 hq2'
      refine ⟨w', ?_, by simpa using hem.trans hem', hst'⟩
      rw [List.foldlM_cons, hw1]
      exact hw'
    · obtain ⟨w1, hw1⟩ := Option.isSome_iff_exists.1
        (processTrack_isSome ppt w (hg.1 ti (List.mem_cons_self _ _)))
      obtain ⟨hem, hst⟩ := processTrack_other hti hw1
      have hctx := hem.1
      have hex' : ∃ x ∈ tl, x.trackId = t := by
        obtain ⟨x, hx, hxt⟩ := hex
        rcases List.mem_cons.1 hx with hx | hx
        · subst hx; exact absurd hxt hti
        · exact ⟨x, hx, hxt⟩
      have hctx' := hctx
      simp only [frameCtx, Prod.mk.injEq] at hctx'
      have hp1 : 1 ≤ w1.eventManager.periodicCaptureInterval_ := by
        rw [hctx'.2.2.2.2]; exact hp
      obtain ⟨w', hw', hem', hst'⟩ := ih w1 (hg.tail hctx) hp1 hex'
      rw [hctx'.1, hctx'.2.2.2.2, hst] at hem' hst'
      refine ⟨w', ?_, by simpa using hem.trans hem', hst'⟩
      rw [List.foldlM_cons, hw1]
      exact hw'

/-- One `updateFrame` on a frame in which track `t` stays inside the region named `R`. -/
theorem updateFrame_inside {ppt : PointPolygonTest} {w : World} {t : Nat} {R : StdString}
    {f : FrameInput} (hR : R ≠ []) (hp : 1 ≤ w.eventManager.periodicCaptureInterval_)
    (hin : StaysInside ppt w.widget.regions_ t R f) :
    ∃ w' new, updateFrame ppt w f = some w' ∧
      w'.widget.currentFrameNumber_ = w.widget.currentFrameNumber_ + 1 ∧
      w'.widget.regions_ = w.widget.regions_ ∧
      w'.eventManager.periodicCaptureInterval_ = w.eventManager.periodicCaptureInterval_ ∧
      w'.eventManager.events_ = w.eventManager.events_ ++ new ∧
      eventsOfTrack t new = (nextState (w.widget.currentFrameNumber_ + 1)
        w.eventManager.periodicCaptureInterval_ R (w.widget.trackRegionStates_.find t)).2 ∧
      w'.widget.trackRegionStates_.find t = some (nextState (w.widget.currentFrameNumber_ + 1)
        w.eventManager.periodicCaptureInterval_ R (w.widget.trackRegionStates_.find t)).1 := by
  obtain ⟨⟨h1, h2, h3⟩, hthrow, hex, hgood⟩ := hin
  have hcond : ¬ (f.readOk = false ∨ f.cols = 0 ∨ f.rows = 0) := by
    simp [h1, h2, h3]
  unfold updateFrame
  rw [if_neg hcond]
  dsimp only
  obtain ⟨w', hw', ⟨hctx, new, hev, hout⟩, hst⟩ :=
    foldlM_processTrack_inside ppt t hR f.tracks
      { w with widget := { w.widget with
          currentFrameCols := f.cols, currentFrameRows := f.rows
          currentFrameNumber_ := w.widget.currentFrameNumber_ + 1
          trackClassMap_ := f.trackClassMap } }
      ⟨hthrow, hgood⟩ hp hex
  simp only [frameCtx, Prod.mk.injEq] at hctx
  exact ⟨w', new, hw', hctx.1, hctx.2.2.2.1, hctx.2.2.2.2, hev, hout, hst⟩

end CameraWidget

namespace CameraWidget

theorem runFrames_cons (ppt : PointPolygonTest) (w : World) (f : FrameInput)
    (fs : List FrameInput) :
    runFrames ppt w (f :: fs) = (updateFrame ppt w f).bind fun w1 => runFrames ppt w1 fs := by
  unfold runFrames
  rw [List.foldlM_cons]
  rfl

/-- A track already marked inside, `d` frames after its last capture with `d` below the
interval `p`, logs exactly one PERIODIC event every `p` frames while it stays inside. -/
theorem runFrames_stay {ppt : PointPolygonTest} {t : Nat} {R : StdString} {p : Nat}
    (hR : R ≠ []) (frames : List FrameInput) :
    ∀ (w : World) (d : Nat) (s : TrackRegionState),
      w.eventManager.periodicCaptureInterval_ = p → d < p →
      w.widget.trackRegionStates_.find t = some s → s.inRegion = true →
      s.lastCaptureFrame = w.widget.currentFrameNumber_ - d →
      (∀ f ∈ frames, StaysInside ppt w.widget.regions_ t R f) →
      ∃ w' new, runFrames ppt w frames = some w' ∧
        w'.eventManager.events_ = w.eventManager.events_ ++ new ∧
        eventsOfTrack t new = (List.range ((frames.length + d) / p)).map fun (k : Nat) =>
          (EventType.PERIODIC, w.widget.currentFrameNumber_ + ((k : Int) + 1) * p - d) := by
  induction frames with
  | nil =>
    intro w d s _ hd _ _ _ _
    refine ⟨w, [], rfl, by simp, ?_⟩
    have h0 : (([] : List FrameInput).length + d) / p = 0 := by
      simpa using Nat.div_eq_of_lt hd
    rw [h0]
    rfl
  | cons f fs ih =>
    intro w d s hint hd hf hin hlast hall
    have hp : 1 ≤ w.eventManager.periodicCaptureInterval_ := by
      rw [hint]; exact_mod_cast (by omega : 1 ≤ p)
    obtain ⟨w1, new1, hw1, hcur, hreg, hint1, hev1, hout1, hst1⟩ :=
      updateFrame_inside hR hp (hall f (List.mem_cons_self _ _))
    have hall1 : ∀ g ∈ fs, StaysInside ppt w1.widget.regions_ t R g := by
      intro g hg
      rw [hreg]
      exact hall g (List.mem_cons_of_mem _ hg)
    rw [hf] at hout1 hst1
    rw [runFrames_cons, hw1]
    by_cases hdue : d + 1 = p
    · have hge : w.widget.currentFrameNumber_ + 1 - s.lastCaptureFrame
          ≥ w.eventManager.periodicCaptureInterval_ := by
        rw [hlast, hint]
        have : (p : Int) = d + 1 := by exact_mod_cast hdue.symm
        omega
      have hns : nextState (w.widget.currentFrameNumber_ + 1)
          w.eventManager.periodicCaptureInterval_ R (some s)
            = ({ s with lastCaptureFrame := w.widget.currentFrameNumber_ + 1 },
                [(EventType.PERIODIC, w.widget.currentFrameNumber_ + 1)]) := by
        simp only [nextState, hin, if_pos hge]
        simp
      rw [hns] at hout1 hst1
      obtain ⟨w', new2, hw', hev2, hout2⟩ := ih w1 0 _ (hint1.trans hint) (by omega) hst1 hin
        (by simp only [hcur]; simp) hall1
      refine ⟨w', new1 ++ new2, hw', ?_, ?_⟩
      · rw [hev2, hev1, List.append_assoc]
      · rw [eventsOfTrack_append, hout1, hout2, hcur]
        have hq : ((f :: fs).length + d) / p = (fs.length + 0) / p + 1 := by
          have : (f :: fs).length + d = fs.length + p := by
            simp only [List.length_cons]; omega
          rw [this, Nat.add_div_right _ (by omega : 0 < p)]; rfl
        rw [hq, List.range_succ_eq_map, List.map_cons, List.map_map]
        have hpd : (p : Int) = d + 1 := by exact_mod_cast hdue.symm
        simp only [List.singleton_append, List.cons.injEq, Prod.mk.injEq, true_and]
        refine ⟨by push_cast; omega, ?_⟩
        apply List.map_congr_left
        intro k _
        simp only [Function.comp, Prod.mk.injEq, true_and]
        push_cast
        rw [hpd]
        ring
    · have hlt : ¬ (w.widget.currentFrameNumber_ + 1 - s.lastCaptureFrame
          ≥ w.eventManager.periodicCaptureInterval_) := by
        rw [hlast, hint]
        have : (d : Int) + 1 < p := by exact_mod_cast (by omega : d + 1 < p)
        omega
      have hns : nextState (w.widget.currentFrameNumber_ + 1)
          w.eventManager.periodicCaptureInterval_ R (some s) = (s, []) := by
        simp only [nextState, hin, if_neg hlt]
        simp
      rw [hns] at hout1 hst1
      obtain ⟨w', new2, hw', hev2, hout2⟩ := ih w1 (d + 1) s (hint1.trans hint) (by omega)
        hst1 hin (by rw [hcur, hlast]; push_cast; ring) hall1
      refine ⟨w', new1 ++ new2, hw', ?_, ?_⟩
      · rw [hev2, hev1, List.append_assoc]
      · rw [eventsOfTrack_append, hout1, hout2, hcur]
        have hq : (f :: fs).length + d = fs.length + (d + 1) := by
          simp only [List.length_cons]; omega
        rw [hq, List.nil_append]
        apply List.map_congr_left
        intro k _
        simp only [Prod.mk.injEq, true_and]
        push_cast
        ring

end CameraWidget

/-! ## Region lookup and the centre test -/

namespace CameraWidget

/-- C14: the region name assigned to a track box is the name of the first region of the list
whose `containsRect` holds for the box, and empty when no region contains the box; regions
after the first containing one play no role. -/
theorem findRegionName_first_match (ppt : PointPolygonTest) (regions : List Region)
    (box : Rect) :
    findRegionName ppt regions box
      = (match regions.find? (fun r => r.containsRect ppt box) with
        | some r => r.name_
        | none => []) ∧
    ((∀ r ∈ regions, r.containsRect ppt box = false) → findRegionName ppt regions box = []) ∧
    (∀ (before : List Region) (r : Region) (after : List Region),
      regions = before ++ r :: after →
      (∀ q ∈ before, q.containsRect ppt box = false) → r.containsRect ppt box = true →
      findRegionName ppt regions box = r.name_) := by
  have key : ∀ l : List Region, findRegionName ppt l box
      = (match l.find? (fun r => r.containsRect ppt box) with
        | some r => r.name_
        | none => []) := by
    intro l
    induction l with
    | nil => rfl
    | cons hd tl ih =>
      by_cases h : hd.containsRect ppt box = true
      · simp [findRegionName, List.find?, h]
      · have h' : hd.containsRect ppt box = false := by simpa using h
        simp only [findRegionName, h', List.find?]
        exact ih
  refine ⟨key regions, ?_, ?_⟩
  · intro hnone
    rw [key]
    have hf : regions.find? (fun r => r.containsRect ppt box) = none := by
      rw [List.find?_eq_none]
      intro r hr
      simp [hnone r hr]
    rw [hf]
  · intro before r after hsplit hbefore hr
    subst hsplit
    clear key
    induction before with
    | nil => simp [findRegionName, hr]
    | cons hd tl ih =>
      have hhd := hbefore hd (List.mem_cons_self _ _)
      simp only [List.cons_append, findRegionName, hhd]
      exact ih fun q hq => hbefore q (List.mem_cons_of_mem _ hq)

end CameraWidget

namespace Region

/-- C20: `containsRect` of a rectangle `(x, y, w, h)` is `containsPoint` of the single point
`(x + w / 2, y + h / 2)` as the `int` arithmetic computes it, the divisions truncating; when
the two sums are values of `int`, as for every box in an image, that is the point with the
exact coordinates `x + w / 2` and `y + h / 2`; two rectangles with the same such centre get
the same answer, whatever their other points are. -/
theorem containsRect_eq_containsPoint_centre (ppt : PointPolygonTest) (r : Region)
    (rect : Rect) :
    containsRect ppt r rect = containsPoint ppt r
      { x := toInt32 (rect.x + Int.tdiv rect.width 2)
        y := toInt32 (rect.y + Int.tdiv rect.height 2) } ∧
    (InInt32 (rect.x + Int.tdiv rect.width 2) → InInt32 (rect.y + Int.tdiv rect.height 2) →
      containsRect ppt r rect = containsPoint ppt r
        { x := rect.x + Int.tdiv rect.width 2, y := rect.y + Int.tdiv rect.height 2 }) ∧
    (∀ other : Rect,
      other.x + Int.tdiv other.width 2 = rect.x + Int.tdiv rect.width 2 →
      other.y + Int.tdiv other.height 2 = rect.y + Int.tdiv rect.height 2 →
      containsRect ppt r other = containsRect ppt r rect) := by
  refine ⟨rfl, ?_, ?_⟩
  · intro hx hy
    unfold containsRect
    rw [toInt32_of_inInt32 hx, toInt32_of_inInt32 hy]
  · intro other hx hy
    unfold containsRect
    rw [hx, hy]

/-- Where the sum of the centre overflows, the wrapped point is tested: under the test of the
scene, which takes every point left of x = 100 as inside, the rectangle
`(2147483647, 40, 2, 20)` far to the right of the region "Door" is found inside it, its
centre being computed as x = -2147483648. -/
theorem containsRect_centre_wraps :
    toInt32 (2147483647 + Int.tdiv 2 2) = -2147483648 ∧
    containsRect CameraWidget.sceneTest CameraWidget.sceneRegion ⟨2147483647, 40, 2, 20⟩
      = true := by
  decide

end Region

/-! ## The crop rectangle and the Telegram throttle -/

namespace CameraWidget

/-- C16 fails as stated: in a 640 x 480 frame the box `(-5, 10, 40, 40)` is skipped at the crop
although the box expanded by 15 px and cut to the frame has pixels, and the box
`(0, 100, 40, 40)` is cropped to `(0, 85, 70, 70)`, which is not that rectangle. -/
theorem crop_ne_expandedInFrame :
    ¬ (∀ (cols rows : Int) (bbox : Rect), 0 < cols → 0 < rows →
        (∀ roi, crop cols rows bbox = .image roi → roi = expandedInFrame cols rows bbox) ∧
        (crop cols rows bbox = .empty → rectEmpty (expandedInFrame cols rows bbox) = true)) := by
  intro h
  have h1 := (h 640 480 ⟨-5, 10, 40, 40⟩ (by decide) (by decide)).2 (by decide)
  revert h1
  decide

theorem cropGuard_iff (cols rows : Int) (bbox : Rect) :
    cropGuard cols rows bbox = true ↔
      (¬ (cols = 0 ∨ rows = 0) ∧ bbox.x ≥ 0 ∧ bbox.y ≥ 0 ∧
        toInt32 (bbox.x + bbox.width) ≤ cols ∧ toInt32 (bbox.y + bbox.height) ≤ rows) := by
  unfold cropGuard
  exact decide_eq_true_iff

/-- Without overflow the guard compares the exact sums: it holds exactly for the boxes that
lie within the non-empty frame. -/
theorem cropGuard_iff_of_noCropOverflow {cols rows : Int} {bbox : Rect}
    (hno : NoCropOverflow cols rows bbox) :
    cropGuard cols rows bbox = true ↔
      (¬ (cols = 0 ∨ rows = 0) ∧ 0 ≤ bbox.x ∧ 0 ≤ bbox.y ∧
        bbox.x + bbox.width ≤ cols ∧ bbox.y + bbox.height ≤ rows) := by
  obtain ⟨_, _, hxw, hyh, _, _⟩ := hno
  rw [cropGuard_iff, toInt32_of_inInt32 hxw, toInt32_of_inInt32 hyh]

theorem crop_of_cropGuard_false {cols rows : Int} {bbox : Rect}
    (h : cropGuard cols rows bbox = false) : crop cols rows bbox = .empty := by
  simp [crop, h]

/-- Without overflow, the padded rectangle of a box of non-negative size that passes the
guard has the coordinates of the exact arithmetic. -/
theorem paddedBox_of_noCropOverflow {cols rows : Int} {bbox : Rect}
    (hno : NoCropOverflow cols rows bbox) (hw : 0 ≤ bbox.width) (hh : 0 ≤ bbox.height)
    (h : cropGuard cols rows bbox = true) :
    paddedBox cols rows bbox =
      { x := max 0 (bbox.x - 15), y := max 0 (bbox.y - 15)
        width := min (cols - max 0 (bbox.x - 15)) (bbox.width + 2 * 15)
        height := min (rows - max 0 (bbox.y - 15)) (bbox.height + 2 * 15) } := by
  obtain ⟨h0, hx, hy, hxw, hyh⟩ := (cropGuard_iff_of_noCropOverflow hno).1 h
  obtain ⟨hc, hr, h1, h2, h3, h4⟩ := hno
  unfold InInt32 at hc hr h1 h2 h3 h4
  have e1 : toInt32 (bbox.x - 15) = bbox.x - 15 :=
    toInt32_of_inInt32 (by unfold InInt32; omega)
  have e2 : toInt32 (bbox.y - 15) = bbox.y - 15 :=
    toInt32_of_inInt32 (by unfold InInt32; omega)
  have e3 : toInt32 (cols - max 0 (bbox.x - 15)) = cols - max 0 (bbox.x - 15) :=
    toInt32_of_inInt32 (by unfold InInt32; omega)
  have e4 : toInt32 (rows - max 0 (bbox.y - 15)) = rows - max 0 (bbox.y - 15) :=
    toInt32_of_inInt32 (by unfold InInt32; omega)
  have e5 : toInt32 (bbox.width + 2 * 15) = bbox.width + 2 * 15 :=
    toInt32_of_inInt32 (by unfold InInt32; omega)
  have e6 : toInt32 (bbox.height + 2 * 15) = bbox.height + 2 * 15 :=
    toInt32_of_inInt32 (by unfold InInt32; omega)
  simp only [paddedBox, e1, e2, e3, e4, e5, e6]

/-- Without overflow, a box of non-negative size that passes the guard is cropped to
`paddedBox`, which has pixels and lies in the frame. -/
theorem crop_of_cropGuard {cols rows : Int} {bbox : Rect}
    (hno : NoCropOverflow cols rows bbox) (hw : 0 ≤ bbox.width)
    (hh : 0 ≤ bbox.height) (h : cropGuard cols rows bbox = true) :
    crop cols rows bbox = .image (paddedBox cols rows bbox) ∧
    roiValid cols rows (paddedBox cols rows bbox) = true ∧
    0 < (paddedBox cols rows bbox).width ∧ 0 < (paddedBox cols rows bbox).height := by
  obtain ⟨h0, hx, hy, hxw, hyh⟩ := (cropGuard_iff_of_noCropOverflow hno).1 h
  have hpad := paddedBox_of_noCropOverflow hno hw hh h
  obtain ⟨hc, hr, h1, h2, h3, h4⟩ := hno
  unfold InInt32 at hc hr h1 h2 h3 h4
  have hpw : 0 < (paddedBox cols rows bbox).width := by
    rw [hpad]; simp only; omega
  have hph : 0 < (paddedBox cols rows bbox).height := by
    rw [hpad]; simp only; omega
  have hvalid : roiValid cols rows (paddedBox cols rows bbox) = true := by
    unfold roiValid
    rw [decide_eq_true_iff, hpad]
    simp only
    have s1 : toInt32 (max 0 (bbox.x - 15) +
        min (cols - max 0 (bbox.x - 15)) (bbox.width + 2 * 15))
          = max 0 (bbox.x - 15) + min (cols - max 0 (bbox.x - 15)) (bbox.width + 2 * 15) :=
      toInt32_of_inInt32 (by unfold InInt32; omega)
    have s2 : toInt32 (max 0 (bbox.y - 15) +
        min (rows - max 0 (bbox.y - 15)) (bbox.height + 2 * 15))
          = max 0 (bbox.y - 15) + min (rows - max 0 (bbox.y - 15)) (bbox.height + 2 * 15) :=
      toInt32_of_inInt32 (by unfold InInt32; omega)
    rw [s1, s2]
    omega
  refine ⟨?_, hvalid, hpw, hph⟩
  have hne : ¬ ((paddedBox cols rows bbox).width = 0 ∨ (paddedBox cols rows bbox).height = 0) := by
    omega
  simp only [crop, h, hvalid, if_true, if_neg hne]

/-- C16, amended: in a frame whose `int` arithmetic with the box is without overflow, a box of
non-negative width and height passes the guard of `captureEvent` exactly when it lies fully
within the non-empty frame; then it is cropped to a rectangle with pixels that starts at the
top-left corner of the box expanded by 15 px and cut to the frame, covers that rectangle, and
equals it whenever `x ≥ 15` and `y ≥ 15`; a box that does not lie fully within the frame is
not cropped and its event is skipped, whatever that rectangle is. -/
theorem crop_of_box_in_frame (w : World) (bbox : Rect)
    (hw : 0 ≤ bbox.width) (hh : 0 ≤ bbox.height)
    (hno : NoCropOverflow w.widget.currentFrameCols w.widget.currentFrameRows bbox) :
    (cropGuard w.widget.currentFrameCols w.widget.currentFrameRows bbox = true ↔
      (¬ (w.widget.currentFrameCols = 0 ∨ w.widget.currentFrameRows = 0) ∧
        0 ≤ bbox.x ∧ 0 ≤ bbox.y ∧ bbox.x + bbox.width ≤ w.widget.currentFrameCols ∧
        bbox.y + bbox.height ≤ w.widget.currentFrameRows)) ∧
    (cropGuard w.widget.currentFrameCols w.widget.currentFrameRows bbox = true →
      crop w.widget.currentFrameCols w.widget.currentFrameRows bbox
        = .image (paddedBox w.widget.currentFrameCols w.widget.currentFrameRows bbox) ∧
      rectEmpty (paddedBox w.widget.currentFrameCols w.widget.currentFrameRows bbox) = false ∧
      (paddedBox w.widget.currentFrameCols w.widget.currentFrameRows bbox).x
        = (expandedInFrame w.widget.currentFrameCols w.widget.currentFrameRows bbox).x ∧
      (paddedBox w.widget.currentFrameCols w.widget.currentFrameRows bbox).y
        = (expandedInFrame w.widget.currentFrameCols w.widget.currentFrameRows bbox).y ∧
      (expandedInFrame w.widget.currentFrameCols w.widget.currentFrameRows bbox).width
        ≤ (paddedBox w.widget.currentFrameCols w.widget.currentFrameRows bbox).width ∧
      (expandedInFrame w.widget.currentFrameCols w.widget.currentFrameRows bbox).height
        ≤ (paddedBox w.widget.currentFrameCols w.widget.currentFrameRows bbox).height ∧
      (15 ≤ bbox.x → 15 ≤ bbox.y →
        paddedBox w.widget.currentFrameCols w.widget.currentFrameRows bbox
          = expandedInFrame w.widget.currentFrameCols w.widget.currentFrameRows bbox)) ∧
    (cropGuard w.widget.currentFrameCols w.widget.currentFrameRows bbox = false →
      crop w.widget.currentFrameCols w.widget.currentFrameRows bbox = .empty ∧
      ∀ trackId regionName eventType env,
        captureEvent w trackId regionName bbox eventType env = some w) := by
  refine ⟨cropGuard_iff_of_noCropOverflow hno, ?_, ?_⟩
  · intro hg
    obtain ⟨hc, _, hpw, hph⟩ := crop_of_cropGuard hno hw hh hg
    obtain ⟨h0, hx, hy, hxw, hyh⟩ := (cropGuard_iff_of_noCropOverflow hno).1 hg
    have hpad := paddedBox_of_noCropOverflow hno hw hh hg
    refine ⟨hc, ?_, ?_, ?_, ?_, ?_, ?_⟩
    · unfold rectEmpty
      rw [decide_eq_false_iff_not]
      omega
    · rw [hpad]; rfl
    · rw [hpad]; rfl
    · rw [hpad]; simp only [expandedInFrame]; omega
    · rw [hpad]; simp only [expandedInFrame]; omega
    · intro h15x h15y
      rw [hpad]
      simp only [expandedInFrame, Rect.mk.injEq, true_and]
      omega
  · intro hg
    refine ⟨crop_of_cropGuard_false hg, ?_⟩
    intro trackId regionName eventType env
    unfold captureEvent
    simp only [crop_of_cropGuard_false hg]

/-- Witness of C16 amended: in the 640 x 480 frame of the scene the box `(100, 200, 40, 60)` is
cropped to `(85, 185, 70, 90)`, the box grown by 15 px on each side; the box
`(0, 100, 40, 40)` at the left edge is cropped to `(0, 85, 70, 70)`, wider than the expanded
box cut to the frame, `(0, 85, 55, 70)`. -/
theorem crop_of_box_in_frame_witness :
    crop 640 480 ⟨100, 200, 40, 60⟩ = .image ⟨85, 185, 70, 90⟩ ∧
    paddedBox 640 480 ⟨100, 200, 40, 60⟩ = expandedInFrame 640 480 ⟨100, 200, 40, 60⟩ ∧
    crop 640 480 ⟨0, 100, 40, 40⟩ = .image ⟨0, 85, 70, 70⟩ ∧
    expandedInFrame 640 480 ⟨0, 100, 40, 40⟩ = ⟨0, 85, 55, 70⟩ :=
  have h := crop_of_box_in_frame
    { sceneWorld with widget := { sceneWorld.widget with
        currentFrameCols := 640, currentFrameRows := 480 } }
    ⟨100, 200, 40, 60⟩ (by decide) (by decide) (by decide)
  have h' := crop_of_box_in_frame
    { sceneWorld with widget := { sceneWorld.widget with
        currentFrameCols := 640, currentFrameRows := 480 } }
    ⟨0, 100, 40, 40⟩ (by decide) (by decide) (by decide)
  ⟨(h.2.1 (by decide)).1, (h.2.1 (by decide)).2.2.2.2.2.2 (by decide) (by decide),
    (h'.2.1 (by decide)).1, by decide⟩

end CameraWidget

namespace CameraWidget

/-- One pass through the Telegram block for an event that may notify, with Telegram enabled:
a photo is dispatched and the time noted exactly when the region has no noted time or the
noted time is at least 5000 ms old. -/
theorem notifyTelegram_enabled (w : World) (R : StdString) (box : Rect) (ty : EventType)
    (env : CaptureEnv) (hen : w.telegramEnabled = true)
    (hty : ty = .FIRST_ENTRY ∨ ty = .EXIT) :
    ((∀ last, w.widget.lastTelegramSendTime_.find R = some last →
        env.currentMSecsSinceEpoch - last ≥ TELEGRAM_THROTTLE_MS) →
      (∃ photo, (notifyTelegram w R box ty env).telegramPhotos = w.telegramPhotos ++ [photo] ∧
        photo.regionName = R ∧ photo.bbox = box) ∧
      (notifyTelegram w R box ty env).widget.lastTelegramSendTime_.find R
        = some env.currentMSecsSinceEpoch) ∧
    ((∃ last, w.widget.lastTelegramSendTime_.find R = some last ∧
        env.currentMSecsSinceEpoch - last < TELEGRAM_THROTTLE_MS) →
      notifyTelegram w R box ty env = w) := by
  have hcond : w.telegramEnabled = true ∧ (ty = .FIRST_ENTRY ∨ ty = .EXIT) := ⟨hen, hty⟩
  constructor
  · intro hfree
    have hsend : (match w.widget.lastTelegramSendTime_.find R with
        | none => true
        | some last => decide (env.currentMSecsSinceEpoch - last ≥ TELEGRAM_THROTTLE_MS))
          = true := by
      cases hf : w.widget.lastTelegramSendTime_.find R with
      | none => rfl
      | some last => simpa using hfree last hf
    simp only [notifyTelegram, if_pos hcond, hsend, if_true, StdMap.find_insert_self, and_true]
    exact ⟨_, rfl, rfl, rfl⟩
  · rintro ⟨last, hf, hlt⟩
    have hno : ¬ (env.currentMSecsSinceEpoch - last ≥ TELEGRAM_THROTTLE_MS) := by omega
    simp [notifyTelegram, hcond, hf, hno]

/-- C17: with Telegram enabled, three FIRST_ENTRY or EXIT events of one region reach the
Telegram block at times `t1 ≤ t2 < t1 + 5000` and `t3 ≥ t1 + 5000`, with no other send noted for
the region before or in between: the first and the third dispatch a photo and the second does
not; the time noted for the region is `t1` from the first dispatch on and `t3` after the
third, set in the same step as the dispatch. -/
theorem telegram_throttle (w w1 w2 : World) (R : StdString) (b1 b2 b3 : Rect)
    (ty1 ty2 ty3 : EventType) (e1 e2 e3 : CaptureEnv)
    (hty1 : ty1 = .FIRST_ENTRY ∨ ty1 = .EXIT) (hty2 : ty2 = .FIRST_ENTRY ∨ ty2 = .EXIT)
    (hty3 : ty3 = .FIRST_ENTRY ∨ ty3 = .EXIT)
    (hen : w.telegramEnabled = true) (hen1 : w1.telegramEnabled = true)
    (hen2 : w2.telegramEnabled = true)
    (hfree : ∀ last, w.widget.lastTelegramSendTime_.find R = some last →
      e1.currentMSecsSinceEpoch - last ≥ TELEGRAM_THROTTLE_MS)
    (hw1 : w1.widget.lastTelegramSendTime_.find R
      = (notifyTelegram w R b1 ty1 e1).widget.lastTelegramSendTime_.find R)
    (hw2 : w2.widget.lastTelegramSendTime_.find R
      = (notifyTelegram w1 R b2 ty2 e2).widget.lastTelegramSendTime_.find R)
    (h12 : e1.currentMSecsSinceEpoch ≤ e2.currentMSecsSinceEpoch)
    (h2 : e2.currentMSecsSinceEpoch < e1.currentMSecsSinceEpoch + 5000)
    (h3 : e3.currentMSecsSinceEpoch ≥ e1.currentMSecsSinceEpoch + 5000) :
    (∃ photo, (notifyTelegram w R b1 ty1 e1).telegramPhotos = w.telegramPhotos ++ [photo] ∧
      photo.regionName = R ∧ photo.bbox = b1) ∧
    (notifyTelegram w R b1 ty1 e1).widget.lastTelegramSendTime_.find R
      = some e1.currentMSecsSinceEpoch ∧
    notifyTelegram w1 R b2 ty2 e2 = w1 ∧
    (∃ photo, (notifyTelegram w2 R b3 ty3 e3).telegramPhotos = w2.telegramPhotos ++ [photo] ∧
      photo.regionName = R ∧ photo.bbox = b3) ∧
    (notifyTelegram w2 R b3 ty3 e3).widget.lastTelegramSendTime_.find R
      = some e3.currentMSecsSinceEpoch := by
  obtain ⟨hp1, hl1⟩ := (notifyTelegram_enabled w R b1 ty1 e1 hen hty1).1 hfree
  rw [hl1] at hw1
  have hskip : notifyTelegram w1 R b2 ty2 e2 = w1 :=
    (notifyTelegram_enabled w1 R b2 ty2 e2 hen1 hty2).2
      ⟨_, hw1, by simp only [TELEGRAM_THROTTLE_MS]; omega⟩
  rw [hskip, hw1] at hw2
  obtain ⟨hp3, hl3⟩ := (notifyTelegram_enabled w2 R b3 ty3 e3 hen2 hty3).1 (by
    intro last hlast
    rw [hw2] at hlast
    cases hlast
    simp only [TELEGRAM_THROTTLE_MS]; omega)
  exact ⟨hp1, hl1, hskip, hp3, hl3⟩

/-- Witness of C17: in the scene, an ENTRY at 1000 ms, an EXIT at 3000 ms and an ENTRY at
6000 ms for region "Door"; two photos are dispatched and the noted time ends at 6000. -/
theorem telegram_throttle_witness :
    (notifyTelegram (notifyTelegram (notifyTelegram sceneWorld "Door".toList ⟨10, 20, 40, 40⟩
        .FIRST_ENTRY { sceneEnv with currentMSecsSinceEpoch := 1000 }) "Door".toList
        ⟨10, 20, 40, 40⟩ .EXIT { sceneEnv with currentMSecsSinceEpoch := 3000 }) "Door".toList
        ⟨10, 20, 40, 40⟩ .FIRST_ENTRY
        { sceneEnv with currentMSecsSinceEpoch := 6000 }).telegramPhotos.length = 2 ∧
    (notifyTelegram (notifyTelegram (notifyTelegram sceneWorld "Door".toList ⟨10, 20, 40, 40⟩
        .FIRST_ENTRY { sceneEnv with currentMSecsSinceEpoch := 1000 }) "Door".toList
        ⟨10, 20, 40, 40⟩ .EXIT { sceneEnv with currentMSecsSinceEpoch := 3000 }) "Door".toList
        ⟨10, 20, 40, 40⟩ .FIRST_ENTRY
        { sceneEnv with currentMSecsSinceEpoch := 6000 }).widget.lastTelegramSendTime_.find
          "Door".toList = some 6000 :=
  have h := telegram_throttle sceneWorld
    (notifyTelegram sceneWorld "Door".toList ⟨10, 20, 40, 40⟩ .FIRST_ENTRY
      { sceneEnv with currentMSecsSinceEpoch := 1000 })
    (notifyTelegram (notifyTelegram sceneWorld "Door".toList ⟨10, 20, 40, 40⟩ .FIRST_ENTRY
      { sceneEnv with currentMSecsSinceEpoch := 1000 }) "Door".toList ⟨10, 20, 40, 40⟩ .EXIT
      { sceneEnv with currentMSecsSinceEpoch := 3000 })
    "Door".toList ⟨10, 20, 40, 40⟩ ⟨10, 20, 40, 40⟩ ⟨10, 20, 40, 40⟩
    .FIRST_ENTRY .EXIT .FIRST_ENTRY
    { sceneEnv with currentMSecsSinceEpoch := 1000 }
    { sceneEnv with currentMSecsSinceEpoch := 3000 }
    { sceneEnv with currentMSecsSinceEpoch := 6000 }
    (Or.inl rfl) (Or.inr rfl) (Or.inl rfl) rfl (by decide) (by decide) (by decide) rfl rfl
    (by decide) (by decide) (by decide)
  ⟨by decide, h.2.2.2.2⟩

end CameraWidget

/-! ## Entering a region: region change and crop failure -/

namespace CameraWidget

/-- A track that is marked inside and is found in a region (the same or another one) keeps the
region name and the entry frame of its state, is not recorded in the region counts, and logs
at most a PERIODIC event. -/
theorem processTrack_marked_inside {ppt : PointPolygonTest} {w w' : World} {ti : TrackInput}
    {s : TrackRegionState} (hs : w.widget.trackRegionStates_.find ti.trackId = some s)
    (hin : s.inRegion = true)
    (hB : findRegionName ppt w.widget.regions_ ti.box ≠ [])
    (h : processTrack ppt w ti = some w') :
    (∃ s', w'.widget.trackRegionStates_.find ti.trackId = some s' ∧
      s'.regionName = s.regionName ∧ s'.entryFrame = s.entryFrame ∧ s'.inRegion = true) ∧
    w'.regionCounts = w.regionCounts ∧
    ∃ new, w'.eventManager.events_ = w.eventManager.events_ ++ new ∧
      ∀ e ∈ new, e.eventType = .PERIODIC := by
  unfold processTrack at h
  dsimp only at h
  rw [if_pos hB, hs] at h
  simp only [Option.getD_some, hin, Bool.true_eq_false, if_false] at h
  split_ifs at h with h3
  · obtain ⟨w1, hw1, rfl⟩ := Option.map_eq_some'.1 h
    obtain ⟨hctx, hst, new, hev, hnew⟩ := captureEvent_effect hw1
    refine ⟨⟨_, StdMap.find_insert_self _ _ _, rfl, rfl, rfl⟩, ?_, new, hev,
      fun e he => (hnew e he).2.1⟩
    unfold captureEvent at hw1
    dsimp only at hw1
    split at hw1
    · simp at hw1
    · cases hw1; rfl
    · split_ifs at hw1
      · cases hw1; rfl
      · cases hw1
        unfold notifyTelegram
        dsimp only
        split_ifs <;> rfl
  · cases h
    exact ⟨⟨s, StdMap.find_insert_self _ _ _, rfl, rfl, hin⟩, rfl, [], by simp, by simp⟩

/-- C13, on two frames of the two-region scene: track 5 is inside "A" on frame 1 and inside "B"
on frame 2. After frame 2 the log holds the FIRST_ENTRY for "A" and nothing for "B", the state
of the track still names "A" with entry and last capture at frame 1, and the region counts do
not hold track 5 under "B", while the widget's own unique-id set of "B" does. -/
theorem region_change_emits_no_first_entry :
    findRegionName boundsTest twoRegionWorld.widget.regions_ ⟨150, 20, 40, 40⟩ = "B".toList ∧
    (runFrames boundsTest twoRegionWorld
        [frameWith 5 ⟨10, 20, 40, 40⟩, frameWith 5 ⟨150, 20, 40, 40⟩]).map
      (fun w => w.eventManager.events_.map fun e => (e.eventType, e.frameNumber, e.regionName))
      = some [(EventType.FIRST_ENTRY, 1, "A".toList)] ∧
    (runFrames boundsTest twoRegionWorld
        [frameWith 5 ⟨10, 20, 40, 40⟩, frameWith 5 ⟨150, 20, 40, 40⟩]).map
      (fun w => w.widget.trackRegionStates_.find 5)
      = some (some ⟨true, "A".toList, 1, 1⟩) ∧
    (runFrames boundsTest twoRegionWorld
        [frameWith 5 ⟨10, 20, 40, 40⟩, frameWith 5 ⟨150, 20, 40, 40⟩]).map
      (fun w => StdSet.contains (w.regionCounts.getRegionIds "B".toList) 5) = some false ∧
    (runFrames boundsTest twoRegionWorld
        [frameWith 5 ⟨10, 20, 40, 40⟩, frameWith 5 ⟨150, 20, 40, 40⟩]).map
      (fun w => (w.widget.regionUniqueObjectIds_.find "B".toList).map
        fun ids => StdSet.contains ids 5) = some (some true) := by
  decide

/-- C15 fails as stated: in the scene, track 5 enters "Door" with the box `(-5, 20, 40, 40)`,
which is not fully within the frame; no event is logged, yet the region counts hold track 5
under "Door" afterwards, which they did not before. -/
theorem crop_failure_still_counts :
    StdSet.contains (sceneWorld.regionCounts.getRegionIds "Door".toList) 5 = false ∧
    crop 640 480 ⟨-5, 20, 40, 40⟩ = .empty ∧
    (updateFrame sceneTest sceneWorld (frameWith 5 ⟨-5, 20, 40, 40⟩)).map
      (fun w => (w.eventManager.events_,
        StdSet.contains (w.regionCounts.getRegionIds "Door".toList) 5)) = some ([], true) := by
  decide

/-- C15, amended: when a track that is not marked inside is found in the region named `R` on a
frame where the crop fails because the box is not fully within the frame, no event is appended
to the event log, while `recordObjectEntry R trackId` is still called, so that the id set of
`R` in the region counts holds the track afterwards, and the track is marked inside `R`. -/
theorem first_entry_with_crop_failure (ppt : PointPolygonTest) (w : World) (ti : TrackInput)
    (R : StdString) (hR : findRegionName ppt w.widget.regions_ ti.box = R) (hne : R ≠ [])
    (hout : ((w.widget.trackRegionStates_.find ti.trackId).getD
      TrackRegionState.default).inRegion = false)
    (hcrop : cropGuard w.widget.currentFrameCols w.widget.currentFrameRows ti.box = false) :
    ∃ w', processTrack ppt w ti = some w' ∧
      w'.eventManager.events_ = w.eventManager.events_ ∧
      w'.regionCounts
        = (w.regionCounts.recordObjectEntry R ti.trackId w.widget.cameraName).2 ∧
      StdSet.contains (w'.regionCounts.getRegionIds R) ti.trackId = true ∧
      w'.widget.trackRegionStates_.find ti.trackId
        = some { inRegion := true, regionName := R
                 lastCaptureFrame := w.widget.currentFrameNumber_
                 entryFrame := w.widget.currentFrameNumber_ } := by
  have hcap : ∀ (w0 : World), w0.widget.currentFrameCols = w.widget.currentFrameCols →
      w0.widget.currentFrameRows = w.widget.currentFrameRows →
      captureEvent w0 ti.trackId R ti.box .FIRST_ENTRY ti.env = some w0 := by
    intro w0 h1 h2
    unfold captureEvent
    simp only [h1, h2, crop_of_cropGuard_false hcrop]
  unfold processTrack
  dsimp only
  rw [hR, if_pos hne, if_pos hout, hcap]
  · refine ⟨_, rfl, rfl, rfl, ?_, ?_⟩
    · simp only [RegionCountManager.getRegionIds_recordObjectEntry,
        StdSet.contains_insert, decide_True, Bool.true_or]
    · simp only [StdMap.find_insert_self]
  · rfl
  · rfl

/-- Witness of C15 amended: track 5 of the scene with the box `(-5, 20, 40, 40)`. -/
theorem first_entry_with_crop_failure_witness :
    ∃ w', processTrack sceneTest
        { sceneWorld with widget := { sceneWorld.widget with
            currentFrameCols := 640, currentFrameRows := 480, currentFrameNumber_ := 1 } }
        ⟨5, ⟨-5, 20, 40, 40⟩, sceneEnv⟩ = some w' ∧
      w'.eventManager.events_ = [] ∧
      StdSet.contains (w'.regionCounts.getRegionIds "Door".toList) 5 = true :=
  match first_entry_with_crop_failure sceneTest
      { sceneWorld with widget := { sceneWorld.widget with
          currentFrameCols := 640, currentFrameRows := 480, currentFrameNumber_ := 1 } }
      ⟨5, ⟨-5, 20, 40, 40⟩, sceneEnv⟩ "Door".toList (by decide) (by decide) (by decide)
      (by decide) with
  | ⟨w', h1, h2, _, h4, _⟩ => ⟨w', h1, h2, h4⟩

end CameraWidget

/-! ## CameraWidget: what one step logs -/

namespace CameraWidget

/-- The event that `captureEvent` builds. -/
def loggedEvent (w : World) (tid : Nat) (R : StdString) (box : Rect) (ty : EventType)
    (env : CaptureEnv) : DetectionEvent :=
  { trackId := tid, cameraId := w.widget.cameraId, cameraName := w.widget.cameraName
    regionName := R
    objectClass :=
      match w.widget.trackClassMap_.find tid with
      | some class_id => w.widget.inference_ class_id
      | none => "unknown".toList
    confidence :=
      match w.widget.trackClassMap_.find tid with
      | some _ => float_0_85
      | none => 0
    eventType := ty, timestamp := env.currentDateTime, bbox := box
    imagePath := w.eventManager.saveEventImage false w.widget.cameraName R tid ty env
    frameNumber := w.widget.currentFrameNumber_ }

/-- A returning `captureEvent` keeps the frame context and the track states; it appends exactly
one event, of the given track, kind, region name and current frame, when the crop gives an
image and the image is saved, and none otherwise. -/
theorem captureEvent_log {w w' : World} {tid : Nat} {R : StdString} {box : Rect}
    {ty : EventType} {env : CaptureEnv} (h : captureEvent w tid R box ty env = some w') :
    frameCtx w' = frameCtx w ∧
    w'.widget.trackRegionStates_ = w.widget.trackRegionStates_ ∧
    ((((crop w.widget.currentFrameCols w.widget.currentFrameRows box).isImage = true ∧
        env.saveThrows = false) ∧
      ∃ e, w'.eventManager.events_ = w.eventManager.events_ ++ [e] ∧ e.trackId = tid ∧
        e.eventType = ty ∧ e.frameNumber = w.widget.currentFrameNumber_ ∧ e.regionName = R) ∨
     (¬ ((crop w.widget.currentFrameCols w.widget.currentFrameRows box).isImage = true ∧
        env.saveThrows = false) ∧
      w'.eventManager.events_ = w.eventManager.events_)) := by
  unfold captureEvent at h
  dsimp only at h
  cases hcr : crop w.widget.currentFrameCols w.widget.currentFrameRows box with
  | throws => simp [hcr] at h
  | empty =>
    simp only [hcr] at h
    cases h
    exact ⟨rfl, rfl, Or.inr ⟨by simp [CropResult.isImage], rfl⟩⟩
  | image roi =>
    simp only [hcr] at h
    split_ifs at h with hp
    · cases h
      rw [saveEventImage_eq_nil_iff] at hp
      exact ⟨rfl, rfl, Or.inr ⟨by simp [hp], rfl⟩⟩
    · cases h
      rw [saveEventImage_eq_nil_iff] at hp
      have hs : env.saveThrows = false := by simpa using hp
      refine ⟨?_, ?_, Or.inl ⟨⟨rfl, hs⟩, loggedEvent w tid R box ty env, ?_, rfl, rfl, rfl, rfl⟩⟩
      · rw [notifyTelegram_frameCtx]; rfl
      · rw [notifyTelegram_states]
      · rw [notifyTelegram_events]; rfl

theorem kindsOfTrack_append (t : Nat) (l₁ l₂ : List DetectionEvent) :
    kindsOfTrack t (l₁ ++ l₂) = kindsOfTrack t l₁ ++ kindsOfTrack t l₂ := by
  simp [kindsOfTrack]

theorem kindsOfTrack_singleton {e : DetectionEvent} {t : Nat} (h : e.trackId = t) :
    kindsOfTrack t [e] = [e.eventType] := by
  simp [kindsOfTrack, h]

theorem kindsOfTrack_eq_map_fst (t : Nat) (l : List DetectionEvent) :
    kindsOfTrack t l = (eventsOfTrack t l).map Prod.fst := by
  simp [kindsOfTrack, eventsOfTrack]

theorem advance_append (inside : Bool) (l₁ l₂ : List EventType) :
    advance inside (l₁ ++ l₂) = (advance inside l₁).bind fun b => advance b l₂ := by
  induction l₁ generalizing inside with
  | nil => cases inside <;> simp [advance]
  | cons k rest ih =>
    cases inside <;> cases k <;> simp [advance, ih]

theorem markedInside_eq (S : Option TrackRegionState) :
    markedInside S = (S.getD TrackRegionState.default).inRegion := by
  cases S <;> rfl

end CameraWidget

/-! ## The order of the event kinds of one track over a run of frames -/

namespace CameraWidget

/-- The kinds of the attempted captures. -/
def attemptedKinds (atts : List (EventType × Bool)) : List EventType :=
  atts.map fun a => a.1

/-- The kinds of the attempted captures that succeed. -/
def succeededKinds (atts : List (EventType × Bool)) : List EventType :=
  (atts.filter fun a => a.2).map fun a => a.1

/-- The step from `w` to `w'` attempts the captures `atts` for track `t`: the events appended
to the log have for track `t` exactly the kinds of the attempts that succeed, in order, and
the kinds of the attempts follow the order of `advance` from the mark of the track in `w` to
its mark in `w'`. -/
def Traced (t : Nat) (w w' : World) (atts : List (EventType × Bool)) : Prop :=
  ∃ new, w'.eventManager.events_ = w.eventManager.events_ ++ new ∧
    kindsOfTrack t new = succeededKinds atts ∧
    advance (markedInside (w.widget.trackRegionStates_.find t)) (attemptedKinds atts)
      = some (markedInside (w'.widget.trackRegionStates_.find t))

theorem traced_nil (t : Nat) (w : World) : Traced t w w [] :=
  ⟨[], by simp, rfl, by cases markedInside _ <;> rfl⟩

theorem traced_append {t : Nat} {w₁ w₂ w₃ : World} {a₁ a₂ : List (EventType × Bool)}
    (h₁ : Traced t w₁ w₂ a₁) (h₂ : Traced t w₂ w₃ a₂) : Traced t w₁ w₃ (a₁ ++ a₂) := by
  obtain ⟨n₁, e₁, k₁, d₁⟩ := h₁
  obtain ⟨n₂, e₂, k₂, d₂⟩ := h₂
  refine ⟨n₁ ++ n₂, ?_, ?_, ?_⟩
  · rw [e₂, e₁, List.append_assoc]
  · rw [kindsOfTrack_append, k₁, k₂]
    simp [succeededKinds]
  · have : attemptedKinds (a₁ ++ a₂) = attemptedKinds a₁ ++ attemptedKinds a₂ := by
      simp [attemptedKinds]
    rw [this, advance_append, d₁]
    exact d₂

/-- One call of `captureEvent` of kind `ty` for the track, from a world `w0` that differs from
`w` only in members the log and the frame context do not depend on. -/
theorem traced_of_capture {t : Nat} {w w0 w1 w' : World} {R : StdString} {box : Rect}
    {ty : EventType} {env : CaptureEnv} {b b' : Bool}
    (hcap : captureEvent w0 t R box ty env = some w1)
    (hev0 : w0.eventManager.events_ = w.eventManager.events_)
    (hev' : w'.eventManager.events_ = w1.eventManager.events_)
    (hcols : w0.widget.currentFrameCols = w.widget.currentFrameCols)
    (hrows : w0.widget.currentFrameRows = w.widget.currentFrameRows)
    (hb : markedInside (w.widget.trackRegionStates_.find t) = b)
    (hb' : markedInside (w'.widget.trackRegionStates_.find t) = b')
    (hadv : advance b [ty] = some b') :
    Traced t w w'
      [(ty, (crop w.widget.currentFrameCols w.widget.currentFrameRows box).isImage &&
        !env.saveThrows)] := by
  obtain ⟨_, _, hlog⟩ := captureEvent_log hcap
  rw [hcols, hrows] at hlog
  rcases hlog with ⟨⟨hc, hs⟩, e, he, het, hety, _, _⟩ | ⟨hnot, he⟩
  · refine ⟨[e], ?_, ?_, ?_⟩
    · rw [hev', he, hev0]
    · rw [kindsOfTrack_singleton het, hety]
      simp [succeededKinds, hc, hs]
    · rw [hb, hb']; exact hadv
  · refine ⟨[], ?_, ?_, ?_⟩
    · rw [hev', he, hev0]; simp
    · have hfalse : ((crop w.widget.currentFrameCols w.widget.currentFrameRows box).isImage &&
          !env.saveThrows) = false := by
        cases hc : (crop w.widget.currentFrameCols w.widget.currentFrameRows box).isImage
        · rfl
        · cases hs : env.saveThrows
          · exact absurd ⟨hc, hs⟩ hnot
          · rfl
      simp [succeededKinds, kindsOfTrack, hfalse]
    · rw [hb, hb']; exact hadv

/-- Processing a track attempts for it the capture that `attemptOf` names, and logs it when
it succeeds. -/
theorem processTrack_traced_self {ppt : PointPolygonTest} {w w' : World} {ti : TrackInput}
    (h : processTrack ppt w ti = some w') :
    Traced ti.trackId w w'
      (match attemptOf ppt w ti with
        | some kind => [(kind, captureSucceeds w ti)]
        | none => []) := by
  unfold processTrack at h
  dsimp only at h
  split_ifs at h with h1 h2 h3
  · obtain ⟨w1, hw1, rfl⟩ := Option.map_eq_some'.1 h
    have ha : attemptOf ppt w ti = some .FIRST_ENTRY := by
      unfold attemptOf
      dsimp only
      rw [if_pos h1, if_pos h2]
    rw [ha]
    refine traced_of_capture hw1 rfl rfl rfl rfl (markedInside_eq _) (?_ : _ = true) ?_
    · simp only [StdMap.find_insert_self, markedInside]
    · rw [h2]; rfl
  · obtain ⟨w1, hw1, rfl⟩ := Option.map_eq_some'.1 h
    have hin : ((w.widget.trackRegionStates_.find ti.trackId).getD
        TrackRegionState.default).inRegion = true := by simpa using h2
    have ha : attemptOf ppt w ti = some .PERIODIC := by
      unfold attemptOf
      dsimp only
      rw [if_pos h1, if_neg h2, if_pos h3]
    rw [ha]
    refine traced_of_capture hw1 rfl rfl rfl rfl (markedInside_eq _) (?_ : _ = true) ?_
    · simp only [StdMap.find_insert_self, markedInside, hin]
    · rw [hin]; rfl
  · cases h
    have hin : ((w.widget.trackRegionStates_.find ti.trackId).getD
        TrackRegionState.default).inRegion = true := by simpa using h2
    have ha : attemptOf ppt w ti = none := by
      unfold attemptOf
      dsimp only
      rw [if_pos h1, if_neg h2, if_neg h3]
    rw [ha]
    refine ⟨[], by simp, rfl, ?_⟩
    rw [markedInside_eq, markedInside_eq]
    simp only [StdMap.find_insert_self, Option.getD_some, hin, attemptedKinds, List.map_nil,
      advance]
  · split at h
    · rename_i s hs
      split_ifs at h with h4
      · obtain ⟨w1, hw1, rfl⟩ := Option.map_eq_some'.1 h
        have ha : attemptOf ppt w ti = some .EXIT := by
          unfold attemptOf
          dsimp only
          rw [if_neg h1, hs]
          dsimp only
          rw [if_pos h4]
        rw [ha]
        refine traced_of_capture hw1 rfl rfl rfl rfl (markedInside_eq _) (?_ : _ = false) ?_
        · simp only [StdMap.find_erase_self, markedInside]
        · rw [hs]; simp only [Option.getD_some, h4]; rfl
      · cases h
        have ha : attemptOf ppt w ti = none := by
          unfold attemptOf
          dsimp only
          rw [if_neg h1, hs]
          dsimp only
          rw [if_neg h4]
        rw [ha]
        exact traced_nil _ _
    · rename_i hs
      cases h
      have ha : attemptOf ppt w ti = none := by
        unfold attemptOf
        dsimp only
        rw [if_neg h1, hs]
      rw [ha]
      exact traced_nil _ _

/-- Processing a track, seen from any track `t`. -/
theorem processTrack_traced {ppt : PointPolygonTest} {w w' : World} {ti : TrackInput}
    (t : Nat) (h : processTrack ppt w ti = some w') :
    Traced t w w'
      (if ti.trackId = t then
        match attemptOf ppt w ti with
        | some kind => [(kind, captureSucceeds w ti)]
        | none => []
      else []) := by
  by_cases hti : ti.trackId = t
  · rw [if_pos hti]
    subst hti
    exact processTrack_traced_self h
  · rw [if_neg hti]
    obtain ⟨⟨_, new, hev, hout⟩, hst⟩ := processTrack_other hti h
    refine ⟨new, hev, ?_, ?_⟩
    · rw [kindsOfTrack_eq_map_fst, hout]; rfl
    · rw [hst]; cases markedInside _ <;> rfl

/-- The tracks of one frame, processed in order. -/
theorem foldlM_processTrack_traced {ppt : PointPolygonTest} (t : Nat)
    (tracks : List TrackInput) :
    ∀ (w w' : World), tracks.foldlM (processTrack ppt) w = some w' →
      Traced t w w' (attemptsOfTracks ppt t w tracks) := by
  induction tracks with
  | nil =>
    intro w w' h
    cases h
    exact traced_nil _ _
  | cons ti tl ih =>
    intro w w' h
    rw [List.foldlM_cons] at h
    obtain ⟨w1, hw1, hrest⟩ := Option.bind_eq_some.1 h
    have hatt : attemptsOfTracks ppt t w (ti :: tl)
        = (if ti.trackId = t then
            match attemptOf ppt w ti with
            | some kind => [(kind, captureSucceeds w ti)]
            | none => []
          else []) ++ attemptsOfTracks ppt t w1 tl := by
      simp only [attemptsOfTracks, hw1]
    rw [hatt]
    exact traced_append (processTrack_traced t hw1) (ih w1 w' hrest)

/-- One call of `updateFrame`. -/
theorem updateFrame_traced {ppt : PointPolygonTest} (t : Nat) {w w' : World}
    {f : FrameInput} (h : updateFrame ppt w f = some w') :
    Traced t w w' (attemptsOfFrame ppt t w f) := by
  unfold updateFrame at h
  unfold attemptsOfFrame
  split_ifs at h ⊢ with hskip
  · cases h
    exact traced_nil _ _
  · exact foldlM_processTrack_traced t f.tracks _ w' h

/-- A run of frames. -/
theorem runFrames_traced {ppt : PointPolygonTest} (t : Nat) (frames : List FrameInput) :
    ∀ (w w' : World), runFrames ppt w frames = some w' →
      Traced t w w' (attemptsOfRun ppt t w frames) := by
  induction frames with
  | nil =>
    intro w w' h
    cases h
    exact traced_nil _ _
  | cons f fs ih =>
    intro w w' h
    rw [runFrames_cons] at h
    obtain ⟨w1, hw1, hrest⟩ := Option.bind_eq_some.1 h
    have hatt : attemptsOfRun ppt t w (f :: fs)
        = attemptsOfFrame ppt t w f ++ attemptsOfRun ppt t w1 fs := by
      simp only [attemptsOfRun, hw1]
    rw [hatt]
    exact traced_append (updateFrame_traced t hw1) (ih w1 w' hrest)

/-- What `attemptOf` names is the call of `captureEvent` that `processTrack` makes: for a
kind it names, `processTrack` is that call of `captureEvent`, on the same log and frame,
followed by an update that leaves the log alone; when it names none, `processTrack` returns
with the log as it was. -/
theorem processTrack_eq_captureEvent (ppt : PointPolygonTest) (w : World) (ti : TrackInput) :
    (∀ kind, attemptOf ppt w ti = some kind →
      ∃ (w0 : World) (R : StdString) (after : World → World),
        w0.eventManager = w.eventManager ∧ frameCtx w0 = frameCtx w ∧
        (∀ v, (after v).eventManager = v.eventManager) ∧
        processTrack ppt w ti
          = (captureEvent w0 ti.trackId R ti.box kind ti.env).map after) ∧
    (attemptOf ppt w ti = none →
      ∃ w', processTrack ppt w ti = some w' ∧ w'.eventManager = w.eventManager) := by
  unfold attemptOf processTrack
  dsimp only
  split_ifs with h1 h2 h3
  · refine ⟨fun kind hk => ?_, fun hn => by cases hn⟩
    cases hk
    refine ⟨_, _, _, ?_, ?_, ?_, rfl⟩ <;> first | rfl | exact fun _ => rfl
  · refine ⟨fun kind hk => ?_, fun hn => by cases hn⟩
    cases hk
    refine ⟨_, _, _, ?_, ?_, ?_, rfl⟩ <;> first | rfl | exact fun _ => rfl
  · exact ⟨fun kind hk => (by cases hk), fun _ => ⟨_, rfl, rfl⟩⟩
  · split
    · split_ifs with h4
      · refine ⟨fun kind hk => ?_, fun hn => by cases hn⟩
        cases hk
        refine ⟨_, _, _, ?_, ?_, ?_, rfl⟩ <;> first | rfl | exact fun _ => rfl
      · exact ⟨fun kind hk => (by cases hk), fun _ => ⟨_, rfl, rfl⟩⟩
    · exact ⟨fun kind hk => (by cases hk), fun _ => ⟨_, rfl, rfl⟩⟩

/-- Claim C12, as worded, fails: in the scene, track 5 enters the region "Door" on a frame
where its box reaches over the left edge of the frame, so the capture is skipped and no
FIRST_ENTRY is logged, while the track is marked inside; when it leaves on the next frame an
EXIT is logged. The log of the track is EXIT alone, which is not in the order FIRST_ENTRY,
PERIODIC, EXIT. -/
theorem exit_logged_without_first_entry :
    ((runFrames sceneTest sceneWorld
        [frameWith 5 ⟨-5, 20, 40, 40⟩, frameWith 5 ⟨300, 100, 50, 80⟩]).map
      fun w => kindsOfTrack 5 w.eventManager.events_) = some [EventType.EXIT] ∧
    ¬ StrictlyOrdered false [EventType.EXIT] := by
  decide

/-- Claim C12, amended: over every run of frames that returns and for every track, the event
kinds logged for the track are exactly the kinds of the captures that `processFrame` attempts
for it and that succeed (crop and save), in order; the kinds of the attempted captures are
strictly ordered FIRST_ENTRY, PERIODIC any number of times, EXIT, stay after stay, from the
mark of the track before the run; so when every attempted capture of the track succeeds, the
logged kinds are the attempted ones and themselves strictly ordered. -/
theorem logged_kinds_ordered_when_captures_succeed (ppt : PointPolygonTest) (w w' : World)
    (frames : List FrameInput) (t : Nat) (h : runFrames ppt w frames = some w') :
    ∃ new, w'.eventManager.events_ = w.eventManager.events_ ++ new ∧
      kindsOfTrack t new = succeededKinds (attemptsOfRun ppt t w frames) ∧
      StrictlyOrdered (markedInside (w.widget.trackRegionStates_.find t))
        (attemptedKinds (attemptsOfRun ppt t w frames)) ∧
      ((∀ a ∈ attemptsOfRun ppt t w frames, a.2 = true) →
        kindsOfTrack t new = attemptedKinds (attemptsOfRun ppt t w frames) ∧
        StrictlyOrdered (markedInside (w.widget.trackRegionStates_.find t))
          (kindsOfTrack t new)) := by
  obtain ⟨new, hev, hkinds, hadv⟩ := runFrames_traced t frames w w' h
  have hord : StrictlyOrdered (markedInside (w.widget.trackRegionStates_.find t))
      (attemptedKinds (attemptsOfRun ppt t w frames)) := by
    unfold StrictlyOrdered; rw [hadv]; rfl
  refine ⟨new, hev, hkinds, hord, fun hall => ?_⟩
  have heq : succeededKinds (attemptsOfRun ppt t w frames)
      = attemptedKinds (attemptsOfRun ppt t w frames) := by
    unfold succeededKinds attemptedKinds
    rw [List.filter_eq_self.2 (fun a ha => hall a ha)]
  rw [hkinds, heq]
  exact ⟨rfl, hord⟩

/-- Witness of C12 amended: track 5 of the scene enters "Door", stands on the next frame with
its box over the left edge of the frame, where no capture is due, and leaves on the third
frame; the two captures attempted succeed and the logged kinds are FIRST_ENTRY, EXIT. -/
theorem logged_kinds_ordered_when_captures_succeed_witness :
    attemptsOfRun sceneTest 5 sceneWorld
        [frameWith 5 ⟨20, 20, 40, 40⟩, frameWith 5 ⟨-5, 20, 40, 40⟩,
          frameWith 5 ⟨300, 100, 50, 80⟩]
      = [(.FIRST_ENTRY, true), (.EXIT, true)] ∧
    ∃ w' new, runFrames sceneTest sceneWorld
        [frameWith 5 ⟨20, 20, 40, 40⟩, frameWith 5 ⟨-5, 20, 40, 40⟩,
          frameWith 5 ⟨300, 100, 50, 80⟩] = some w' ∧
      w'.eventManager.events_ = sceneWorld.eventManager.events_ ++ new ∧
      kindsOfTrack 5 new = [.FIRST_ENTRY, .EXIT] ∧
      StrictlyOrdered false (kindsOfTrack 5 new) :=
  ⟨by decide,
    (Option.isSome_iff_exists.1 (by decide : (runFrames sceneTest sceneWorld
      [frameWith 5 ⟨20, 20, 40, 40⟩, frameWith 5 ⟨-5, 20, 40, 40⟩,
        frameWith 5 ⟨300, 100, 50, 80⟩]).isSome = true)).elim
    fun w' h =>
      match logged_kinds_ordered_when_captures_succeed sceneTest sceneWorld w'
        [frameWith 5 ⟨20, 20, 40, 40⟩, frameWith 5 ⟨-5, 20, 40, 40⟩,
          frameWith 5 ⟨300, 100, 50, 80⟩] 5 h with
      | ⟨new, h1, _, _, h4⟩ =>
        ⟨w', new, h, h1, (h4 (by decide)).1.trans (by decide), (h4 (by decide)).2⟩⟩

end CameraWidget

/-! ## A stay in a region that ends: FIRST_ENTRY, then EXIT -/

namespace CameraWidget

/-- Processing a track that is marked inside while its box is inside no region, with the crop
and the save succeeding: one EXIT event with the stored region name, and the state erased. -/
theorem processTrack_outside {ppt : PointPolygonTest} {w : World} {ti : TrackInput}
    {s : TrackRegionState} (hR : findRegionName ppt w.widget.regions_ ti.box = [])
    (hc : (crop w.widget.currentFrameCols w.widget.currentFrameRows ti.box).isImage = true)
    (hs : ti.env.saveThrows = false)
    (hf : w.widget.trackRegionStates_.find ti.trackId = some s) (hin : s.inRegion = true) :
    ∃ w' e, processTrack ppt w ti = some w' ∧ frameCtx w' = frameCtx w ∧
      w'.eventManager.events_ = w.eventManager.events_ ++ [e] ∧
      e.trackId = ti.trackId ∧ e.eventType = EventType.EXIT ∧
      e.frameNumber = w.widget.currentFrameNumber_ ∧ e.regionName = s.regionName ∧
      w'.widget.trackRegionStates_.find ti.trackId = none := by
  obtain ⟨w1, _, hcap, _⟩ :=
    captureEvent_success w ti.trackId s.regionName EventType.EXIT hc hs
  obtain ⟨hctx, hst, hlog⟩ := captureEvent_log hcap
  rcases hlog with ⟨_, e, he, h1, h2, h3, h4⟩ | ⟨hnot, _⟩
  · refine ⟨{ w1 with widget := { w1.widget with
        trackRegionStates_ := w1.widget.trackRegionStates_.erase ti.trackId } },
      e, ?_, ?_, ?_, h1, h2, h3, h4, ?_⟩
    · unfold processTrack
      dsimp only
      rw [if_neg (by rw [hR]; simp), hf]
      dsimp only
      rw [if_pos hin, hcap]
      rfl
    · exact hctx
    · exact he
    · exact StdMap.find_erase_self _ _
  · exact absurd ⟨hc, hs⟩ hnot

/-- Processing a track without a state whose box is inside no region does nothing. -/
theorem processTrack_outside_none {ppt : PointPolygonTest} {w : World} {ti : TrackInput}
    (hR : findRegionName ppt w.widget.regions_ ti.box = [])
    (hf : w.widget.trackRegionStates_.find ti.trackId = none) :
    processTrack ppt w ti = some w := by
  unfold processTrack
  dsimp only
  rw [if_neg (by rw [hR]; simp), hf]

/-- Once the state of track `t` is erased, the rest of a frame in which it is inside no region
logs nothing for it. -/
theorem foldlM_processTrack_gone {ppt : PointPolygonTest} {t : Nat}
    (tracks : List TrackInput) :
    ∀ (w : World), GoodTracks ppt w t [] tracks →
      w.widget.trackRegionStates_.find t = none →
      ∃ w', tracks.foldlM (processTrack ppt) w = some w' ∧ Emits t w w' [] ∧
        w'.widget.trackRegionStates_.find t = none := by
  induction tracks with
  | nil => intro w _ hf; exact ⟨w, rfl, Emits.refl t w, hf⟩
  | cons ti tl ih =>
    intro w hg hf
    have step : ∃ w1, processTrack ppt w ti = some w1 ∧ Emits t w w1 [] ∧
        w1.widget.trackRegionStates_.find t = none := by
      by_cases hti : ti.trackId = t
      · obtain ⟨h1, _, _⟩ := hg.2 ti (List.mem_cons_self _ _) hti
        exact ⟨w, processTrack_outside_none h1 (by rw [hti]; exact hf), Emits.refl t w, hf⟩
      · obtain ⟨w1, hw1⟩ := Option.isSome_iff_exists.1
          (processTrack_isSome ppt w (hg.1 ti (List.mem_cons_self _ _)))
        obtain ⟨hem, hst⟩ := processTrack_other hti hw1
        exact ⟨w1, hw1, hem, hst.trans hf⟩
    obtain ⟨w1, hw1, hem, hst⟩ := step
    obtain ⟨w', hw', hem', hst'⟩ := ih w1 (hg.tail hem.1) hst
    refine ⟨w', ?_, ?_, hst'⟩
    · rw [List.foldlM_cons, hw1]; exact hw'
    · simpa using hem.trans hem'

theorem not_mem_of_eventsOfTrack_eq_nil {t : Nat} {new : List DetectionEvent}
    (h : eventsOfTrack t new = []) : ∀ e ∈ new, e.trackId ≠ t := by
  intro e he
  simp only [eventsOfTrack, List.map_eq_nil_iff, List.filter_eq_nil_iff,
    decide_eq_true_eq] at h
  exact h e he

/-- The tracks of a frame in which track `t`, marked inside, is inside no region: one EXIT
event for it, with the region name of its state, and the state erased. -/
theorem foldlM_processTrack_exit {ppt : PointPolygonTest} {t : Nat}
    (tracks : List TrackInput) :
    ∀ (w : World) (s : TrackRegionState), GoodTracks ppt w t [] tracks →
      w.widget.trackRegionStates_.find t = some s → s.inRegion = true →
      (∃ ti ∈ tracks, ti.trackId = t) →
      ∃ w' new, tracks.foldlM (processTrack ppt) w = some w' ∧ frameCtx w' = frameCtx w ∧
        w'.eventManager.events_ = w.eventManager.events_ ++ new ∧
        eventsOfTrack t new = [(EventType.EXIT, w.widget.currentFrameNumber_)] ∧
        (∀ e ∈ new, e.trackId = t → e.regionName = s.regionName) ∧
        w'.widget.trackRegionStates_.find t = none := by
  induction tracks with
  | nil => intro w s _ _ _ hex; simp at hex
  | cons ti tl ih =>
    intro w s hg hf hin hex
    by_cases hti : ti.trackId = t
    · obtain ⟨h1, h2, h3⟩ := hg.2 ti (List.mem_cons_self _ _) hti
      obtain ⟨w1, e, hw1, hctx, hev, he1, he2, he3, he4, hst⟩ :=
        processTrack_outside h1 h2 h3 (by rw [hti]; exact hf) hin
      rw [hti] at hst he1
      obtain ⟨w', hw', ⟨hctx', new2, hev2, hout2⟩, hst'⟩ :=
        foldlM_processTrack_gone tl w1 (hg.tail hctx) hst
      refine ⟨w', e :: new2, ?_, hctx'.trans hctx, ?_, ?_, ?_, hst'⟩
      · rw [List.foldlM_cons, hw1]; exact hw'
      · rw [hev2, hev, List.append_assoc]; rfl
      · have : e :: new2 = [e] ++ new2 := rfl
        rw [this, eventsOfTrack_append, hout2, eventsOfTrack_singleton he1, he2, he3]
        rfl
      · intro e' he' ht'
        rcases List.mem_cons.1 he' with rfl | hmem
        · exact he4
        · exact absurd ht' (not_mem_of_eventsOfTrack_eq_nil hout2 e' hmem)
    · obtain ⟨w1, hw1⟩ := Option.isSome_iff_exists.1
        (processTrack_isSome ppt w (hg.1 ti (List.mem_cons_self _ _)))
      obtain ⟨⟨hctx, new1, hev1, hout1⟩, hst⟩ := processTrack_other hti hw1
      have hex' : ∃ tj ∈ tl, tj.trackId = t := by
        obtain ⟨tj, hmem, htj⟩ := hex
        rcases List.mem_cons.1 hmem with rfl | hmem'
        · exact absurd htj hti
        · exact ⟨tj, hmem', htj⟩
      obtain ⟨w', new2, hw', hctx', hev2, hout2, hname, hst'⟩ :=
        ih w1 s (hg.tail hctx) (hst.trans hf) hin hex'
      have hcur : w1.widget.currentFrameNumber_ = w.widget.currentFrameNumber_ :=
        congrArg (fun c => c.1) hctx
      refine ⟨w', new1 ++ new2, ?_, hctx'.trans hctx, ?_, ?_, ?_, hst'⟩
      · rw [List.foldlM_cons, hw1]; exact hw'
      · rw [hev2, hev1, List.append_assoc]
      · rw [eventsOfTrack_append, hout1, hout2, hcur]; rfl
      · intro e' he' ht'
        rcases List.mem_append.1 he' with hmem | hmem
        · exact absurd ht' (not_mem_of_eventsOfTrack_eq_nil hout1 e' hmem)
        · exact hname e' hmem ht'

/-- One `updateFrame` on a frame in which track `t`, marked inside, is inside no region. -/
theorem updateFrame_leaves {ppt : PointPolygonTest} {w : World} {t : Nat} {f : FrameInput}
    {s : TrackRegionState} (hf : w.widget.trackRegionStates_.find t = some s)
    (hin : s.inRegion = true) (hout : LeavesRegions ppt w.widget.regions_ t f) :
    ∃ w' new, updateFrame ppt w f = some w' ∧
      w'.eventManager.events_ = w.eventManager.events_ ++ new ∧
      eventsOfTrack t new = [(EventType.EXIT, w.widget.currentFrameNumber_ + 1)] ∧
      (∀ e ∈ new, e.trackId = t → e.regionName = s.regionName) ∧
      w'.widget.trackRegionStates_.find t = none := by
  obtain ⟨⟨h1, h2, h3⟩, hthrow, hex, hgood⟩ := hout
  have hcond : ¬ (f.readOk = false ∨ f.cols = 0 ∨ f.rows = 0) := by
    simp [h1, h2, h3]
  unfold updateFrame
  rw [if_neg hcond]
  dsimp only
  obtain ⟨w', new, hw', _, hev, hout', hname, hst⟩ :=
    foldlM_processTrack_exit f.tracks
      { w with widget := { w.widget with
          currentFrameCols := f.cols, currentFrameRows := f.rows
          currentFrameNumber_ := w.widget.currentFrameNumber_ + 1
          trackClassMap_ := f.trackClassMap } } s ⟨hthrow, hgood⟩ hf hin hex
  exact ⟨w', new, hw', hev, hout', hname, hst⟩

/-- The track state marks the track inside the region named `R`. -/
def MarkedIn (t : Nat) (R : StdString) (w : World) : Prop :=
  ∃ s, w.widget.trackRegionStates_.find t = some s ∧ s.inRegion = true ∧ s.regionName = R

theorem nextState_marked (cur p : Int) (R : StdString) (o : Option TrackRegionState)
    (h : o = none ∨ ∃ s, o = some s ∧ s.inRegion = true ∧ s.regionName = R) :
    (nextState cur p R o).1.inRegion = true ∧ (nextState cur p R o).1.regionName = R := by
  rcases h with rfl | ⟨s, rfl, h1, h2⟩
  · exact ⟨rfl, rfl⟩
  · unfold nextState
    dsimp only
    split_ifs
    · exact ⟨rfl, rfl⟩
    · exact ⟨h1, h2⟩
    · exact ⟨h1, h2⟩

/-- While track `t` stays inside the region named `R`, the run returns, the frame number
advances by one per frame, and the track is marked inside `R` from the first frame on. -/
theorem runFrames_inside_state {ppt : PointPolygonTest} {t : Nat} {R : StdString}
    (hR : R ≠ []) (frames : List FrameInput) :
    ∀ (w : World), 1 ≤ w.eventManager.periodicCaptureInterval_ →
      (w.widget.trackRegionStates_.find t = none ∨ MarkedIn t R w) →
      (∀ f ∈ frames, StaysInside ppt w.widget.regions_ t R f) →
      ∃ w', runFrames ppt w frames = some w' ∧
        w'.widget.currentFrameNumber_ = w.widget.currentFrameNumber_ + frames.length ∧
        w'.widget.regions_ = w.widget.regions_ ∧
        (MarkedIn t R w ∨ frames ≠ [] → MarkedIn t R w') := by
  induction frames with
  | nil =>
    intro w _ _ _
    refine ⟨w, rfl, by simp, rfl, ?_⟩
    rintro (h | h)
    · exact h
    · exact absurd rfl h
  | cons f fs ih =>
    intro w hp hinv hall
    obtain ⟨w1, _, hw1, hcur, hreg, hint1, _, _, hst1⟩ :=
      updateFrame_inside hR hp (hall f (List.mem_cons_self _ _))
    have hmark : MarkedIn t R w1 := by
      obtain ⟨h1, h2⟩ := nextState_marked (w.widget.currentFrameNumber_ + 1)
        w.eventManager.periodicCaptureInterval_ R (w.widget.trackRegionStates_.find t)
        (hinv.imp id fun ⟨s, hs⟩ => ⟨s, hs⟩)
      exact ⟨_, hst1, h1, h2⟩
    have hall1 : ∀ g ∈ fs, StaysInside ppt w1.widget.regions_ t R g := by
      intro g hg
      rw [hreg]
      exact hall g (List.mem_cons_of_mem _ hg)
    obtain ⟨w', hw', hcur', hreg', hm'⟩ := ih w1 (by rw [hint1]; exact hp) (Or.inr hmark) hall1
    refine ⟨w', ?_, ?_, hreg'.trans hreg, fun _ => hm' (Or.inl hmark)⟩
    · rw [runFrames_cons, hw1]; exact hw'
    · rw [hcur', hcur, List.length_cons]; push_cast; ring

/-- The events of a track that enters the region named `R` and stays: FIRST_ENTRY at the
first frame, then PERIODIC every `p` frames. -/
theorem runFrames_enter_stay {ppt : PointPolygonTest} {w : World} {t : Nat} {R : StdString}
    {p : Nat} (f : FrameInput) (fs : List FrameInput) (hp : 1 ≤ p)
    (hint : w.eventManager.periodicCaptureInterval_ = p)
    (hnew : w.widget.trackRegionStates_.find t = none) (hR : R ≠ [])
    (hin : ∀ g ∈ f :: fs, StaysInside ppt w.widget.regions_ t R g) :
    ∃ w' new, runFrames ppt w (f :: fs) = some w' ∧
      w'.eventManager.events_ = w.eventManager.events_ ++ new ∧
      eventsOfTrack t new =
        (EventType.FIRST_ENTRY, w.widget.currentFrameNumber_ + 1) ::
          (List.range (fs.length / p)).map (fun (k : Nat) =>
            (EventType.PERIODIC, w.widget.currentFrameNumber_ + 1 + ((k : Int) + 1) * p)) := by
  have hp' : 1 ≤ w.eventManager.periodicCaptureInterval_ := by
    rw [hint]; exact_mod_cast hp
  obtain ⟨w1, new1, hw1, hcur, hreg, hint1, hev1, hout1, hst1⟩ :=
    updateFrame_inside hR hp' (hin f (List.mem_cons_self _ _))
  rw [hnew] at hout1 hst1
  have hall1 : ∀ g ∈ fs, StaysInside ppt w1.widget.regions_ t R g := by
    intro g hg
    rw [hreg]
    exact hin g (List.mem_cons_of_mem _ hg)
  obtain ⟨w', new2, hw', hev2, hout2⟩ := runFrames_stay hR fs w1 0 _ (hint1.trans hint)
    (by omega) hst1 rfl (by simp only [nextState, hcur]; simp) hall1
  refine ⟨w', new1 ++ new2, ?_, ?_, ?_⟩
  · rw [runFrames_cons, hw1]; exact hw'
  · rw [hev2, hev1, List.append_assoc]
  · rw [eventsOfTrack_append, hout1, hout2, hcur]
    simp only [nextState, List.singleton_append, Nat.add_zero, Nat.cast_zero, sub_zero]

theorem runFrames_append (ppt : PointPolygonTest) (w : World) (fs gs : List FrameInput) :
    runFrames ppt w (fs ++ gs) = (runFrames ppt w fs).bind fun w1 => runFrames ppt w1 gs := by
  unfold runFrames
  rw [List.foldlM_append]
  rfl

theorem mem_eventsOfTrack {t : Nat} {new : List DetectionEvent} {e : DetectionEvent}
    (he : e ∈ new) (ht : e.trackId = t) :
    (e.eventType, e.frameNumber) ∈ eventsOfTrack t new := by
  simp only [eventsOfTrack, List.mem_map, List.mem_filter, decide_eq_true_eq]
  exact ⟨e, ⟨he, ht⟩, rfl⟩

/-- C11: with periodic interval `p ≥ 1`, a track with no prior state whose box is inside the
region named `R` on `n ≥ 1` successive frames and inside no region on the next frame (crop and
image save succeeding) makes `runFrames` return with exactly these events logged for it, in
this order: FIRST_ENTRY at the first frame `c + 1`, PERIODIC at the frames `c + 1 + k * p`
with `1 ≤ k ≤ (n - 1) / p`, and EXIT at the frame `c + n + 1`; every EXIT event of the track
carries the region name `R` stored at entry, and afterwards the track has no state entry. For
`n = 10`, `p = 30` and `c = 0` the events are exactly two, FIRST_ENTRY at frame 1 and EXIT at
frame 11. -/
theorem entry_then_exit_events (ppt : PointPolygonTest) (w : World) (t : Nat)
    (R : StdString) (p : Nat) (inside : List FrameInput) (last : FrameInput)
    (hp : 1 ≤ p) (hn : 1 ≤ inside.length)
    (hint : w.eventManager.getPeriodicCaptureInterval = p)
    (hnew : w.widget.trackRegionStates_.find t = none) (hR : R ≠ [])
    (hin : ∀ f ∈ inside, StaysInside ppt w.widget.regions_ t R f)
    (hout : LeavesRegions ppt w.widget.regions_ t last) :
    ∃ w' new, runFrames ppt w (inside ++ [last]) = some w' ∧
      w'.eventManager.events_ = w.eventManager.events_ ++ new ∧
      eventsOfTrack t new =
        (EventType.FIRST_ENTRY, w.widget.currentFrameNumber_ + 1) ::
          (List.range ((inside.length - 1) / p)).map (fun (k : Nat) =>
            (EventType.PERIODIC, w.widget.currentFrameNumber_ + 1 + ((k : Int) + 1) * p)) ++
          [(EventType.EXIT, w.widget.currentFrameNumber_ + inside.length + 1)] ∧
      (∀ e ∈ new, e.trackId = t → e.eventType = EventType.EXIT → e.regionName = R) ∧
      w'.widget.trackRegionStates_.find t = none ∧
      (inside.length = 10 ∧ p = 30 ∧ w.widget.currentFrameNumber_ = 0 →
        eventsOfTrack t new = [(EventType.FIRST_ENTRY, 1), (EventType.EXIT, 11)]) := by
  cases inside with
  | nil => simp at hn
  | cons f fs =>
    have hint' : w.eventManager.periodicCaptureInterval_ = p := hint
    have hp' : 1 ≤ w.eventManager.periodicCaptureInterval_ := by
      rw [hint']; exact_mod_cast hp
    obtain ⟨w1, new1, hw1, hev1, hout1⟩ := runFrames_enter_stay f fs hp hint' hnew hR hin
    obtain ⟨w1', hw1', hcur, hreg, hmark⟩ :=
      runFrames_inside_state hR (f :: fs) w hp' (Or.inl hnew) hin
    have hsame : w1' = w1 := Option.some.inj (hw1'.symm.trans hw1)
    rw [hsame] at hcur hreg hmark
    obtain ⟨s, hs, hsin, hsname⟩ := hmark (Or.inr (List.cons_ne_nil _ _))
    obtain ⟨w', new2, hw', hev2, hout2, hname, hst⟩ :=
      updateFrame_leaves hs hsin (by rw [hreg]; exact hout)
    have hlist : eventsOfTrack t (new1 ++ new2) =
        (EventType.FIRST_ENTRY, w.widget.currentFrameNumber_ + 1) ::
          (List.range (((f :: fs).length - 1) / p)).map (fun (k : Nat) =>
            (EventType.PERIODIC, w.widget.currentFrameNumber_ + 1 + ((k : Int) + 1) * p)) ++
          [(EventType.EXIT, w.widget.currentFrameNumber_ + (f :: fs).length + 1)] := by
      rw [eventsOfTrack_append, hout1, hout2, hcur]
      simp only [List.length_cons, Nat.add_sub_cancel, List.cons_append]
    refine ⟨w', new1 ++ new2, ?_, ?_, hlist, ?_, hst, ?_⟩
    · rw [runFrames_append, hw1]
      show runFrames ppt w1 [last] = some w'
      unfold runFrames
      rw [List.foldlM_cons, hw']
      rfl
    · rw [hev2, hev1, List.append_assoc]
    · intro e he ht hty
      rcases List.mem_append.1 he with hmem | hmem
      · have hmem' := mem_eventsOfTrack hmem ht
        rw [hout1, hty] at hmem'
        simp at hmem'
      · rw [hname e hmem ht, hsname]
    · rintro ⟨h10, h30, h0⟩
      rw [hlist, h10, h30, h0]
      decide

/-- Witness of C11: ten frames of the scene with track 5 in "Door", then a frame with the
track outside, interval 30: FIRST_ENTRY at frame 1 and EXIT at frame 11, and no state left. -/
theorem entry_then_exit_events_witness :
    ∃ w' new, runFrames sceneTest sceneWorld
        (List.replicate 10 (frameWith 5 ⟨20, 20, 40, 40⟩) ++
          [frameWith 5 ⟨300, 100, 50, 80⟩]) = some w' ∧
      w'.eventManager.events_ = sceneWorld.eventManager.events_ ++ new ∧
      eventsOfTrack 5 new = [(EventType.FIRST_ENTRY, 1), (EventType.EXIT, 11)] ∧
      (∀ e ∈ new, e.trackId = 5 → e.eventType = EventType.EXIT →
        e.regionName = "Door".toList) ∧
      w'.widget.trackRegionStates_.find 5 = none :=
  have h := entry_then_exit_events sceneTest sceneWorld 5 "Door".toList 30
    (List.replicate 10 (frameWith 5 ⟨20, 20, 40, 40⟩)) (frameWith 5 ⟨300, 100, 50, 80⟩)
    (by decide) (by decide) (by decide) (by decide) (by decide)
    (fun f hf => by rw [List.eq_of_mem_replicate hf]; decide) (by decide)
  match h with
  | ⟨w', new, h1, h2, _, h4, h5, h6⟩ => ⟨w', new, h1, h2, h6 ⟨by decide, rfl, rfl⟩, h4, h5⟩

end CameraWidget

/-! ## The class matching -/

namespace CameraWidget

/-- What the inner loop holds after the detections `seen`: nothing yet when none of them
exceeds the threshold, else the IoU and the class of one that exceeds it and is maximal. -/
def BestOf {F : Type} [LinearOrder F] (ops : FloatOps F) (track_box : Rect)
    (seen : List Detection) (best : F × Int) : Prop :=
  (best = (ops.zero, -1) ∧ ∀ d ∈ seen, ¬ calcIoU ops track_box d.box > ops.threshold) ∨
  ∃ d ∈ seen, best = (calcIoU ops track_box d.box, d.class_id) ∧
    calcIoU ops track_box d.box > ops.threshold ∧
    ∀ d' ∈ seen, calcIoU ops track_box d'.box ≤ calcIoU ops track_box d.box

theorem bestOf_foldl {F : Type} [LinearOrder F] (ops : FloatOps F) (track_box : Rect)
    (dets : List Detection) :
    ∀ (seen : List Detection) (best : F × Int), BestOf ops track_box seen best →
      BestOf ops track_box (seen ++ dets) (dets.foldl (fun (best : F × Int) det =>
        let iou := calcIoU ops track_box det.box
        if iou > best.1 ∧ iou > ops.threshold then (iou, det.class_id) else best) best) := by
  induction dets with
  | nil => intro seen best h; simpa using h
  | cons d tl ih =>
    intro seen best h
    rw [List.foldl_cons]
    have hstep : BestOf ops track_box (seen ++ [d])
        (if calcIoU ops track_box d.box > best.1 ∧ calcIoU ops track_box d.box > ops.threshold
          then (calcIoU ops track_box d.box, d.class_id) else best) := by
      split_ifs with hc
      · refine Or.inr ⟨d, by simp, rfl, hc.2, ?_⟩
        intro d' hd'
        rcases List.mem_append.1 hd' with hmem | hmem
        · rcases h with ⟨_, hnone⟩ | ⟨d0, _, hb, _, hmax⟩
          · exact le_of_lt (lt_of_le_of_lt (not_lt.1 (hnone d' hmem)) hc.2)
          · rw [hb] at hc
            exact le_of_lt (lt_of_le_of_lt (hmax d' hmem) hc.1)
        · rw [List.mem_singleton.1 hmem]
      · rcases h with ⟨hb, hnone⟩ | ⟨d0, hd0, hb, hgt, hmax⟩
        · refine Or.inl ⟨hb, ?_⟩
          intro d' hd'
          rcases List.mem_append.1 hd' with hmem | hmem
          · exact hnone d' hmem
          · rw [List.mem_singleton.1 hmem]
            intro hgt
            apply hc
            rw [hb]
            exact ⟨lt_of_le_of_lt ops.zero_le_threshold hgt, hgt⟩
        · refine Or.inr ⟨d0, by simp [hd0], hb, hgt, ?_⟩
          intro d' hd'
          rcases List.mem_append.1 hd' with hmem | hmem
          · exact hmax d' hmem
          · rw [List.mem_singleton.1 hmem]
            by_contra hlt
            apply hc
            rw [hb]
            exact ⟨not_le.1 hlt, lt_trans hgt (not_le.1 hlt)⟩
    have := ih (seen ++ [d]) _ hstep
    simpa using this

/-- The inner loop finds the first detection of maximal IoU above the threshold, if any. -/
theorem bestMatch_bestOf {F : Type} [LinearOrder F] (ops : FloatOps F) (track_box : Rect)
    (dets : List Detection) : BestOf ops track_box dets (bestMatch ops track_box dets) := by
  have h := bestOf_foldl ops track_box dets [] (ops.zero, -1) (Or.inl ⟨rfl, by simp⟩)
  simpa using h

/-- The matching of other tracks leaves the entry of a track id alone. -/
theorem matchClasses_find_of_not_mem {F : Type} [LinearOrder F] (ops : FloatOps F)
    (dets : List Detection) (tracks : List TrackInput) :
    ∀ (m : StdMap Nat Int) (t : Nat), t ∉ tracks.map (fun tr => tr.trackId) →
      (matchClasses ops tracks dets m).find t = m.find t := by
  induction tracks with
  | nil => intro m t _; rfl
  | cons tr tl ih =>
    intro m t ht
    simp only [List.map_cons, List.mem_cons, not_or] at ht
    unfold matchClasses
    rw [List.foldl_cons]
    have h := ih (matchTrack ops dets m tr) t ht.2
    unfold matchClasses at h
    rw [h]
    unfold matchTrack
    dsimp only
    split_ifs
    · exact StdMap.find_insert_of_ne _ ht.1 _
    · rfl

/-- With the track ids reported once each, the entry of a reported track after the matching
is the entry after its own turn of the loop. -/
theorem matchClasses_find_of_mem {F : Type} [LinearOrder F] (ops : FloatOps F)
    (dets : List Detection) (tracks : List TrackInput) :
    ∀ (m : StdMap Nat Int), (tracks.map fun tr => tr.trackId).Nodup → ∀ tr ∈ tracks,
      (matchClasses ops tracks dets m).find tr.trackId
        = (matchTrack ops dets m tr).find tr.trackId := by
  induction tracks with
  | nil => intro m _ tr htr; simp at htr
  | cons tr0 tl ih =>
    intro m hnd tr htr
    simp only [List.map_cons, List.nodup_cons] at hnd
    have hfold : matchClasses ops (tr0 :: tl) dets m
        = matchClasses ops tl dets (matchTrack ops dets m tr0) := rfl
    rw [hfold]
    rcases List.mem_cons.1 htr with rfl | hmem
    · exact matchClasses_find_of_not_mem ops dets tl _ _ hnd.1
    · rw [ih _ hnd.2 tr hmem]
      have hne : tr.trackId ≠ tr0.trackId := by
        intro heq
        apply hnd.1
        rw [← heq]
        exact List.mem_map_of_mem (fun tr => tr.trackId) hmem
      unfold matchTrack
      dsimp only
      have hother : ∀ (c : Int), (m.insert tr0.trackId c).find tr.trackId = m.find tr.trackId :=
        fun c => StdMap.find_insert_of_ne _ hne _
      split_ifs <;> simp only [StdMap.find_insert_self, hother]

/-- C19: the tracker reports every track id once and the class ids of the detections are not
negative. Then for every reported track: if some detection has an IoU with the track box, as
`calcIoU` computes it, above the threshold 0.3, the class map after the matching holds for the
track the class of a detection whose IoU is above the threshold and maximal among all
detections; if no detection is above the threshold, the entry of the track is what it was
before the matching, absent when it was absent. -/
theorem class_matching {F : Type} [LinearOrder F] (ops : FloatOps F)
    (tracks : List TrackInput) (dets : List Detection) (m : StdMap Nat Int)
    (hids : (tracks.map fun tr => tr.trackId).Nodup) (hcls : ∀ d ∈ dets, 0 ≤ d.class_id)
    (tr : TrackInput) (htr : tr ∈ tracks) :
    ((∃ d ∈ dets, calcIoU ops tr.box d.box > ops.threshold) →
      ∃ d ∈ dets, (matchClasses ops tracks dets m).find tr.trackId = some d.class_id ∧
        calcIoU ops tr.box d.box > ops.threshold ∧
        ∀ d' ∈ dets, calcIoU ops tr.box d'.box ≤ calcIoU ops tr.box d.box) ∧
    ((∀ d ∈ dets, ¬ calcIoU ops tr.box d.box > ops.threshold) →
      (matchClasses ops tracks dets m).find tr.trackId = m.find tr.trackId) := by
  rw [matchClasses_find_of_mem ops dets tracks m hids tr htr]
  unfold matchTrack
  dsimp only
  rcases bestMatch_bestOf ops tr.box dets with ⟨hb, hnone⟩ | ⟨d, hd, hb, hgt, hmax⟩
  · rw [hb]
    refine ⟨fun ⟨d, hd, hgt⟩ => absurd hgt (hnone d hd), fun _ => ?_⟩
    rw [if_neg (show ¬ ((-1 : Int) ≥ 0) by decide)]
  · rw [hb]
    refine ⟨fun _ => ⟨d, hd, ?_, hgt, hmax⟩, fun hnone => absurd hgt (hnone d hd)⟩
    rw [if_pos (hcls d hd)]
    exact StdMap.find_insert_self _ _ _

/-- Witness of C19: track 7 with the box `(0, 0, 10, 10)`, a detection of class 1 with IoU
0.5 and a detection of class 2 with IoU 0.2; the track is mapped to class 1. -/
theorem class_matching_witness :
    (∃ d ∈ [(⟨1, 9 / 10, ⟨0, 0, 10, 20⟩⟩ : Detection), ⟨2, 8 / 10, ⟨0, 0, 10, 50⟩⟩],
      (matchClasses milliOps [⟨7, ⟨0, 0, 10, 10⟩, sceneEnv⟩]
          [⟨1, 9 / 10, ⟨0, 0, 10, 20⟩⟩, ⟨2, 8 / 10, ⟨0, 0, 10, 50⟩⟩] StdMap.empty).find 7
        = some d.class_id ∧
      calcIoU milliOps ⟨0, 0, 10, 10⟩ d.box > milliOps.threshold ∧
      ∀ d' ∈ [(⟨1, 9 / 10, ⟨0, 0, 10, 20⟩⟩ : Detection), ⟨2, 8 / 10, ⟨0, 0, 10, 50⟩⟩],
        calcIoU milliOps ⟨0, 0, 10, 10⟩ d'.box ≤ calcIoU milliOps ⟨0, 0, 10, 10⟩ d.box) ∧
    calcIoU milliOps ⟨0, 0, 10, 10⟩ ⟨0, 0, 10, 20⟩ = 500 ∧
    calcIoU milliOps ⟨0, 0, 10, 10⟩ ⟨0, 0, 10, 50⟩ = 200 ∧
    (matchClasses milliOps [⟨7, ⟨0, 0, 10, 10⟩, sceneEnv⟩]
      [⟨1, 9 / 10, ⟨0, 0, 10, 20⟩⟩, ⟨2, 8 / 10, ⟨0, 0, 10, 50⟩⟩] StdMap.empty).find 7
        = some 1 :=
  ⟨(class_matching milliOps [⟨7, ⟨0, 0, 10, 10⟩, sceneEnv⟩]
      [⟨1, 9 / 10, ⟨0, 0, 10, 20⟩⟩, ⟨2, 8 / 10, ⟨0, 0, 10, 50⟩⟩] StdMap.empty
      (by decide) (by decide) ⟨7, ⟨0, 0, 10, 10⟩, sceneEnv⟩ (List.mem_singleton.2 rfl)).1
      ⟨⟨1, 9 / 10, ⟨0, 0, 10, 20⟩⟩, List.mem_cons_self _ _, by decide⟩,
    by decide, by decide, by decide⟩

end CameraWidget

/-! ## The retries of the Telegram bot -/

namespace TelegramBot

/-- Claim C18 at the default retry count 2: a photo is sent and every delivery attempt fails.
The bot posts the photo twice, the initial attempt and one retry with the same image bytes and
caption, then reports `sendFailed` once and has no request pending; the claim has two
retries, three posts. -/
theorem one_retry_at_retry_count_two :
    ((configured true 2).sendPhoto false [255, 216, 255] "Door".toList).posted
      = [⟨[255, 216, 255], "Door".toList⟩] ∧
    (failEveryAttempt "timeout".toList 10
      ((configured true 2).sendPhoto false [255, 216, 255] "Door".toList)).posted
      = [⟨[255, 216, 255], "Door".toList⟩, ⟨[255, 216, 255], "Door".toList⟩] ∧
    (failEveryAttempt "timeout".toList 10
      ((configured true 2).sendPhoto false [255, 216, 255] "Door".toList)).signals
      = [.sendFailed "Door".toList "timeout".toList] ∧
    (failEveryAttempt "timeout".toList 10
      ((configured true 2).sendPhoto false [255, 216, 255] "Door".toList)).pendingRequests_.keys
      = [] := by
  decide

end TelegramBot

/-! ## Regions without area, failed loads, time ranges -/

namespace Region

/-- C21: a region whose point list has fewer than 3 points contains no point and no
rectangle, whatever the polygon test would answer. -/
theorem containsPoint_of_few_points (ppt : PointPolygonTest) (r : Region)
    (h : r.points_.length < 3) :
    (∀ p : Point, containsPoint ppt r p = false) ∧
    (∀ rect : Rect, containsRect ppt r rect = false) := by
  have hp : ∀ p : Point, containsPoint ppt r p = false := by
    intro p
    unfold containsPoint
    rw [if_pos h]
  exact ⟨hp, fun rect => hp _⟩

/-- Witness of C21: a region of two points under a polygon test that takes every point as
inside. -/
theorem containsPoint_of_few_points_witness :
    containsPoint (fun _ _ => 1) ⟨"Line".toList, [⟨0, 0⟩, ⟨10, 10⟩]⟩ ⟨5, 5⟩ = false ∧
    containsRect (fun _ _ => 1) ⟨"Line".toList, [⟨0, 0⟩, ⟨10, 10⟩]⟩ ⟨0, 0, 10, 10⟩ = false :=
  have h := containsPoint_of_few_points (fun _ _ => 1)
    ⟨"Line".toList, [⟨0, 0⟩, ⟨10, 10⟩]⟩ (by decide)
  ⟨h.1 ⟨5, 5⟩, h.2 ⟨0, 0, 10, 10⟩⟩

end Region

namespace RegionCountManager

/-- C27: `loadFromJson` returns false exactly when the file does not exist, cannot be opened,
or its content is not a JSON object, and then the store, hence `getAllRegionData`, is what it
was before the call. -/
theorem loadFromJson_false_keeps (m : RegionCountManager) (file : JsonFile) :
    ((loadFromJson m file).1 = false ↔
      (file = .missing ∨ file = .unreadable ∨
        ∃ doc, file = .readable doc ∧ doc.isObject = false)) ∧
    ((loadFromJson m file).1 = false →
      (loadFromJson m file).2 = m ∧
      getAllRegionData (loadFromJson m file).2 = getAllRegionData m) := by
  cases file with
  | missing => exact ⟨⟨fun _ => Or.inl rfl, fun _ => rfl⟩, fun _ => ⟨rfl, rfl⟩⟩
  | unreadable => exact ⟨⟨fun _ => Or.inr (Or.inl rfl), fun _ => rfl⟩, fun _ => ⟨rfl, rfl⟩⟩
  | readable doc =>
    cases doc with
    | null =>
      exact ⟨⟨fun _ => Or.inr (Or.inr ⟨_, rfl, rfl⟩), fun _ => rfl⟩, fun _ => ⟨rfl, rfl⟩⟩
    | array items =>
      exact ⟨⟨fun _ => Or.inr (Or.inr ⟨_, rfl, rfl⟩), fun _ => rfl⟩, fun _ => ⟨rfl, rfl⟩⟩
    | object root =>
      refine ⟨⟨fun h => ?_, fun h => ?_⟩, fun h => ?_⟩
      · exact absurd h (by simp [loadFromJson])
      · rcases h with h | h | ⟨doc, hdoc, hobj⟩
        · cases h
        · cases h
        · cases hdoc
          exact absurd hobj (by simp [QJsonDocument.isObject])
      · exact absurd h (by simp [loadFromJson])

end RegionCountManager

namespace EventManager

theorem foldl_push_eq_filter (p : DetectionEvent → Prop) [DecidablePred p]
    (events : List DetectionEvent) :
    ∀ acc : List DetectionEvent,
      events.foldl (fun filtered event => if p event then filtered ++ [event] else filtered) acc
        = acc ++ events.filter (fun event => decide (p event)) := by
  induction events with
  | nil => intro acc; simp
  | cons e tl ih =>
    intro acc
    rw [List.foldl_cons, ih]
    by_cases h : p e
    · simp [h]
    · simp [h]

/-- C23: `getEventsByTimeRange start end` returns exactly the logged events whose timestamp
lies between `start` and `end`, both bounds included, in the order of the log, each as often
as the log holds it; an event stamped `start` or `end` is returned when `start ≤ end`; the
log is the same after the call. -/
theorem getEventsByTimeRange_spec (m : EventManager) (start end_ : Int) :
    getEventsByTimeRange m start end_
      = m.events_.filter (fun e => decide (start ≤ e.timestamp ∧ e.timestamp ≤ end_)) ∧
    (getEventsByTimeRange m start end_).Sublist m.getAllEvents ∧
    (∀ e, e ∈ getEventsByTimeRange m start end_ ↔
      e ∈ m.getAllEvents ∧ start ≤ e.timestamp ∧ e.timestamp ≤ end_) ∧
    (∀ e ∈ m.getAllEvents, start ≤ end_ → (e.timestamp = start ∨ e.timestamp = end_) →
      e ∈ getEventsByTimeRange m start end_) ∧
    (∀ e, (m.addEvent e).getEventsByTimeRange start end_
      = getEventsByTimeRange m start end_ ++
          (if start ≤ e.timestamp ∧ e.timestamp ≤ end_ then [e] else [])) ∧
    (afterQuery m (Query.getEventsByTimeRange start end_)).getAllEvents = m.getAllEvents := by
  have hfilter : ∀ m : EventManager, getEventsByTimeRange m start end_
      = m.events_.filter (fun e => decide (start ≤ e.timestamp ∧ e.timestamp ≤ end_)) := by
    intro m
    unfold getEventsByTimeRange
    have h := foldl_push_eq_filter
      (fun e : DetectionEvent => e.timestamp ≥ start ∧ e.timestamp ≤ end_) m.events_ []
    simpa using h
  have hmem : ∀ e, e ∈ getEventsByTimeRange m start end_ ↔
      e ∈ m.getAllEvents ∧ start ≤ e.timestamp ∧ e.timestamp ≤ end_ := by
    intro e
    rw [hfilter]
    simp [getAllEvents]
  refine ⟨hfilter m, ?_, hmem, ?_, ?_, rfl⟩
  · rw [hfilter]
    exact List.filter_sublist _
  · intro e he hle hor
    rw [hmem]
    refine ⟨he, ?_⟩
    rcases hor with h | h <;> omega
  · intro e
    rw [hfilter, hfilter]
    simp only [addEvent, List.filter_append]
    by_cases h : start ≤ e.timestamp ∧ e.timestamp ≤ end_
    · simp [h]
    · simp [h]

end EventManager

/-! ## Tracks that are not reported -/

namespace CameraWidget

/-- The tracks of a frame, none of which is track `t`, leave its state and log nothing for
it. -/
theorem foldlM_processTrack_unreported {ppt : PointPolygonTest} {t : Nat}
    (tracks : List TrackInput) :
    ∀ (w w' : World), (∀ ti ∈ tracks, ti.trackId ≠ t) →
      tracks.foldlM (processTrack ppt) w = some w' →
      Emits t w w' [] ∧
      w'.widget.trackRegionStates_.find t = w.widget.trackRegionStates_.find t := by
  induction tracks with
  | nil =>
    intro w w' _ h
    cases h
    exact ⟨Emits.refl t w, rfl⟩
  | cons ti tl ih =>
    intro w w' hne h
    rw [List.foldlM_cons] at h
    obtain ⟨w1, hw1, hrest⟩ := Option.bind_eq_some.1 h
    obtain ⟨hem, hst⟩ := processTrack_other (hne ti (List.mem_cons_self _ _)) hw1
    obtain ⟨hem', hst'⟩ := ih w1 w' (fun tj htj => hne tj (List.mem_cons_of_mem _ htj)) hrest
    exact ⟨by simpa using hem.trans hem', hst'.trans hst⟩

/-- One frame that does not report track `t`. -/
theorem updateFrame_unreported {ppt : PointPolygonTest} {t : Nat} {w w' : World}
    {f : FrameInput} (hne : ∀ ti ∈ f.tracks, ti.trackId ≠ t)
    (h : updateFrame ppt w f = some w') :
    (∃ new, w'.eventManager.events_ = w.eventManager.events_ ++ new ∧
      ∀ e ∈ new, e.trackId ≠ t) ∧
    w'.widget.trackRegionStates_.find t = w.widget.trackRegionStates_.find t := by
  unfold updateFrame at h
  split_ifs at h with hskip
  · cases h
    exact ⟨⟨[], by simp, by simp⟩, rfl⟩
  · obtain ⟨⟨_, new, hev, hout⟩, hst⟩ := foldlM_processTrack_unreported f.tracks _ w' hne h
    exact ⟨⟨new, hev, not_mem_of_eventsOfTrack_eq_nil hout⟩, hst⟩

/-- C26: over every run of processed frames none of which reports track `t` (one frame, or
any number after the track stopped being reported), the `TrackRegionState` entry of `t` is
left as it was, present or absent, and no event, hence no EXIT, is logged for `t`; a track
marked inside a region stays marked. -/
theorem unreported_track_keeps_state (ppt : PointPolygonTest) (t : Nat)
    (frames : List FrameInput) (w w' : World)
    (hne : ∀ f ∈ frames, ∀ ti ∈ f.tracks, ti.trackId ≠ t)
    (h : runFrames ppt w frames = some w') :
    w'.widget.trackRegionStates_.find t = w.widget.trackRegionStates_.find t ∧
    (∃ new, w'.eventManager.events_ = w.eventManager.events_ ++ new ∧
      (∀ e ∈ new, e.trackId ≠ t) ∧ kindsOfTrack t new = []) ∧
    (markedInside (w.widget.trackRegionStates_.find t) = true →
      markedInside (w'.widget.trackRegionStates_.find t) = true) := by
  have key : ∀ (frames : List FrameInput) (w w' : World),
      (∀ f ∈ frames, ∀ ti ∈ f.tracks, ti.trackId ≠ t) →
      runFrames ppt w frames = some w' →
      w'.widget.trackRegionStates_.find t = w.widget.trackRegionStates_.find t ∧
      ∃ new, w'.eventManager.events_ = w.eventManager.events_ ++ new ∧
        ∀ e ∈ new, e.trackId ≠ t := by
    intro frames
    induction frames with
    | nil =>
      intro w w' _ h
      cases h
      exact ⟨rfl, [], by simp, by simp⟩
    | cons f fs ih =>
      intro w w' hne h
      rw [runFrames_cons] at h
      obtain ⟨w1, hw1, hrest⟩ := Option.bind_eq_some.1 h
      obtain ⟨⟨new1, hev1, hno1⟩, hst1⟩ :=
        updateFrame_unreported (hne f (List.mem_cons_self _ _)) hw1
      obtain ⟨hst2, new2, hev2, hno2⟩ :=
        ih w1 w' (fun g hg => hne g (List.mem_cons_of_mem _ hg)) hrest
      refine ⟨hst2.trans hst1, new1 ++ new2, by rw [hev2, hev1, List.append_assoc], ?_⟩
      intro e he
      rcases List.mem_append.1 he with hmem | hmem
      · exact hno1 e hmem
      · exact hno2 e hmem
  obtain ⟨hst, new, hev, hno⟩ := key frames w w' hne h
  refine ⟨hst, ⟨new, hev, hno, ?_⟩, fun hm => by rw [hst]; exact hm⟩
  simp only [kindsOfTrack, List.map_eq_nil_iff, List.filter_eq_nil_iff, decide_eq_true_eq]
  exact hno

/-- Witness of C26: in the scene, track 5 enters "Door" and then three frames report only
track 9; track 5 keeps its state of frame 1 and its log stays at the FIRST_ENTRY. -/
theorem unreported_track_keeps_state_witness :
    ∃ w1 w', runFrames sceneTest sceneWorld [frameWith 5 ⟨20, 20, 40, 40⟩] = some w1 ∧
      runFrames sceneTest w1 (List.replicate 3 (frameWith 9 ⟨300, 100, 50, 80⟩)) = some w' ∧
      w'.widget.trackRegionStates_.find 5 = w1.widget.trackRegionStates_.find 5 ∧
      markedInside (w'.widget.trackRegionStates_.find 5) = true :=
  (Option.isSome_iff_exists.1 (by decide : (runFrames sceneTest sceneWorld
      [frameWith 5 ⟨20, 20, 40, 40⟩]).isSome = true)).elim fun w1 h1 =>
    (Option.isSome_iff_exists.1 (by
      have hrun : ((runFrames sceneTest sceneWorld [frameWith 5 ⟨20, 20, 40, 40⟩]).bind
          fun w => runFrames sceneTest w
            (List.replicate 3 (frameWith 9 ⟨300, 100, 50, 80⟩))).isSome = true := by decide
      rw [h1] at hrun
      exact hrun : (runFrames sceneTest w1
        (List.replicate 3 (frameWith 9 ⟨300, 100, 50, 80⟩))).isSome = true)).elim
      fun w' h2 =>
        have hm : markedInside (w1.widget.trackRegionStates_.find 5) = true := by
          have hd : ((runFrames sceneTest sceneWorld [frameWith 5 ⟨20, 20, 40, 40⟩]).map
              fun w => markedInside (w.widget.trackRegionStates_.find 5)) = some true := by
            decide
          rw [h1] at hd
          exact Option.some.inj hd
        have h := unreported_track_keeps_state sceneTest 5
          (List.replicate 3 (frameWith 9 ⟨300, 100, 50, 80⟩)) w1 w'
          (fun f hf ti hti => by
            rw [List.eq_of_mem_replicate hf] at hti
            rw [List.mem_singleton.1 hti]
            decide) h2
        ⟨w1, w', h1, h2, h.1, h.2.2 hm⟩

end CameraWidget

/-! ## The padded crop rectangle -/

namespace CameraWidget

/-- Claim C29, as worded, fails where the `int` sum of the guard overflows: in a 640 x 480
frame the box `(2147483647, 10, 1, 10)` has non-negative width and height and passes the guard
of `captureEvent`, because `x + width` wraps to a negative number; its padded rectangle is
`(2147483632, 0, -2147482992, 40)`, of negative width and outside the frame, and the
sub-image access throws. -/
theorem paddedBox_outside_frame_on_overflow :
    cropGuard 640 480 ⟨2147483647, 10, 1, 10⟩ = true ∧
    paddedBox 640 480 ⟨2147483647, 10, 1, 10⟩ = ⟨2147483632, 0, -2147482992, 40⟩ ∧
    roiValid 640 480 (paddedBox 640 480 ⟨2147483647, 10, 1, 10⟩) = false ∧
    crop 640 480 ⟨2147483647, 10, 1, 10⟩ = .throws := by
  decide

/-- C29, amended: in a non-empty frame of size `cols x rows`, for a box of non-negative width
and height whose `int` arithmetic in the guard and the padding is without overflow and that
passes the guard of `captureEvent`, the padded crop rectangle starts at non-negative
coordinates, is at least one pixel wide and high, ends within the frame and contains the box;
it passes the check of the sub-image access, so the crop gives the image of that rectangle and
does not throw. -/
theorem paddedBox_in_frame (cols rows : Int) (bbox : Rect) (hw : 0 ≤ bbox.width)
    (hh : 0 ≤ bbox.height) (hno : NoCropOverflow cols rows bbox)
    (hg : cropGuard cols rows bbox = true) :
    (0 ≤ (paddedBox cols rows bbox).x ∧ 0 ≤ (paddedBox cols rows bbox).y ∧
      1 ≤ (paddedBox cols rows bbox).width ∧ 1 ≤ (paddedBox cols rows bbox).height ∧
      (paddedBox cols rows bbox).x + (paddedBox cols rows bbox).width ≤ cols ∧
      (paddedBox cols rows bbox).y + (paddedBox cols rows bbox).height ≤ rows) ∧
    ((paddedBox cols rows bbox).x ≤ bbox.x ∧ (paddedBox cols rows bbox).y ≤ bbox.y ∧
      bbox.x + bbox.width ≤ (paddedBox cols rows bbox).x + (paddedBox cols rows bbox).width ∧
      bbox.y + bbox.height
        ≤ (paddedBox cols rows bbox).y + (paddedBox cols rows bbox).height) ∧
    roiValid cols rows (paddedBox cols rows bbox) = true ∧
    crop cols rows bbox = .image (paddedBox cols rows bbox) ∧
    (0 < cols ∧ 0 < rows ∧ 0 ≤ bbox.x ∧ 0 ≤ bbox.y ∧ bbox.x + bbox.width ≤ cols ∧
      bbox.y + bbox.height ≤ rows) := by
  obtain ⟨h0, hx, hy, hxw, hyh⟩ := (cropGuard_iff_of_noCropOverflow hno).1 hg
  obtain ⟨hc, hvalid, _, _⟩ := crop_of_cropGuard hno hw hh hg
  have hpad := paddedBox_of_noCropOverflow hno hw hh hg
  refine ⟨?_, ?_, hvalid, hc, ?_⟩
  · rw [hpad]
    simp only
    omega
  · rw [hpad]
    simp only
    omega
  · omega

/-- Witness of C29 amended: the box `(5, 470, 30, 10)` at the lower left corner of a 640 x 480
frame is padded to `(0, 455, 60, 25)`. -/
theorem paddedBox_in_frame_witness :
    paddedBox 640 480 ⟨5, 470, 30, 10⟩ = ⟨0, 455, 60, 25⟩ ∧
    roiValid 640 480 (paddedBox 640 480 ⟨5, 470, 30, 10⟩) = true ∧
    crop 640 480 ⟨5, 470, 30, 10⟩ = .image (paddedBox 640 480 ⟨5, 470, 30, 10⟩) :=
  have h := paddedBox_in_frame 640 480 ⟨5, 470, 30, 10⟩ (by decide) (by decide) (by decide)
    (by decide)
  ⟨by decide, h.2.2.1, h.2.2.2.1⟩

end CameraWidget

/-! ## The invariant of the track states -/

namespace CameraWidget

end CameraWidget

/-! ## The point-in-polygon test and the saved image -/

namespace Region

theorem answersAsDocumented_documentedTest (points : List Point) (p : Point) :
    AnswersAsDocumented documentedTest points p := by
  unfold AnswersAsDocumented documentedTest StrictlyInside StrictlyOutside
  by_cases hb : OnBoundary points p
  · simp [hb]
  · by_cases hodd : crossings points p % 2 = 1
    · simp [hb, hodd]
    · have heven : crossings points p % 2 = 0 := by omega
      simp [hb, heven]

/-- C22: for a region with at least 3 points and a point for which `cv::pointPolygonTest`
answers as documented (positive inside, zero on the boundary, negative outside),
`containsPoint` is true exactly when the point is strictly inside the polygon or on its
boundary, an edge or a vertex, and false when it is strictly outside. -/
theorem containsPoint_iff_inside_or_boundary (ppt : PointPolygonTest) (r : Region)
    (p : Point) (h3 : 3 ≤ r.points_.length) (hdoc : AnswersAsDocumented ppt r.points_ p) :
    (containsPoint ppt r p = true ↔ StrictlyInside r.points_ p ∨ OnBoundary r.points_ p) ∧
    (StrictlyOutside r.points_ p → containsPoint ppt r p = false) := by
  obtain ⟨hin, hon, hout⟩ := hdoc
  have hlen : ¬ r.points_.length < 3 := by omega
  have hval : containsPoint ppt r p = decide (ppt r.points_ p ≥ 0) := by
    unfold containsPoint
    rw [if_neg hlen]
  constructor
  · rw [hval, decide_eq_true_iff, ← hin, ← hon]
    omega
  · intro ho
    rw [hval, decide_eq_false_iff_not]
    have := hout.2 ho
    omega

/-- Witness of C22: the triangle (0, 0), (10, 0), (0, 10) contains the inner point (2, 2),
the vertex (10, 0) and the edge point (5, 5), and not the outer point (8, 8). -/
theorem containsPoint_iff_inside_or_boundary_witness :
    containsPoint documentedTest ⟨"T".toList, [⟨0, 0⟩, ⟨10, 0⟩, ⟨0, 10⟩]⟩ ⟨2, 2⟩ = true ∧
    containsPoint documentedTest ⟨"T".toList, [⟨0, 0⟩, ⟨10, 0⟩, ⟨0, 10⟩]⟩ ⟨10, 0⟩ = true ∧
    containsPoint documentedTest ⟨"T".toList, [⟨0, 0⟩, ⟨10, 0⟩, ⟨0, 10⟩]⟩ ⟨5, 5⟩ = true ∧
    containsPoint documentedTest ⟨"T".toList, [⟨0, 0⟩, ⟨10, 0⟩, ⟨0, 10⟩]⟩ ⟨8, 8⟩ = false :=
  ⟨(containsPoint_iff_inside_or_boundary documentedTest
      ⟨"T".toList, [⟨0, 0⟩, ⟨10, 0⟩, ⟨0, 10⟩]⟩ ⟨2, 2⟩ (by decide)
      (answersAsDocumented_documentedTest _ _)).1.2 (Or.inl (by decide)),
    (containsPoint_iff_inside_or_boundary documentedTest
      ⟨"T".toList, [⟨0, 0⟩, ⟨10, 0⟩, ⟨0, 10⟩]⟩ ⟨10, 0⟩ (by decide)
      (answersAsDocumented_documentedTest _ _)).1.2 (Or.inr (by decide)),
    (containsPoint_iff_inside_or_boundary documentedTest
      ⟨"T".toList, [⟨0, 0⟩, ⟨10, 0⟩, ⟨0, 10⟩]⟩ ⟨5, 5⟩ (by decide)
      (answersAsDocumented_documentedTest _ _)).1.2 (Or.inr (by decide)),
    (containsPoint_iff_inside_or_boundary documentedTest
      ⟨"T".toList, [⟨0, 0⟩, ⟨10, 0⟩, ⟨0, 10⟩]⟩ ⟨8, 8⟩ (by decide)
      (answersAsDocumented_documentedTest _ _)).2 (by decide)⟩

end Region

namespace EventManager

/-- Claim C24 where `cv::imwrite` fails without throwing: for an image that is not empty and a
body that does not throw, `saveEventImage` returns the path it built, which is not empty,
although `cv::imwrite` returned false and the file is not written. For an empty image and for
a body that throws, the method does return the empty string. -/
theorem saveEventImage_path_without_file :
    saveEventImage fresh false "Cam 1".toList "Door".toList 5 .FIRST_ENTRY
        ⟨false, "2024-01-01".toList, "120000".toList, 0, 0⟩
      = "events/Cam_1/Door/2024-01-01/5_120000_ENTRY.jpg".toList ∧
    imageWritten false ⟨false, "2024-01-01".toList, "120000".toList, 0, 0⟩ false = false ∧
    saveEventImage fresh true "Cam 1".toList "Door".toList 5 .FIRST_ENTRY
        ⟨false, "2024-01-01".toList, "120000".toList, 0, 0⟩ = [] ∧
    saveEventImage fresh false "Cam 1".toList "Door".toList 5 .FIRST_ENTRY
        ⟨true, "2024-01-01".toList, "120000".toList, 0, 0⟩ = [] := by
  decide

end EventManager

/-! ## The value of `calcIoU` -/

/-- Without overflow, `calcIoU` is the float quotient of the two areas, and `0.0f` when the
union has no area. -/
theorem calcIoU_of_noOverflow {F : Type} [LinearOrder F] (ops : FloatOps F) (a b : Rect)
    (h : NoOverflow a b) :
    calcIoU ops a b = if unionArea a b ≤ 0 then ops.zero
      else ops.div (ops.ofInt (intersectionArea a b)) (ops.ofInt (unionArea a b)) := by
  obtain ⟨h1, h2, h3, h4, h5, h6, h7, h8, h9, h10, h11⟩ := h
  unfold unionArea intersectionArea at *
  unfold calcIoU
  simp only [toInt32_of_inInt32 h1, toInt32_of_inInt32 h2, toInt32_of_inInt32 h3,
    toInt32_of_inInt32 h4, toInt32_of_inInt32 h5, toInt32_of_inInt32 h6,
    toInt32_of_inInt32 h7, toInt32_of_inInt32 h8, toInt32_of_inInt32 h9,
    toInt32_of_inInt32 h10, toInt32_of_inInt32 h11]

theorem calcIoU_comm {F : Type} [LinearOrder F] (ops : FloatOps F) (a b : Rect) :
    calcIoU ops a b = calcIoU ops b a := by
  unfold calcIoU
  simp only [max_comm a.x b.x, max_comm a.y b.y,
    min_comm (toInt32 (a.x + a.width)) (toInt32 (b.x + b.width)),
    min_comm (toInt32 (a.y + a.height)) (toInt32 (b.y + b.height)),
    add_comm (toInt32 (a.width * a.height)) (toInt32 (b.width * b.height))]

theorem intersectionArea_nonneg (a b : Rect) : 0 ≤ intersectionArea a b := by
  unfold intersectionArea
  exact mul_nonneg (le_max_left _ _) (le_max_left _ _)

theorem intersectionArea_le_left (a b : Rect) (hw : 0 ≤ a.width) (hh : 0 ≤ a.height) :
    intersectionArea a b ≤ a.width * a.height := by
  unfold intersectionArea
  apply mul_le_mul _ _ (le_max_left _ _) hw
  · omega
  · omega

theorem intersectionArea_le_right (a b : Rect) (hw : 0 ≤ b.width) (hh : 0 ≤ b.height) :
    intersectionArea a b ≤ b.width * b.height := by
  unfold intersectionArea
  apply mul_le_mul _ _ (le_max_left _ _) hw
  · omega
  · omega

theorem intersectionArea_self (a : Rect) (hw : 0 ≤ a.width) (hh : 0 ≤ a.height) :
    intersectionArea a a = a.width * a.height := by
  unfold intersectionArea
  have h1 : max 0 (min (a.x + a.width) (a.x + a.width) - max a.x a.x) = a.width := by omega
  have h2 : max 0 (min (a.y + a.height) (a.y + a.height) - max a.y a.y) = a.height := by
    omega
  rw [h1, h2]

theorem Rounding.one_le_rnd (R : Rounding) (n : Int) (h : 0 < n) : 1 ≤ R.rnd n := by
  have h1 : (1 : ℚ) ≤ n := by exact_mod_cast h
  have := R.mono 1 n h1
  rwa [R.rnd_one] at this

/-- C30: for rectangles `a` and `b` of non-negative width and height whose `int` arithmetic
in `calcIoU` is without overflow: when the union has area, `calcIoU a b` is the float
quotient of the intersection area and the union area (the rounded quotient of the two areas
converted to `float`, the exact quotient under exact arithmetic); the value lies in [0, 1];
when the union area is not positive the function returns `0.0f` whatever the division would
give; the value is 0 when the rectangles do not overlap and 1 when `a = b` has positive area;
and `calcIoU a b = calcIoU b a`. -/
theorem calcIoU_spec (R : Rounding) (a b : Rect) (ha : 0 ≤ a.width ∧ 0 ≤ a.height)
    (hb : 0 ≤ b.width ∧ 0 ≤ b.height) (hno : NoOverflow a b) :
    (0 < unionArea a b → calcIoU R.ops a b
      = R.rnd (R.rnd (intersectionArea a b) / R.rnd (unionArea a b))) ∧
    (0 < unionArea a b → calcIoU Rounding.exact.ops a b
      = (intersectionArea a b : ℚ) / (unionArea a b : ℚ)) ∧
    (0 ≤ calcIoU R.ops a b ∧ calcIoU R.ops a b ≤ 1) ∧
    (∀ (F : Type) [LinearOrder F] (ops : FloatOps F),
      unionArea a b ≤ 0 → calcIoU ops a b = ops.zero) ∧
    ((a.x + a.width ≤ b.x ∨ b.x + b.width ≤ a.x ∨ a.y + a.height ≤ b.y ∨
        b.y + b.height ≤ a.y) → calcIoU R.ops a b = 0) ∧
    (a = b → 0 < a.width * a.height → calcIoU R.ops a b = 1) ∧
    (∀ (F : Type) [LinearOrder F] (ops : FloatOps F), calcIoU ops a b = calcIoU ops b a) := by
  have hI0 := intersectionArea_nonneg a b
  have hIU : intersectionArea a b ≤ unionArea a b := by
    have h1 := intersectionArea_le_left a b ha.1 ha.2
    have h2 := intersectionArea_le_right a b hb.1 hb.2
    unfold unionArea
    omega
  have hpos : 0 < unionArea a b → calcIoU R.ops a b
      = R.rnd (R.rnd (intersectionArea a b) / R.rnd (unionArea a b)) := by
    intro hU
    rw [calcIoU_of_noOverflow _ a b hno, if_neg (by omega)]
    rfl
  have hzero : ∀ (F : Type) [LinearOrder F] (ops : FloatOps F),
      unionArea a b ≤ 0 → calcIoU ops a b = ops.zero := by
    intro F _ ops hU
    rw [calcIoU_of_noOverflow _ a b hno, if_pos hU]
  have hrnd0 : ∀ n : Int, 0 ≤ n → 0 ≤ R.rnd n := by
    intro n hn
    have := R.mono 0 n (by exact_mod_cast hn)
    rwa [R.rnd_zero] at this
  refine ⟨hpos, ?_, ?_, hzero, ?_, ?_, fun F _ ops => calcIoU_comm ops a b⟩
  · intro hU
    rw [calcIoU_of_noOverflow _ a b hno, if_neg (by omega)]
    rfl
  · by_cases hU : 0 < unionArea a b
    · rw [hpos hU]
      have hu1 := R.one_le_rnd _ hU
      have hi0 := hrnd0 _ hI0
      have hiu : R.rnd (intersectionArea a b) ≤ R.rnd (unionArea a b) :=
        R.mono _ _ (by exact_mod_cast hIU)
      have hq0 : 0 ≤ R.rnd (intersectionArea a b) / R.rnd (unionArea a b) :=
        div_nonneg hi0 (by linarith)
      have hq1 : R.rnd (intersectionArea a b) / R.rnd (unionArea a b) ≤ 1 :=
        (div_le_one (by linarith)).2 hiu
      have h0 := R.mono _ _ hq0
      have h1 := R.mono _ _ hq1
      rw [R.rnd_zero] at h0
      rw [R.rnd_one] at h1
      exact ⟨h0, h1⟩
    · rw [hzero ℚ R.ops (by omega)]
      exact ⟨le_refl _, zero_le_one⟩
  · intro hsep
    have hI : intersectionArea a b = 0 := by
      unfold intersectionArea
      rcases hsep with h | h | h | h
      · have : max 0 (min (a.x + a.width) (b.x + b.width) - max a.x b.x) = 0 := by omega
        rw [this, zero_mul]
      · have : max 0 (min (a.x + a.width) (b.x + b.width) - max a.x b.x) = 0 := by omega
        rw [this, zero_mul]
      · have : max 0 (min (a.y + a.height) (b.y + b.height) - max a.y b.y) = 0 := by omega
        rw [this, mul_zero]
      · have : max 0 (min (a.y + a.height) (b.y + b.height) - max a.y b.y) = 0 := by omega
        rw [this, mul_zero]
    by_cases hU : 0 < unionArea a b
    · rw [hpos hU, hI]
      simp only [Int.cast_zero, R.rnd_zero, zero_div]
    · exact hzero ℚ R.ops (by omega)
  · intro hab harea
    subst hab
    have hI := intersectionArea_self a ha.1 ha.2
    have hU : unionArea a a = a.width * a.height := by
      unfold unionArea
      rw [hI]
      omega
    rw [hpos (by rw [hU]; exact harea), hI, hU]
    have hne : R.rnd ((a.width * a.height : Int) : ℚ) ≠ 0 := by
      have := R.one_le_rnd _ harea
      linarith
    rw [div_self hne, R.rnd_one]

/-- Witness of C30: the boxes `(0, 0, 10, 10)` and `(0, 0, 10, 20)` have intersection area
100 and union area 200, and in exact arithmetic `calcIoU` gives 1/2 for them. -/
theorem calcIoU_spec_witness :
    intersectionArea ⟨0, 0, 10, 10⟩ ⟨0, 0, 10, 20⟩ = 100 ∧
    unionArea ⟨0, 0, 10, 10⟩ ⟨0, 0, 10, 20⟩ = 200 ∧
    calcIoU Rounding.exact.ops ⟨0, 0, 10, 10⟩ ⟨0, 0, 10, 20⟩ = ((100 : Int) : ℚ) / (200 : Int) :=
  have h := calcIoU_spec Rounding.exact ⟨0, 0, 10, 10⟩ ⟨0, 0, 10, 20⟩
    (by decide) (by decide) (by decide)
  ⟨by decide, by decide, h.2.1 (by decide)⟩

/-! ## The JSON round trip of an event -/

namespace DetectionEvent

theorem toJson_eq (fmt : DateTimeFormat) (e : DetectionEvent) :
    toJson fmt e = some (.object
      [("bbox".toList, .object
          [("height".toList, .number_integer e.bbox.height),
           ("width".toList, .number_integer e.bbox.width),
           ("x".toList, .number_integer e.bbox.x),
           ("y".toList, .number_integer e.bbox.y)]),
       ("camera_id".toList, .number_integer e.cameraId),
       ("camera_name".toList, .string e.cameraName),
       ("confidence".toList, .number_float e.confidence),
       ("event_type".toList, .string e.getEventTypeString),
       ("frame_number".toList, .number_integer e.frameNumber),
       ("image_path".toList, .string e.imagePath),
       ("object_class".toList, .string e.objectClass),
       ("region_name".toList, .string e.regionName),
       ("timestamp".toList, .string (fmt.toString e.timestamp)),
       ("track_id".toList, .number_unsigned e.trackId)]) := by
  rfl

theorem fromJson_toJson_raw (R : Rounding) (fmt : DateTimeFormat) (now : Int)
    (e : DetectionEvent) :
    (toJson fmt e).bind (fromJson R fmt now) = some
      { trackId := e.trackId % 2 ^ 64, cameraId := toInt32 e.cameraId
        cameraName := e.cameraName, regionName := e.regionName, objectClass := e.objectClass
        confidence := R.rnd e.confidence
        eventType := stringToEventType e.getEventTypeString
        timestamp := fmt.fromString (fmt.toString e.timestamp)
        bbox := ⟨toInt32 e.bbox.x, toInt32 e.bbox.y, toInt32 e.bbox.width,
          toInt32 e.bbox.height⟩
        imagePath := e.imagePath, frameNumber := toInt32 e.frameNumber } := by
  rw [toJson_eq]
  rfl

theorem stringToEventType_getEventTypeString (e : DetectionEvent) :
    stringToEventType e.getEventTypeString = e.eventType := by
  unfold getEventTypeString
  cases e.eventType <;> decide

/-- C25: for every event whose members have the values of their C++ types, and a timestamp
that `QDateTime::fromString` reads back from the text of `toString` as the time cut to whole
seconds, `fromJson (toJson e)` returns the event `e` with that timestamp: track id, camera id,
camera name, region name, object class, confidence, event kind, frame number, image path and
bounding box are those of `e`. The serialised `event_type` is "ENTRY", "PERIODIC" or "EXIT",
and `stringToEventType` maps each back to the kind that produced it. -/
theorem fromJson_toJson (R : Rounding) (fmt : DateTimeFormat) (now : Int)
    (e : DetectionEvent) (hty : WellTyped R e)
    (hqt : fmt.fromString (fmt.toString e.timestamp) = e.timestamp / 1000 * 1000) :
    (toJson fmt e).bind (fromJson R fmt now)
      = some { e with timestamp := e.timestamp / 1000 * 1000 } ∧
    ((toJson fmt e).bind fun j => j.item "event_type".toList)
      = some (.string e.getEventTypeString) ∧
    e.getEventTypeString ∈ ["ENTRY".toList, "PERIODIC".toList, "EXIT".toList] ∧
    stringToEventType e.getEventTypeString = e.eventType ∧
    stringToEventType "ENTRY".toList = .FIRST_ENTRY ∧
    stringToEventType "PERIODIC".toList = .PERIODIC ∧
    stringToEventType "EXIT".toList = .EXIT := by
  obtain ⟨h1, h2, h3, h4, h5, h6, h7, h8⟩ := hty
  refine ⟨?_, ?_, ?_, stringToEventType_getEventTypeString e, by decide, by decide,
    by decide⟩
  · rw [fromJson_toJson_raw, Nat.mod_eq_of_lt h1, toInt32_of_inInt32 h2,
      toInt32_of_inInt32 h3, toInt32_of_inInt32 h4, toInt32_of_inInt32 h5,
      toInt32_of_inInt32 h6, toInt32_of_inInt32 h7, h8, hqt,
      stringToEventType_getEventTypeString]
  · rw [toJson_eq]
    rfl
  · unfold getEventTypeString
    cases e.eventType <;> decide

/-- Witness of C25: an EXIT event of track 5 stamped 5500 ms, with a date format that writes
the whole seconds as that many letters; the event read back is stamped 5000 ms. -/
theorem fromJson_toJson_witness :
    (toJson ⟨fun t => List.replicate (t / 1000).toNat 's', fun s => s.length * 1000⟩
        ⟨5, 1, "Cam 1".toList, "Door".toList, "person".toList, 0, .EXIT, 5500,
          ⟨10, 20, 40, 40⟩, "events/5.jpg".toList, 11⟩).bind
      (fromJson Rounding.exact
        ⟨fun t => List.replicate (t / 1000).toNat 's', fun s => s.length * 1000⟩ 0)
      = some ⟨5, 1, "Cam 1".toList, "Door".toList, "person".toList, 0, .EXIT, 5000,
          ⟨10, 20, 40, 40⟩, "events/5.jpg".toList, 11⟩ :=
  (fromJson_toJson Rounding.exact
    ⟨fun t => List.replicate (t / 1000).toNat 's', fun s => s.length * 1000⟩ 0
    ⟨5, 1, "Cam 1".toList, "Door".toList, "person".toList, 0, .EXIT, 5500,
      ⟨10, 20, 40, 40⟩, "events/5.jpg".toList, 11⟩
    ⟨by decide, by decide, by decide, by decide, by decide, by decide, by decide, rfl⟩
    (by decide)).1

end DetectionEvent
